import Mathlib

/-!
CrossPoint reader: bitmap decoder, section cache, sleep screen and settings.

A shallow embedding of `lib/GfxRenderer/Bitmap.cpp`, `lib/Epub/Epub/Section.cpp`,
`src/activities/boot_sleep/SleepActivity.cpp` and `src/CrossPointSettings.cpp`
together with the properties proved about them.

Conventions of the embedding:
* C `int` values are `Int`; unsigned values are `Nat`; a store into a narrower
  machine integer is written with an explicit wrap (`wrapU8`, `wrap16`, `toInt32`),
  and `int` arithmetic that can leave the 32-bit range is wrapped with `wrap32`.
* Mutable members and out-parameters become explicit state that is returned.
* Arrays are lists; `getD` reads and `set` writes.
-/

namespace CrossPoint

/-! ## Machine integers -/

/-- Truncation of a value stored into a `uint8_t`. -/
def wrapU8 (n : Nat) : Nat := n % 256

/-- Reinterpretation of a 32-bit pattern as `int32_t` (two's complement). -/
def toInt32 (u : Nat) : Int :=
  if u % 4294967296 < 2147483648 then ((u % 4294967296 : Nat) : Int)
  else ((u % 4294967296 : Nat) : Int) - 4294967296

/-- Wrap of an `int` result into the `int32_t` range. -/
def wrap32 (i : Int) : Int := toInt32 (i % 4294967296).toNat

/-- Truncation of an `int` stored into an `int16_t`. -/
def wrap16 (i : Int) : Int :=
  if i % 65536 < 32768 then i % 65536 else i % 65536 - 65536

/-! ## Image processing options (compile-time constants of Bitmap.cpp) -/

def USE_NOISE_DITHERING : Bool := false
def USE_BRIGHTNESS : Bool := false
def BRIGHTNESS_BOOST : Int := 10
def GAMMA_CORRECTION : Bool := false

/-- The constant `static_cast<int>(CONTRAST_FACTOR * 100)` with `CONTRAST_FACTOR = 1.15f`
(the single-precision product rounds to exactly 115). -/
def factorNum : Int := 115

/-- Integer approximation of gamma correction; `applyGamma` of Bitmap.cpp. -/
def applyGamma (gray : Int) : Int :=
  if !GAMMA_CORRECTION then gray
  else
    let product := gray * 255
    let x := gray
    let x := if x > 0 then
        let x1 := (x + Int.tdiv product x) >>> 1
        (x1 + Int.tdiv product x1) >>> 1
      else x
    if x > 255 then 255 else x

/-- Contrast adjustment around the midpoint 128; `applyContrast` of Bitmap.cpp. -/
def applyContrast (gray : Int) : Int :=
  let adjusted := Int.tdiv ((gray - 128) * factorNum) 100 + 128
  let adjusted := if adjusted < 0 then 0 else adjusted
  let adjusted := if adjusted > 255 then 255 else adjusted
  adjusted

/-- Combined brightness/contrast/gamma adjustment; `adjustPixel` of Bitmap.cpp. -/
def adjustPixel (gray : Int) : Int :=
  if !USE_BRIGHTNESS then gray
  else
    let gray := applyContrast gray
    let gray := gray + BRIGHTNESS_BOOST
    let gray := if gray > 255 then 255 else gray
    let gray := if gray < 0 then 0 else gray
    applyGamma gray

/-! ## Quantization -/

/-- Simple quantization into four levels; `quantizeSimple` of Bitmap.cpp. -/
def quantizeSimple (gray : Int) : Nat :=
  if gray < 50 then 0
  else if gray < 70 then 1
  else if gray < 140 then 2
  else 3

/-- Hash-based noise dithering; `quantizeNoise` of Bitmap.cpp. The hash is
computed in `uint32_t`, so every product and sum is taken modulo 2^32. -/
def quantizeNoise (gray : Int) (x y : Int) : Nat :=
  let ux := (x % 4294967296).toNat
  let uy := (y % 4294967296).toNat
  let hash := (ux * 374761393 % 4294967296 + uy * 668265263 % 4294967296) % 4294967296
  let hash := ((hash ^^^ (hash >>> 13)) * 1274126177) % 4294967296
  let threshold : Int := ((hash >>> 24 : Nat) : Int)
  let scaled := gray * 3
  if scaled < 255 then
    (if scaled + threshold ≥ 255 then 1 else 0)
  else if scaled < 510 then
    (if (scaled - 255) + threshold ≥ 255 then 2 else 1)
  else
    (if (scaled - 510) + threshold ≥ 255 then 3 else 2)

/-- Main quantization function; `quantize` of Bitmap.cpp. -/
def quantize (gray : Int) (x y : Int) : Nat :=
  if USE_NOISE_DITHERING then quantizeNoise gray x y
  else quantizeSimple gray

/-- The statement `buf[i] += delta` on an `int16_t` array. -/
def addAt (buf : List Int) (i : Nat) (delta : Int) : List Int :=
  buf.set i (wrap16 (buf.getD i 0 + delta))

/-- Floyd-Steinberg quantization of one pixel with error diffusion;
`quantizeFloydSteinberg` of Bitmap.cpp. Returns the 2-bit level and the two
updated error rows. -/
def quantizeFloydSteinberg (gray : Int) (x : Nat) (_width : Int)
    (errorCurRow errorNextRow : List Int) (reverseDir : Bool) :
    Nat × List Int × List Int :=
  let adjusted := gray + errorCurRow.getD (x + 1) 0
  let adjusted := if adjusted < 0 then 0 else adjusted
  let adjusted := if adjusted > 255 then 255 else adjusted
  let q : Nat × Int :=
    if adjusted < 30 then (0, 15)
    else if adjusted < 50 then (1, 30)
    else if adjusted < 140 then (2, 80)
    else (3, 210)
  let quantized := q.1
  let quantizedValue := q.2
  let error := adjusted - quantizedValue
  if !reverseDir then
    let errorCurRow := addAt errorCurRow (x + 2) ((error * 7) >>> 4)
    let errorNextRow := addAt errorNextRow x ((error * 3) >>> 4)
    let errorNextRow := addAt errorNextRow (x + 1) ((error * 5) >>> 4)
    let errorNextRow := addAt errorNextRow (x + 2) (error >>> 4)
    (quantized, errorCurRow, errorNextRow)
  else
    let errorCurRow := addAt errorCurRow x ((error * 7) >>> 4)
    let errorNextRow := addAt errorNextRow (x + 2) ((error * 3) >>> 4)
    let errorNextRow := addAt errorNextRow (x + 1) ((error * 5) >>> 4)
    let errorNextRow := addAt errorNextRow x (error >>> 4)
    (quantized, errorCurRow, errorNextRow)

/-! ## The byte source

`FsFile` is the SD library's file handle. It is outside the repository; the
model keeps what Bitmap.cpp relies on: a byte array, a read position, reads that
stop at the end of the file, and seeks that fail beyond the end of the file. -/

structure FsFile where
  isOpen : Bool
  data : List Nat
  pos : Nat
  deriving DecidableEq, Repr

namespace FsFile

/-- Byte of the file at an absolute offset. -/
def byteAt (f : FsFile) (i : Nat) : Nat := f.data.getD i 0 % 256

/-- Single byte read, `f.read()`: the byte, or -1 at the end of the file. -/
def read (f : FsFile) : Int × FsFile :=
  if f.pos < f.data.length then ((f.byteAt f.pos : Nat), { f with pos := f.pos + 1 })
  else (-1, f)

/-- Bulk read, `f.read(buf, n)`: the bytes obtained (at most `n`) and the advanced file. -/
def readBuf (f : FsFile) (n : Nat) : List Nat × FsFile :=
  let got := ((f.data.drop f.pos).take n).map (fun b => b % 256)
  (got, { f with pos := f.pos + got.length })

/-- Absolute seek, `f.seek(p)`: fails, leaving the position, beyond the end of the file. -/
def seek (f : FsFile) (p : Nat) : Bool × FsFile :=
  if p ≤ f.data.length then (true, { f with pos := p }) else (false, f)

/-- Relative seek, `f.seekCur(n)`. -/
def seekCur (f : FsFile) (n : Nat) : Bool × FsFile := f.seek (f.pos + n)

end FsFile

/-- Little-endian 16-bit read; `Bitmap::readLE16`. -/
def readLE16 (f : FsFile) : Nat × FsFile :=
  let (c0, f) := f.read
  let (c1, f) := f.read
  let b0 := wrapU8 (if c0 < 0 then 0 else c0).toNat
  let b1 := wrapU8 (if c1 < 0 then 0 else c1).toNat
  ((b0 ||| (b1 <<< 8)) % 65536, f)

/-- Little-endian 32-bit read; `Bitmap::readLE32`. -/
def readLE32 (f : FsFile) : Nat × FsFile :=
  let (c0, f) := f.read
  let (c1, f) := f.read
  let (c2, f) := f.read
  let (c3, f) := f.read
  let b0 := wrapU8 (if c0 < 0 then 0 else c0).toNat
  let b1 := wrapU8 (if c1 < 0 then 0 else c1).toNat
  let b2 := wrapU8 (if c2 < 0 then 0 else c2).toNat
  let b3 := wrapU8 (if c3 < 0 then 0 else c3).toNat
  ((b0 ||| (b1 <<< 8) ||| (b2 <<< 16) ||| (b3 <<< 24)) % 4294967296, f)

/-! ## The bitmap session -/

inductive BmpReaderError where
  | Ok
  | FileInvalid
  | SeekStartFailed
  | NotBMP
  | DIBTooSmall
  | BadPlanes
  | UnsupportedBpp
  | UnsupportedCompression
  | BadDimensions
  | ImageTooLarge
  | PaletteTooLarge
  | SeekPixelDataFailed
  | BufferTooSmall
  | OomRowBuffer
  | ShortReadRow
  deriving DecidableEq, Repr

/-- The members of class `Bitmap` that Bitmap.cpp reads and writes. A null
error-row pointer is `none`. -/
structure Bitmap where
  file : FsFile
  useFloydSteinberg : Bool
  width : Int
  height : Int
  topDown : Bool
  bpp : Nat
  bfOffBits : Nat
  rowBytes : Int
  paletteLum : List Nat
  errorCurRow : Option (List Int)
  errorNextRow : Option (List Int)
  prevRowY : Int
  deriving DecidableEq, Repr

def MAX_IMAGE_WIDTH : Int := 2048
def MAX_IMAGE_HEIGHT : Int := 3072

/-- Weighted luminance `(77*R + 150*G + 29*B) >> 8` of a pixel stored as B, G, R. -/
def lumOf (b g r : Nat) : Nat := (77 * r + 150 * g + 29 * b) >>> 8

/-- One iteration of the palette loop of `parseHeaders`: read four bytes
(B, G, R, reserved) and store the luminance at index `i`. The local array `rgb`
is uninitialised in the source; bytes the read does not deliver are taken as 0. -/
def paletteStep (st : FsFile × List Nat) (i : Nat) : FsFile × List Nat :=
  let (rgb, f) := st.1.readBuf 4
  (f, st.2.set i (wrapU8 (lumOf (rgb.getD 0 0) (rgb.getD 1 0) (rgb.getD 2 0))))

/-- The header fields in the order `parseHeaders` reads them: the raw values
obtained by its sequence of reads and skips, without the validation steps. -/
structure HeaderFields where
  bfType : Nat
  bfOffBits : Nat
  biSize : Nat
  width : Nat
  rawHeight : Nat
  planes : Nat
  bpp : Nat
  comp : Nat
  colorsUsed : Nat
  deriving DecidableEq, Repr

/-- Header parse; `Bitmap::parseHeaders`. Returns the error code and the
session as the call leaves it: each return point lists the members assigned
before it. -/
def parseHeaders (b : Bitmap) : BmpReaderError × Bitmap :=
  if !b.file.isOpen then (.FileInvalid, b) else
  let s0 := b.file.seek 0
  if !s0.1 then (.SeekStartFailed, { b with file := s0.2 }) else
  -- BMP file header
  let r1 := readLE16 s0.2
  let bfType := r1.1
  if bfType ≠ 0x4D42 then (.NotBMP, { b with file := r1.2 }) else
  let s1 := r1.2.seekCur 8
  let r2 := readLE32 s1.2
  let bfOffBits := r2.1
  -- DIB header
  let r3 := readLE32 r2.2
  let biSize := r3.1
  if biSize < 40 then (.DIBTooSmall, { b with file := r3.2, bfOffBits := bfOffBits }) else
  let r4 := readLE32 r3.2
  let width := toInt32 r4.1
  let r5 := readLE32 r4.2
  let rawHeight := toInt32 r5.1
  let topDown := decide (rawHeight < 0)
  let height := if topDown then wrap32 (-rawHeight) else rawHeight
  let r6 := readLE16 r5.2
  let planes := r6.1
  let r7 := readLE16 r6.2
  let bpp := r7.1
  let r8 := readLE32 r7.2
  let comp := r8.1
  let validBpp := bpp == 1 || bpp == 2 || bpp == 8 || bpp == 24 || bpp == 32
  if planes ≠ 1 then
    (.BadPlanes, { b with file := r8.2, bfOffBits := bfOffBits, width := width,
                          height := height, topDown := topDown, bpp := bpp }) else
  if !validBpp then
    (.UnsupportedBpp, { b with file := r8.2, bfOffBits := bfOffBits, width := width,
                               height := height, topDown := topDown, bpp := bpp }) else
  if !(comp == 0 || (bpp == 32 && comp == 3)) then
    (.UnsupportedCompression, { b with file := r8.2, bfOffBits := bfOffBits, width := width,
                                       height := height, topDown := topDown, bpp := bpp }) else
  let s2 := r8.2.seekCur 12
  let r9 := readLE32 s2.2
  let colorsUsed := r9.1
  if colorsUsed > 256 then
    (.PaletteTooLarge, { b with file := r9.2, bfOffBits := bfOffBits, width := width,
                                height := height, topDown := topDown, bpp := bpp }) else
  let s3 := r9.2.seekCur 4
  if width ≤ 0 ∨ height ≤ 0 then
    (.BadDimensions, { b with file := s3.2, bfOffBits := bfOffBits, width := width,
                              height := height, topDown := topDown, bpp := bpp }) else
  if width > MAX_IMAGE_WIDTH ∨ height > MAX_IMAGE_HEIGHT then
    (.ImageTooLarge, { b with file := s3.2, bfOffBits := bfOffBits, width := width,
                              height := height, topDown := topDown, bpp := bpp }) else
  let rowBytes := Int.tdiv (width * (bpp : Int) + 31) 32 * 4
  let pal0 := (List.range 256).map (fun i => wrapU8 i)
  let pl := (List.range colorsUsed).foldl paletteStep (s3.2, pal0)
  let s4 := pl.1.seek bfOffBits
  if !s4.1 then
    (.SeekPixelDataFailed, { b with file := s4.2, bfOffBits := bfOffBits, width := width,
                                    height := height, topDown := topDown, bpp := bpp,
                                    rowBytes := rowBytes, paletteLum := pl.2 }) else
  if b.useFloydSteinberg then
    (.Ok, { b with file := s4.2, bfOffBits := bfOffBits, width := width, height := height,
                   topDown := topDown, bpp := bpp, rowBytes := rowBytes, paletteLum := pl.2,
                   errorCurRow := some (List.replicate (width + 2).toNat 0),
                   errorNextRow := some (List.replicate (width + 2).toNat 0),
                   prevRowY := -1 })
  else
    (.Ok, { b with file := s4.2, bfOffBits := bfOffBits, width := width, height := height,
                   topDown := topDown, bpp := bpp, rowBytes := rowBytes, paletteLum := pl.2 })

/-- The raw header fields obtained by the read sequence of `parseHeaders`
(seek to 0, magic, skip 8, pixel-data offset, info-header size, width, height,
planes, bits per pixel, compression, skip 12, colours used). -/
def headerFields (f : FsFile) : HeaderFields :=
  let s0 := f.seek 0
  let r1 := readLE16 s0.2
  let s1 := r1.2.seekCur 8
  let r2 := readLE32 s1.2
  let r3 := readLE32 r2.2
  let r4 := readLE32 r3.2
  let r5 := readLE32 r4.2
  let r6 := readLE16 r5.2
  let r7 := readLE16 r6.2
  let r8 := readLE32 r7.2
  let s2 := r8.2.seekCur 12
  let r9 := readLE32 s2.2
  { bfType := r1.1, bfOffBits := r2.1, biSize := r3.1, width := r4.1, rawHeight := r5.1,
    planes := r6.1, bpp := r7.1, comp := r8.1, colorsUsed := r9.1 }

/-! ## Row decoding -/

/-- The statement `memset(buf, 0, n * sizeof(int16_t))`: the first `n` entries become 0. -/
def memsetZero (buf : List Int) (n : Nat) : List Int :=
  List.replicate (min n buf.length) 0 ++ buf.drop n

/-- Local state of the pixel loop of `readNextRow`: the bytes stored through
`outPtr` so far (byte `i` of `out` is `data[i]`; `outPtr - data = out.length`),
the byte being assembled, the shift of the next pixel, the pixel counter, and
the two error rows the quantizer updates. -/
structure PackState where
  out : List Nat
  currentOutByte : Nat
  bitShift : Nat
  currentX : Nat
  errorCurRow : List Int
  errorNextRow : List Int
  deriving DecidableEq, Repr

/-- The quantizer call made by the `packPixel` lambda: the 2-bit colour chosen
for luminance `lum` in loop state `s`, with the error rows after the call. -/
def pixelQuant (useFS : Bool) (width prevRowY : Int) (s : PackState) (lum : Nat) :
    Nat × List Int × List Int :=
  if useFS then
    quantizeFloydSteinberg (adjustPixel lum) s.currentX width s.errorCurRow s.errorNextRow false
  else
    (quantize (adjustPixel lum) s.currentX prevRowY, s.errorCurRow, s.errorNextRow)

/-- The lambda `packPixel` of `readNextRow`. -/
def packPixel (useFS : Bool) (width prevRowY : Int) (s : PackState) (lum : Nat) : PackState :=
  let q := pixelQuant useFS width prevRowY s lum
  let color := q.1
  let currentOutByte := wrapU8 (s.currentOutByte ||| (color <<< s.bitShift))
  if s.bitShift = 0 then
    { out := s.out ++ [currentOutByte], currentOutByte := 0, bitShift := 6,
      currentX := s.currentX + 1, errorCurRow := q.2.1, errorNextRow := q.2.2 }
  else
    { out := s.out, currentOutByte := currentOutByte, bitShift := s.bitShift - 2,
      currentX := s.currentX + 1, errorCurRow := q.2.1, errorNextRow := q.2.2 }

/-- Luminance of pixel `x` of a row, as the `switch (bpp)` of `readNextRow`
computes it; `none` is the `default` branch. -/
def lumAt (bpp : Nat) (paletteLum rowBuffer : List Nat) : Option (Nat → Nat) :=
  if bpp = 32 then
    some (fun x => wrapU8 (lumOf (rowBuffer.getD (4 * x) 0) (rowBuffer.getD (4 * x + 1) 0)
      (rowBuffer.getD (4 * x + 2) 0)))
  else if bpp = 24 then
    some (fun x => wrapU8 (lumOf (rowBuffer.getD (3 * x) 0) (rowBuffer.getD (3 * x + 1) 0)
      (rowBuffer.getD (3 * x + 2) 0)))
  else if bpp = 8 then
    some (fun x => paletteLum.getD (rowBuffer.getD x 0) 0)
  else if bpp = 2 then
    some (fun x => paletteLum.getD ((rowBuffer.getD (x >>> 2) 0 >>> (6 - (x &&& 3) * 2)) &&& 3) 0)
  else if bpp = 1 then
    some (fun x => if rowBuffer.getD (x >>> 3) 0 &&& (0x80 >>> (x &&& 7)) ≠ 0 then 0xFF else 0x00)
  else none

/-- The flag `useFS` of `readNextRow`. -/
def useFS (b : Bitmap) : Bool :=
  b.useFloydSteinberg && b.errorCurRow.isSome && b.errorNextRow.isSome

/-- Error-row progression at the start of `readNextRow`: on the second and
later rows the two rows are swapped and the new next row is zeroed; the row
counter is incremented in every mode. -/
def beginRow (b : Bitmap) : Bitmap :=
  let b :=
    if useFS b && decide (b.prevRowY ≠ -1) then
      { b with errorCurRow := b.errorNextRow,
               errorNextRow := b.errorCurRow.map (fun t => memsetZero t (b.width + 2).toNat) }
    else b
  { b with prevRowY := b.prevRowY + 1 }

/-- Loop state at the start of a row. -/
def packInit (b : Bitmap) : PackState :=
  { out := [], currentOutByte := 0, bitShift := 6, currentX := 0,
    errorCurRow := b.errorCurRow.getD [], errorNextRow := b.errorNextRow.getD [] }

/-- The loop `for (int x = 0; x < width; x++) packPixel(lum(x))`, run for the
first `n` pixels from state `s`. -/
def pixelLoop (fs : Bool) (width prevRowY : Int) (lf : Nat → Nat) (n : Nat) (s : PackState) :
    PackState :=
  (List.range n).foldl (fun s x => packPixel fs width prevRowY s (lf x)) s

/-- The final statement `if (bitShift != 6) *outPtr = currentOutByte`. -/
def flush (s : PackState) : List Nat :=
  if s.bitShift ≠ 6 then s.out ++ [s.currentOutByte] else s.out

/-- Row decode; `Bitmap::readNextRow`. Returns the error code, the bytes
stored into `data` (in order, from `data[0]`; no other byte of `data` is
written) and the session as the call leaves it. -/
def readNextRow (b : Bitmap) : BmpReaderError × List Nat × Bitmap :=
  let rd := b.file.readBuf (b.rowBytes % 4294967296).toNat
  let rowBuffer := rd.1
  let b := { b with file := rd.2 }
  if (rowBuffer.length : Int) ≠ b.rowBytes then (.ShortReadRow, [], b) else
  let fs := useFS b
  let b := beginRow b
  match lumAt b.bpp b.paletteLum rowBuffer with
  | none => (.UnsupportedBpp, [], b)
  | some lf =>
    let s := pixelLoop fs b.width b.prevRowY lf b.width.toNat (packInit b)
    let b :=
      if fs then { b with errorCurRow := some s.errorCurRow, errorNextRow := some s.errorNextRow }
      else b
    (.Ok, flush s, b)

/-- Rewind to the pixel data; `Bitmap::rewindToData`. -/
def rewindToData (b : Bitmap) : BmpReaderError × Bitmap :=
  let s := b.file.seek b.bfOffBits
  if !s.1 then (.SeekPixelDataFailed, { b with file := s.2 }) else
  let b := { b with file := s.2 }
  if useFS b then
    (.Ok, { b with errorCurRow := b.errorCurRow.map (fun t => memsetZero t (b.width + 2).toNat),
                   errorNextRow := b.errorNextRow.map (fun t => memsetZero t (b.width + 2).toNat),
                   prevRowY := -1 })
  else (.Ok, b)

/-- Results of `n` consecutive calls of `readNextRow`: the error code and
output bytes of each call in order, and the final session. -/
def readRows : Nat → Bitmap → List (BmpReaderError × List Nat) × Bitmap
  | 0, b => ([], b)
  | n + 1, b =>
    let r := readNextRow b
    let rest := readRows n r.2.2
    ((r.1, r.2.1) :: rest.1, rest.2)

/-! ## Header validation -/

/-- The image height `parseHeaders` derives from the raw height field:
the field itself, negated (in `int32_t`) when it is negative. -/
def headerHeight (h : HeaderFields) : Int :=
  if toInt32 h.rawHeight < 0 then wrap32 (-(toInt32 h.rawHeight)) else toInt32 h.rawHeight

/-- The validation rules in the order the specification lists them, each
with its own error code: the code of the first rule the header violates,
`none` when it violates no rule. -/
def firstViolation (h : HeaderFields) : Option BmpReaderError :=
  if h.bfType ≠ 0x4D42 then some .NotBMP
  else if h.biSize < 40 then some .DIBTooSmall
  else if h.planes ≠ 1 then some .BadPlanes
  else if ¬ (h.bpp = 1 ∨ h.bpp = 2 ∨ h.bpp = 8 ∨ h.bpp = 24 ∨ h.bpp = 32) then
    some .UnsupportedBpp
  else if ¬ (h.comp = 0 ∨ (h.bpp = 32 ∧ h.comp = 3)) then some .UnsupportedCompression
  else if h.colorsUsed > 256 then some .PaletteTooLarge
  else if toInt32 h.width ≤ 0 ∨ headerHeight h ≤ 0 then some .BadDimensions
  else if toInt32 h.width > 2048 ∨ headerHeight h > 3072 then some .ImageTooLarge
  else none

/-- What a successful header parse leaves in the session `b1`, started from `b`. -/
def ParsedOk (b b1 : Bitmap) : Prop :=
  b1.width = toInt32 (headerFields b.file).width ∧
  b1.height = headerHeight (headerFields b.file) ∧
  b1.bpp = (headerFields b.file).bpp ∧
  b1.bfOffBits = (headerFields b.file).bfOffBits ∧
  b1.rowBytes = Int.tdiv (b1.width * (b1.bpp : Int) + 31) 32 * 4 ∧
  b1.file.data = b.file.data ∧
  b1.file.pos = b1.bfOffBits ∧
  b1.bfOffBits ≤ b.file.data.length ∧
  b1.file.isOpen = true ∧
  b1.useFloydSteinberg = b.useFloydSteinberg ∧
  (b.useFloydSteinberg = true →
    b1.errorCurRow = some (List.replicate (b1.width + 2).toNat 0) ∧
    b1.errorNextRow = some (List.replicate (b1.width + 2).toNat 0) ∧ b1.prevRowY = -1) ∧
  (b.useFloydSteinberg = false →
    b1.errorCurRow = b.errorCurRow ∧ b1.errorNextRow = b.errorNextRow ∧
    b1.prevRowY = b.prevRowY)

/-! ## Sample inputs -/

/-- A 54-byte BMP header (info header of 40 bytes, one plane, pixel data at
offset 54) for the given width, height, bits per pixel and compression. -/
def sampleHeader (w h bpp comp : Nat) : List Nat :=
  [0x42, 0x4D, 0, 0, 0, 0, 0, 0, 0, 0, 54, 0, 0, 0,
   40, 0, 0, 0,
   w % 256, w / 256 % 256, w / 65536 % 256, w / 16777216 % 256,
   h % 256, h / 256 % 256, h / 65536 % 256, h / 16777216 % 256,
   1, 0, bpp % 256, bpp / 256 % 256,
   comp % 256, comp / 256 % 256, comp / 65536 % 256, comp / 16777216 % 256,
   0, 0, 0, 0, 0, 0, 0, 0, 0, 0, 0, 0, 0, 0, 0, 0, 0, 0, 0, 0]

/-- A fresh session over a file with the given bytes, before `parseHeaders`. -/
def freshBitmap (fs : Bool) (bytes : List Nat) : Bitmap :=
  { file := { isOpen := true, data := bytes, pos := 0 }, useFloydSteinberg := fs,
    width := 0, height := 0, topDown := false, bpp := 0, bfOffBits := 0, rowBytes := 0,
    paletteLum := [], errorCurRow := none, errorNextRow := none, prevRowY := -1 }

/-- The 40x4, 24 bits per pixel, uncompressed image with every pixel RGB (200, 200, 200). -/
def gray40x4 : List Nat := sampleHeader 40 4 24 0 ++ List.replicate 480 200

/-- Loop invariant of the pixel loop of `readNextRow` after `n` pixels whose
colours were `L 0, ..., L (n - 1)`: the counters agree with `n`, the byte being
assembled fits in 8 bits with its unused low bits zero, and every pixel so far
sits in its two bits of the byte sequence `out ++ [currentOutByte]`. -/
def PackInv (L : Nat → Nat) (n : Nat) (s : PackState) : Prop :=
  s.currentX = n ∧ s.bitShift = 6 - 2 * (n % 4) ∧ s.out.length = n / 4 ∧
  s.currentOutByte < 256 ∧ s.currentOutByte % 4 ^ (4 - n % 4) = 0 ∧
  ∀ x, x < n → ((s.out ++ [s.currentOutByte]).getD (x / 4) 0 / 4 ^ (3 - x % 4)) % 4 = L x

/-- The bulk read at the start of `readNextRow`: the row buffer and the advanced file. -/
def rowRead (b : Bitmap) : List Nat × FsFile :=
  b.file.readBuf (b.rowBytes % 4294967296).toNat

/-- The session of a call `readNextRow b` when its pixel loop starts: the row
has been read and the error rows have been advanced. -/
def rowBegin (b : Bitmap) : Bitmap := beginRow { b with file := (rowRead b).2 }

/-- The 2-bit level the call `readNextRow b` gives pixel `x`: the colour its
quantizer returns for that pixel's luminance in the loop state reached after
the pixels before it (0 when the bit depth is unsupported). -/
def levelAt (b : Bitmap) (x : Nat) : Nat :=
  match lumAt (rowBegin b).bpp (rowBegin b).paletteLum (rowRead b).1 with
  | none => 0
  | some lf =>
    (pixelQuant (useFS b) (rowBegin b).width (rowBegin b).prevRowY
      (pixelLoop (useFS b) (rowBegin b).width (rowBegin b).prevRowY lf x (packInit (rowBegin b)))
      (lf x)).1

/-- The members of a session that row decoding and rewinding never change
agree between `b1` and `b`. -/
def SameImage (b1 b : Bitmap) : Prop :=
  b.file.isOpen = b1.file.isOpen ∧ b.file.data = b1.file.data ∧
  b.useFloydSteinberg = b1.useFloydSteinberg ∧ b.width = b1.width ∧ b.height = b1.height ∧
  b.topDown = b1.topDown ∧ b.bpp = b1.bpp ∧ b.bfOffBits = b1.bfOffBits ∧
  b.rowBytes = b1.rowBytes ∧ b.paletteLum = b1.paletteLum

/-- Both error rows are allocated and hold `m` entries. -/
def RowsAllocated (m : Nat) (b : Bitmap) : Prop :=
  ∃ c n, b.errorCurRow = some c ∧ b.errorNextRow = some n ∧ c.length = m ∧ n.length = m

/-! ## Storage (SD card)

The SD library and the C++ file streams are outside the repository. The model
keeps what Section.cpp relies on: a map from paths to entries (a directory or a
regular file with its bytes). Entries are keyed by the path the file streams
use, which carries the mount prefix `/sd`; the SD library takes paths without
that prefix. -/

inductive Entry where
  | dir
  | file (bytes : List Nat)
  deriving DecidableEq, Repr

structure SdCard where
  entry : String → Option Entry
  removeOk : Bool

/-- The call `SD.exists(path)`. -/
def sdExists (fs : SdCard) (path : String) : Bool := (fs.entry ("/sd" ++ path)).isSome

/-- The directory part of a path: everything before its last slash. -/
def parentDir (p : String) : String :=
  String.mk ((p.data.reverse.dropWhile (fun c => c != '/')).tail.reverse)

/-- Opening `std::ifstream` on a path: the bytes of the regular file there; a
stream that failed to open delivers no byte. -/
def ifstreamOpen (fs : SdCard) (path : String) : List Nat :=
  match fs.entry path with
  | some (Entry.file bytes) => bytes
  | _ => []

/-- Opening `std::ofstream` on a path, writing `bytes` and closing: the file
is created or replaced when its directory exists and the path is not itself a
directory; otherwise the stream fails to open and nothing is written. -/
def ofstreamWrite (fs : SdCard) (path : String) (bytes : List Nat) : SdCard :=
  if fs.entry (parentDir path) = some Entry.dir ∧ fs.entry path ≠ some Entry.dir then
    { fs with entry := (fun p => if p = path then some (Entry.file bytes) else fs.entry p) }
  else fs

/-- Modelled from the spec: `FsHelpers::removeDir` (FsHelpers.h is not among the
sources). It removes the directory and its whole subtree and reports success;
`removeOk = false` stands for a card that does not carry out the removal, in
which case the storage is left as it was and failure is reported. -/
def removeDir (fs : SdCard) (path : String) : Bool × SdCard :=
  if fs.removeOk then
    (true, { fs with entry := (fun p =>
      if p = "/sd" ++ path ∨ ("/sd" ++ path ++ "/").data.isPrefixOf p.data then none
      else fs.entry p) })
  else (false, fs)

/-! ## Serialization

Modelled from the spec: `serialization::writePod` and `serialization::readPod`
(Serialization.h is not among the sources) write and read the raw bytes of a
value: one byte for `uint8_t` and `bool`, four little-endian bytes for `int`
and `float`. A `float` is represented by its IEEE-754 single-precision bit
pattern. -/

/-- Modelled from the spec: the four little-endian bytes of a 32-bit pattern. -/
def le32 (n : Nat) : List Nat :=
  [n % 256, n / 256 % 256, n / 65536 % 256, n / 16777216 % 256]

/-- Modelled from the spec: `writePod` of an `int`. -/
def podInt (i : Int) : List Nat := le32 (i % 4294967296).toNat

/-- Modelled from the spec: `writePod` of a `float` given by its bit pattern. -/
def podFloat (bits : Nat) : List Nat := le32 (bits % 4294967296)

/-- Modelled from the spec: `writePod` of a `bool`. -/
def podBool (v : Bool) : List Nat := [if v then 1 else 0]

/-- Modelled from the spec: `readPod` of a `uint8_t` at offset `pos` of the
stream. A read past the end leaves the C++ variable as it was (uninitialised
in `loadCacheMetadata`); the model reads zero bytes there. -/
def readU8 (s : List Nat) (pos : Nat) : Nat := s.getD pos 0 % 256

/-- Modelled from the spec: the 32-bit pattern `readPod` obtains at offset `pos`. -/
def readU32 (s : List Nat) (pos : Nat) : Nat :=
  readU8 s pos + 256 * readU8 s (pos + 1) + 65536 * readU8 s (pos + 2) +
    16777216 * readU8 s (pos + 3)

/-- Modelled from the spec: `readPod` of an `int`. -/
def readInt (s : List Nat) (pos : Nat) : Int := toInt32 (readU32 s pos)

/-- Modelled from the spec: `readPod` of a `bool` (any non-zero byte reads as true). -/
def readBool (s : List Nat) (pos : Nat) : Bool := readU8 s pos != 0

/-- Whether a single-precision bit pattern is a NaN. -/
def floatIsNaN (bits : Nat) : Bool := bits / 8388608 % 256 == 255 && bits % 8388608 != 0

/-- The C++ comparison `a != b` of two `float` values given by their bit
patterns: true when either is a NaN, false for equal patterns and for the two
zeros, true otherwise. -/
def floatNe (a b : Nat) : Bool :=
  floatIsNaN a || floatIsNaN b || !(a == b || (a % 2147483648 == 0 && b % 2147483648 == 0))

/-! ## The section cache -/

def SECTION_FILE_VERSION : Nat := 5

/-- The members of class `Section` that Section.cpp reads and writes. -/
structure Section where
  cachePath : String
  spineIndex : Int
  pageCount : Int
  currentPage : Int
  deriving DecidableEq, Repr

/-- Cache removal; `Section::clearCache`. -/
def clearCache (fs : SdCard) (sec : Section) : Bool × SdCard :=
  if !sdExists fs sec.cachePath then (true, fs) else
  let r := removeDir fs sec.cachePath
  if !r.1 then (false, r.2) else
  (true, r.2)

/-- Metadata write; `Section::writeCacheMetadata`. -/
def writeCacheMetadata (fs : SdCard) (sec : Section) (fontId : Int) (lineCompression : Nat)
    (marginTop marginRight marginBottom marginLeft : Int) (extraParagraphSpacing : Bool) :
    SdCard :=
  ofstreamWrite fs ("/sd" ++ sec.cachePath ++ "/section.bin")
    ([SECTION_FILE_VERSION % 256] ++ podInt fontId ++ podFloat lineCompression ++
      podInt marginTop ++ podInt marginRight ++ podInt marginBottom ++ podInt marginLeft ++
      podBool extraParagraphSpacing ++ podInt sec.pageCount)

/-- Metadata check; `Section::loadCacheMetadata`. Returns the result, the
storage and the section as the call leaves them. -/
def loadCacheMetadata (fs : SdCard) (sec : Section) (fontId : Int) (lineCompression : Nat)
    (marginTop marginRight marginBottom marginLeft : Int) (extraParagraphSpacing : Bool) :
    Bool × SdCard × Section :=
  if !sdExists fs sec.cachePath then (false, fs, sec) else
  let sectionFilePath := sec.cachePath ++ "/section.bin"
  if !sdExists fs sectionFilePath then (false, fs, sec) else
  let inputFile := ifstreamOpen fs ("/sd" ++ sectionFilePath)
  -- Match parameters
  let version := readU8 inputFile 0
  if version ≠ SECTION_FILE_VERSION then (false, (clearCache fs sec).2, sec) else
  let fileFontId := readInt inputFile 1
  let fileLineCompression := readU32 inputFile 5
  let fileMarginTop := readInt inputFile 9
  let fileMarginRight := readInt inputFile 13
  let fileMarginBottom := readInt inputFile 17
  let fileMarginLeft := readInt inputFile 21
  let fileExtraParagraphSpacing := readBool inputFile 25
  if fontId ≠ fileFontId ∨ floatNe lineCompression fileLineCompression = true ∨
      marginTop ≠ fileMarginTop ∨ marginRight ≠ fileMarginRight ∨
      marginBottom ≠ fileMarginBottom ∨ marginLeft ≠ fileMarginLeft ∨
      extraParagraphSpacing ≠ fileExtraParagraphSpacing then
    (false, (clearCache fs sec).2, sec)
  else
    (true, fs, { sec with pageCount := readInt inputFile 26 })

/-- The record of the specification's `section.bin` layout: format version,
the seven layout parameters and the page count. -/
structure SectionCacheMetadata where
  version : Nat
  fontId : Int
  lineCompression : Nat
  marginTop : Int
  marginRight : Int
  marginBottom : Int
  marginLeft : Int
  extraParagraphSpacing : Bool
  pageCount : Int
  deriving DecidableEq, Repr

/-- The record stored in the section's `section.bin`, when that path is a
regular file holding a complete record (30 bytes: 1 + 4 + 4 + 4 * 4 + 1 + 4)
whose flag byte is 0 or 1. -/
def storedMetadata (fs : SdCard) (sec : Section) : Option SectionCacheMetadata :=
  match fs.entry ("/sd" ++ (sec.cachePath ++ "/section.bin")) with
  | some (Entry.file bytes) =>
    if 30 ≤ bytes.length ∧ bytes.getD 25 0 % 256 ≤ 1 then
      some { version := readU8 bytes 0, fontId := readInt bytes 1,
             lineCompression := readU32 bytes 5, marginTop := readInt bytes 9,
             marginRight := readInt bytes 13, marginBottom := readInt bytes 17,
             marginLeft := readInt bytes 21, extraParagraphSpacing := readBool bytes 25,
             pageCount := readInt bytes 26 }
    else none
  | _ => none

/-- A storage holding one section cache directory `/c` whose `section.bin`
records version 5, font 7, line compression 1.0f, margins 1, 2, 3, 4, the
extra-spacing flag set, and 12 pages. -/
def sampleCard : SdCard :=
  { entry := (fun p =>
      if p = "/sd/c" then some Entry.dir
      else if p = "/sd/c/section.bin" then
        some (Entry.file [5, 7, 0, 0, 0, 0, 0, 128, 63, 1, 0, 0, 0, 2, 0, 0, 0, 3, 0, 0, 0,
          4, 0, 0, 0, 1, 12, 0, 0, 0])
      else none),
    removeOk := true }

/-- A section bound to the cache directory `/c`. -/
def sampleSection : Section :=
  { cachePath := "/c", spineIndex := 0, pageCount := 0, currentPage := 0 }

/-- The value range of a C `int` (32 bits). -/
def IsInt32 (i : Int) : Prop := -2147483648 ≤ i ∧ i < 2147483648

/-- A storage holding the empty section cache directory `/c` and nothing else. -/
def emptyCacheCard : SdCard :=
  { entry := (fun p => if p = "/sd/c" then some Entry.dir else none), removeOk := true }

/-- A section bound to the cache directory `/c` that has produced 3 pages. -/
def paginatedSection : Section :=
  { cachePath := "/c", spineIndex := 0, pageCount := 3, currentPage := 0 }

/-- The clamped input of one Floyd-Steinberg step: `gray` plus the error
accumulated for the pixel, limited to 0..255. -/
def fsAdjusted (gray : Int) (x : Nat) (errorCurRow : List Int) : Int :=
  max 0 (min 255 (gray + errorCurRow.getD (x + 1) 0))

/-- The level the specification assigns to a clamped input. -/
def fsLevel (a : Int) : Nat :=
  if a < 30 then 0 else if a < 50 then 1 else if a < 140 then 2 else 3

/-- The reconstruction value the specification assigns to a clamped input. -/
def fsReconstruction (a : Int) : Int :=
  if a < 30 then 15 else if a < 50 then 30 else if a < 140 then 80 else 210

/-- A 2x2, 24 bits per pixel image: stored row 0 is RGB (80, 80, 80) twice,
stored row 1 is RGB (100, 100, 100) twice (each row padded to 8 bytes). -/
def twoRows : List Nat :=
  sampleHeader 2 2 24 0 ++
    [80, 80, 80, 80, 80, 80, 0, 0, 100, 100, 100, 100, 100, 100, 0, 0]

/-- The file as the header read sequence of `parseHeaders` leaves it, just
before the palette loop (after the skip over `biClrImportant`). -/
def headerEnd (f : FsFile) : FsFile :=
  let s0 := f.seek 0
  let r1 := readLE16 s0.2
  let s1 := r1.2.seekCur 8
  let r2 := readLE32 s1.2
  let r3 := readLE32 r2.2
  let r4 := readLE32 r3.2
  let r5 := readLE32 r4.2
  let r6 := readLE16 r5.2
  let r7 := readLE16 r6.2
  let r8 := readLE32 r7.2
  let s2 := r8.2.seekCur 12
  let r9 := readLE32 s2.2
  (r9.2.seekCur 4).2

/-- Luminance `(77*R + 150*G + 29*B) >> 8` of palette entry `i` of a BMP file.
The colour table follows the info header, so it starts at offset
`14 + biSize`; entry `i` is the four bytes B, G, R, reserved at offset
`14 + biSize + 4 * i`. -/
def paletteEntryLum (f : FsFile) (i : Nat) : Nat :=
  (77 * (f.data.getD (14 + (headerFields f).biSize + 4 * i + 2) 0 % 256) +
    150 * (f.data.getD (14 + (headerFields f).biSize + 4 * i + 1) 0 % 256) +
    29 * (f.data.getD (14 + (headerFields f).biSize + 4 * i) 0 % 256)) / 256

/-- The luminance the call `readNextRow b` computes for pixel `x`, before
quantization (0 when the bit depth is unsupported). -/
def pixelLum (b : Bitmap) (x : Nat) : Nat :=
  match lumAt (rowBegin b).bpp (rowBegin b).paletteLum (rowRead b).1 with
  | none => 0
  | some lf => lf x

/-- The palette index stored for pixel `x` of a row, most significant bits
first: for 8 bits per pixel byte `x`; for 2 bits per pixel the two bits
`7 - 2 * (x mod 4)` and `6 - 2 * (x mod 4)` of byte `x / 4`; for 1 bit per
pixel bit `7 - x mod 8` of byte `x / 8`. -/
def pixelIndex (bpp : Nat) (row : List Nat) (x : Nat) : Nat :=
  if bpp = 8 then row.getD x 0
  else if bpp = 2 then (row.getD (x / 4) 0 / 4 ^ (3 - x % 4)) % 4
  else (row.getD (x / 8) 0 / 2 ^ (7 - x % 8)) % 2

/-- A 54-byte header like `sampleHeader` that declares `colors` palette
entries and places the pixel data at offset `off`. -/
def sampleHeaderPal (w h bpp colors off : Nat) : List Nat :=
  [0x42, 0x4D, 0, 0, 0, 0, 0, 0, 0, 0, off % 256, off / 256 % 256, 0, 0,
   40, 0, 0, 0,
   w % 256, w / 256 % 256, w / 65536 % 256, w / 16777216 % 256,
   h % 256, h / 256 % 256, h / 65536 % 256, h / 16777216 % 256,
   1, 0, bpp % 256, bpp / 256 % 256,
   0, 0, 0, 0, 0, 0, 0, 0, 0, 0, 0, 0, 0, 0, 0, 0,
   colors % 256, colors / 256 % 256, 0, 0, 0, 0, 0, 0]

/-- An 8x1, 1 bit per pixel image whose palette is white (entry 0) then black
(entry 1) and whose pixels all have index 0. -/
def invertedMono : List Nat :=
  sampleHeaderPal 8 1 1 2 62 ++ [255, 255, 255, 0, 0, 0, 0, 0] ++ [0, 0, 0, 0]

/-- A 1x1, 8 bits per pixel image that declares no palette entries although
the four bytes after the header are a white entry; its pixel has index 0. -/
def undeclaredPalette : List Nat :=
  sampleHeaderPal 1 1 8 0 58 ++ [255, 255, 255, 0] ++ [0, 0, 0, 0]

/-- A 1x1, 8 bits per pixel image with a 108-byte info header
(`BITMAPV4HEADER`) and one declared palette entry, white, which follows the
header at offset `14 + 108 = 122`; the pixel data is at offset 126 and the
pixel has index 0. Bytes 54 to 57, inside the header, are 0. -/
def extendedHeaderPalette : List Nat :=
  [0x42, 0x4D, 0, 0, 0, 0, 0, 0, 0, 0, 126, 0, 0, 0,
   108, 0, 0, 0,
   1, 0, 0, 0,
   1, 0, 0, 0,
   1, 0, 8, 0,
   0, 0, 0, 0, 0, 0, 0, 0, 0, 0, 0, 0, 0, 0, 0, 0,
   1, 0, 0, 0, 0, 0, 0, 0] ++
  List.replicate 68 0 ++ [255, 255, 255, 0] ++ [0, 0, 0, 0]

/-! ## Pagination and page files -/

/-- The call `SD.remove(path)`: deletes the regular file at the path and
reports whether it did. -/
def sdRemove (fs : SdCard) (path : String) : Bool × SdCard :=
  match fs.entry ("/sd" ++ path) with
  | some (Entry.file _) =>
    (true, { fs with entry := (fun p => if p = "/sd" ++ path then none else fs.entry p) })
  | _ => (false, fs)

/-- Modelled from the spec: the outcome of streaming one spine item into the
scratch file, that is of `SD.open(path, FILE_WRITE, true)`,
`Epub::readItemContentsToStream` (Epub.cpp is not among the sources) and
`close`: whether the scratch file could be opened, the bytes that reached it,
and the result the container model reports. -/
structure StreamOutcome where
  opened : Bool
  written : List Nat
  success : Bool
  deriving DecidableEq, Repr

/-- Modelled from the spec: the outcome of one pass of the layout engine
(`ChapterHtmlSlimParser::parseAndBuildPages`, not among the sources): it calls
back once per produced page, in page order, then reports success or failure
for the whole pass. A page is represented by the bytes `Page::serialize`
writes. -/
structure LayoutOutcome where
  pages : List (List Nat)
  success : Bool
  deriving DecidableEq, Repr

/-- The scratch file after `SD.open`, streaming and `close`: when the open
succeeded (which it cannot on a directory) the path holds the bytes delivered
(folders the library creates on the way are not represented). -/
def streamToFile (fs : SdCard) (path : String) (o : StreamOutcome) : SdCard :=
  if o.opened = true ∧ fs.entry ("/sd" ++ path) ≠ some Entry.dir then
    { fs with entry := (fun p => if p = "/sd" ++ path then some (Entry.file o.written)
                                 else fs.entry p) }
  else fs

/-- Page callback; `Section::onPageComplete`: the page is serialized to
`page_<pageCount>.bin` and the counter is incremented. -/
def onPageComplete (st : SdCard × Section) (page : List Nat) : SdCard × Section :=
  let filePath := st.2.cachePath ++ "/page_" ++ toString st.2.pageCount ++ ".bin"
  (ofstreamWrite st.1 ("/sd" ++ filePath) page,
   { st.2 with pageCount := st.2.pageCount + 1 })

/-- Pagination pass; `Section::persistPageDataToSD`. `epubCachePath` is
`epub->getCachePath()`; the outcomes of streaming and of the layout engine are
given. Returns the result, the storage and the section as the call leaves them. -/
def persistPageDataToSD (fs : SdCard) (sec : Section) (epubCachePath : String)
    (stream : StreamOutcome) (layout : LayoutOutcome) (fontId : Int) (lineCompression : Nat)
    (marginTop marginRight marginBottom marginLeft : Int) (extraParagraphSpacing : Bool) :
    Bool × SdCard × Section :=
  let tmpHtmlPath := epubCachePath ++ "/.tmp_" ++ toString sec.spineIndex ++ ".html"
  let fs1 := streamToFile fs tmpHtmlPath stream
  let success := stream.success
  if !success then (false, fs1, sec) else
  -- visitor.parseAndBuildPages(), calling back onPageComplete for each page
  let st := layout.pages.foldl onPageComplete (fs1, sec)
  let success := layout.success
  let fs2 := (sdRemove st.1 tmpHtmlPath).2
  if !success then (false, fs2, st.2) else
  (true, writeCacheMetadata fs2 st.2 fontId lineCompression marginTop marginRight marginBottom
    marginLeft extraParagraphSpacing, st.2)

/-- Page read-back; `Section::loadPageFromSD`. `deserialize` is
`Page::deserialize` (Page.h is not among the sources) applied to the opened
stream; `none` is the null pointer. The existence check skips the three
characters of the mount prefix (`filePath.c_str() + 3`). -/
def loadPageFromSD {Page : Type} (fs : SdCard) (sec : Section)
    (deserialize : List Nat → Option Page) : Option Page :=
  let filePath := "/sd" ++ sec.cachePath ++ "/page_" ++ toString sec.currentPage ++ ".bin"
  if !sdExists fs (filePath.drop 3) then none
  else deserialize (ifstreamOpen fs filePath)

/-- A storage holding the section cache directory `/c` with one leftover page
file `page_5.bin` and no `section.bin`. -/
def leftoverCard : SdCard :=
  { entry := (fun p =>
      if p = "/sd/c" then some Entry.dir
      else if p = "/sd/c/page_5.bin" then some (Entry.file [1, 2, 3])
      else none),
    removeOk := true }

/-- A storage holding the section cache directory `/c` with two page files
and a `section.bin` written by an older format: version byte 4 followed by a
28-byte record (29 bytes in all, one parameter fewer than the current
layout). -/
def olderFormatCard : SdCard :=
  { entry := (fun p =>
      if p = "/sd/c" then some Entry.dir
      else if p = "/sd/c/section.bin" then
        some (Entry.file [4, 7, 0, 0, 0, 0, 0, 128, 63, 1, 0, 0, 0, 2, 0, 0, 0, 3, 0, 0, 0,
          4, 0, 0, 0, 12, 0, 0, 0])
      else if p = "/sd/c/page_0.bin" then some (Entry.file [1])
      else if p = "/sd/c/page_1.bin" then some (Entry.file [2])
      else none),
    removeOk := true }

/-- A section bound to `/c` with 3 committed pages whose cursor is at page 5. -/
def strayCursorSection : Section :=
  { cachePath := "/c", spineIndex := 0, pageCount := 3, currentPage := 5 }

/-- A storage holding the book cache directory `/e` and, inside it, the
empty section cache directory `/e/0`. -/
def bookCard : SdCard :=
  { entry := (fun p =>
      if p = "/sd/e" then some Entry.dir
      else if p = "/sd/e/0" then some Entry.dir
      else none),
    removeOk := true }

/-- A fresh section for spine item 0 of the book cached under `/e`. -/
def firstSection : Section :=
  { cachePath := "/e/0", spineIndex := 0, pageCount := 0, currentPage := 0 }

/-! ## Short reads, the noise threshold and the diffused shares -/

/-- A 40x4, 24 bits per pixel image whose file ends after 100 bytes of pixel
data, less than one row of 120 bytes. -/
def truncated40x4 : List Nat := sampleHeader 40 4 24 0 ++ List.replicate 100 200

/-- The threshold `quantizeNoise` derives from a position: the top 8 bits
(`hash >> 24`) of its 32-bit position hash. -/
def noiseThreshold (x y : Int) : Nat :=
  let ux := (x % 4294967296).toNat
  let uy := (y % 4294967296).toNat
  let hash := (ux * 374761393 % 4294967296 + uy * 668265263 % 4294967296) % 4294967296
  let hash := ((hash ^^^ (hash >>> 13)) * 1274126177) % 4294967296
  hash >>> 24

/-- The four amounts `quantizeFloydSteinberg` adds to its neighbours for a
residual `error`: `(error * 7) >> 4`, `(error * 3) >> 4`, `(error * 5) >> 4`
and `error >> 4`. -/
def diffusedShares (error : Int) : Int × Int × Int × Int :=
  ((error * 7) >>> 4, (error * 3) >>> 4, (error * 5) >>> 4, error >>> 4)

/-- The sum of the four diffused shares of a residual. -/
def diffusedTotal (error : Int) : Int :=
  (diffusedShares error).1 + (diffusedShares error).2.1 + (diffusedShares error).2.2.1 +
    (diffusedShares error).2.2.2

/-- The indices of `errorCurRow` one call of `quantizeFloydSteinberg` at pixel
`x` accesses, in source order: the read of `x + 1`, then the update of `x + 2`
(of `x` when scanning right to left). -/
def curRowAccesses (x : Nat) (reverseDir : Bool) : List Nat :=
  if !reverseDir then [x + 1, x + 2] else [x + 1, x]

/-- The indices of `errorNextRow` one call of `quantizeFloydSteinberg` at pixel
`x` accesses, in source order. -/
def nextRowAccesses (x : Nat) (reverseDir : Bool) : List Nat :=
  if !reverseDir then [x, x + 1, x + 2] else [x + 2, x + 1, x]

/-! ## Settings persistence (CrossPointSettings.cpp) -/

def SETTINGS_FILE_VERSION : Nat := 1
def SETTINGS_COUNT : Nat := 2
def SETTINGS_FILE : String := "/sd/.crosspoint/settings.bin"

/-- The data members of class `CrossPointSettings`. -/
structure CrossPointSettings where
  whiteSleepScreen : Bool
  extraParagraphSpacing : Bool
  deriving DecidableEq, Repr

/-- The call `SD.mkdir(path)`: the directory is created when nothing is at the
path, an existing directory is left as it is, and the call fails on a regular
file. -/
def sdMkdir (fs : SdCard) (path : String) : Bool × SdCard :=
  match fs.entry ("/sd" ++ path) with
  | none =>
    (true, { fs with entry := (fun p => if p = "/sd" ++ path then some Entry.dir
                                        else fs.entry p) })
  | some Entry.dir => (true, fs)
  | some (Entry.file _) => (false, fs)

/-- Settings write; `CrossPointSettings::saveToFile`. Returns the result and
the storage as the call leaves it. -/
def saveToFile (fs : SdCard) (s : CrossPointSettings) : Bool × SdCard :=
  -- Make sure the directory exists
  let fs := (sdMkdir fs "/.crosspoint").2
  let fs := ofstreamWrite fs SETTINGS_FILE
    ([SETTINGS_FILE_VERSION % 256] ++ [SETTINGS_COUNT % 256] ++ podBool s.whiteSleepScreen ++
      podBool s.extraParagraphSpacing)
  (true, fs)

/-- Settings read; `CrossPointSettings::loadFromFile`, called on the settings
object `s`. Returns the result and the settings object as the call leaves it.
The existence check skips the three characters of the mount prefix
(`SETTINGS_FILE + 3`). -/
def loadFromFile (fs : SdCard) (s : CrossPointSettings) : Bool × CrossPointSettings :=
  if !sdExists fs (SETTINGS_FILE.drop 3) then (false, s) else
  let inputFile := ifstreamOpen fs SETTINGS_FILE
  let version := readU8 inputFile 0
  if version ≠ SETTINGS_FILE_VERSION then (false, s) else
  let fileSettingsCount := readU8 inputFile 1
  -- load settings that exist
  let s :=
    if fileSettingsCount = 1 then
      { s with whiteSleepScreen := readBool inputFile 2 }
    else if fileSettingsCount = 2 then
      { s with whiteSleepScreen := readBool inputFile 2,
               extraParagraphSpacing := readBool inputFile 3 }
    else s
  (true, s)

/-- A storage with no entry at all below the mount point. -/
def blankCard : SdCard := { entry := (fun _ => none), removeOk := true }

/-- The values a `CrossPointSettings` object starts with (the member
initialisers of CrossPointSettings.h). -/
def defaultSettings : CrossPointSettings :=
  { whiteSleepScreen := false, extraParagraphSpacing := true }

/-- Settings with both values changed from their defaults. -/
def changedSettings : CrossPointSettings :=
  { whiteSleepScreen := true, extraParagraphSpacing := false }

/-- The stream path of page file number `j` of a section cache directory:
the path `onPageComplete` opens when the page counter is `j`. -/
def pagePath (cachePath : String) (j : Int) : String :=
  "/sd" ++ (cachePath ++ "/page_" ++ toString j ++ ".bin")

/-- A 2x1, 32 bits per pixel image with pixels (B, G, R) = (10, 20, 30) and
(200, 210, 220) whose fourth bytes are `a0` and `a1`. -/
def rgba2x1 (a0 a1 : Nat) : List Nat :=
  sampleHeader 2 1 32 0 ++ [10, 20, 30, a0, 200, 210, 220, a1]

/-! ## The sleep screen image (SleepActivity.cpp)

`convertBmpToBWdisplayData` turns the 1 bit per pixel rows of a BMP into the
display image. Its two buffers are plain byte arrays; the model returns the
display image together with the indices at which the two buffers were
accessed, in order, so that the bounds of the accesses can be stated. -/

/-- The lookup table `bitMasks` of `convertBmpToBWdisplayData`. -/
def bitMasks : List Nat := [0x80, 0x40, 0x20, 0x10, 0x08, 0x04, 0x02, 0x01]

/-- State of `convertBmpToBWdisplayData`: the display image and the indices
of `bmpData` read and of `displayImage` updated so far. -/
structure ConvertState where
  displayImage : List Nat
  srcReads : List Int
  destWrites : List Int
  deriving DecidableEq, Repr

/-- The statement `displayImage[destByteIdx] &= ~destBitMask`. An index
outside the array (undefined in C) leaves the image as it is; the index is
recorded in either case. -/
def clearDestBit (st : ConvertState) (destByteIdx : Int) (destBitMask : Nat) : ConvertState :=
  { displayImage :=
      if destByteIdx < 0 then st.displayImage
      else st.displayImage.set destByteIdx.toNat
        (wrapU8 (st.displayImage.getD destByteIdx.toNat 0) &&& (0xFF ^^^ destBitMask)),
    srcReads := st.srcReads,
    destWrites := st.destWrites ++ [destByteIdx] }

/-- The body the two `for (int bit = 0; bit < 8; bit++)` loops share: the
destination byte of source pixel `xByte * 8 + bit` is computed and its bit
cleared. Every `int` operation is wrapped into the 32-bit range (signed
overflow, undefined in C, is taken as the two's complement wrap of the
target). -/
def convertBit (width bytesPerRow destByteX : Int) (destBitMask : Nat) (xByte : Nat)
    (st : ConvertState) (bit : Nat) : ConvertState :=
  let srcX : Int := wrap32 (wrap32 ((xByte : Int) * 8) + (bit : Int))
  let destY := wrap32 (wrap32 (width - 1) - srcX)
  let destByteIdx := wrap32 (wrap32 (destY * bytesPerRow) + destByteX)
  clearDestBit st destByteIdx destBitMask

/-- The treatment of one source byte: skipped when all white, the fast path
when all black, bit by bit otherwise. -/
def convertByte (width bytesPerRow destByteX : Int) (destBitMask : Nat) (xByte srcByte : Nat)
    (st : ConvertState) : ConvertState :=
  if srcByte = 0xFF then st
  else if srcByte = 0x00 then
    (List.range 8).foldl (convertBit width bytesPerRow destByteX destBitMask xByte) st
  else
    (List.range 8).foldl (fun (st : ConvertState) (bit : Nat) =>
      if srcByte &&& bitMasks.getD bit 0 = 0 then
        convertBit width bytesPerRow destByteX destBitMask xByte st bit
      else st) st

/-- The body of the loop over the source rows, for loop counter `y`. The
`int` results are wrapped into the 32-bit range; the element
`srcRowData[xByte]` of `bmpData + (srcRow * bmpRowSize)` is recorded as the
index `srcRow * bmpRowSize + xByte` into `bmpData`, the product wrapped, the
pointer offsets added exactly. A read at an index outside the buffer
(undefined in C) is taken as 0. -/
def convertRow (bmpData : List Nat) (width height : Int) (st : ConvertState) (y : Nat) :
    ConvertState :=
  let bytesPerSrcRow := Int.tdiv width 8
  let bytesPerRow := Int.tdiv (wrap32 (height + 7)) 8
  let bmpRowSize := Int.tdiv width 8
  let srcRow := wrap32 (wrap32 (height - 1) - (y : Int))
  let destX := y
  let destByteX : Int := ((destX / 8 : Nat) : Int)
  let destBitInByte := destX &&& 0x07
  let destBitMask := bitMasks.getD destBitInByte 0
  (List.range bytesPerSrcRow.toNat).foldl (fun (st : ConvertState) (xByte : Nat) =>
    let idx := wrap32 (srcRow * bmpRowSize) + (xByte : Int)
    let srcByte := if idx < 0 then 0 else wrapU8 (bmpData.getD idx.toNat 0)
    convertByte width bytesPerRow destByteX destBitMask xByte srcByte
      { st with srcReads := st.srcReads ++ [idx] }) st

/-- Conversion of 1 bit per pixel BMP rows into the display image;
`convertBmpToBWdisplayData` of SleepActivity.cpp, for `int` arguments
`width` and `height` in the 32-bit range. -/
def convertBmpToBWdisplayData (bmpData : List Nat) (width height : Int)
    (displayImage : List Nat) : ConvertState :=
  (List.range height.toNat).foldl (convertRow bmpData width height)
    { displayImage := displayImage, srcReads := [], destWrites := [] }

/-- The size `loadBMP` allocates for the display image: the `int`
`bytesPerRow * destHeight` with `destWidth = height`, `destHeight = width` and
`bytesPerRow = (destWidth + 7) / 8`, sum and product wrapped into the 32-bit
range. -/
def displayBufferSize (width height : Int) : Int :=
  let destWidth := height
  let destHeight := width
  let bytesPerRow := Int.tdiv (wrap32 (destWidth + 7)) 8
  wrap32 (bytesPerRow * destHeight)

/-- The display image as `loadBMP` hands it to the conversion: all white. -/
def whiteImage (width height : Int) : List Nat :=
  List.replicate (displayBufferSize width height).toNat 0xFF

/-- Whether the source pixel at column `x`, row `y` counted from the top, is
black: bit 0 in stored row `height - 1 - y`, most significant bit first. -/
def srcPixelBlack (bmpData : List Nat) (width height x y : Nat) : Bool :=
  (bmpData.getD ((height - 1 - y) * (width / 8) + x / 8) 0) &&& (0x80 >>> (x % 8)) == 0

/-- Whether the pixel at column `col`, row `row` of a display image with
`bytesPerRow` bytes per row is black (bit 0), most significant bit first. -/
def destPixelBlack (img : List Nat) (bytesPerRow col row : Nat) : Bool :=
  (img.getD (row * bytesPerRow + col / 8) 0) &&& (0x80 >>> (col % 8)) == 0

/-- The rows of an 8x2 bitmap whose only black pixel is the top-left one:
stored bottom-up, the second stored row is the top row. -/
def topLeftBlack8x2 : List Nat := [0xFF, 0x7F]

/-- Every entry of an error row lies in `[lo, hi]`. -/
def RowWithin (lo hi : Int) (row : List Int) : Prop :=
  ∀ v ∈ row, lo ≤ v ∧ v ≤ hi

/-- Invariant of the pixel loop in Floyd-Steinberg mode (left to right) after
`n` pixels of a row. The current row is within `[-72, 57]`, and within
`[-41, 32]` from index `n + 2` on (entries that have not yet received the
share of a left neighbour). Of the next row, the entries below `n` are
complete and within `[-41, 32]`, entry `n` has received two shares, entry
`n + 1` one share, and the entries from `n + 2` on are still 0. Entries are
read with default 0, so the bounds cover what a row does not hold as well. -/
def DiffusionInv (n : Nat) (cur next : List Int) : Prop :=
  (∀ j : Nat, -72 ≤ cur.getD j 0 ∧ cur.getD j 0 ≤ 57) ∧
  (∀ j : Nat, n + 2 ≤ j → -41 ≤ cur.getD j 0 ∧ cur.getD j 0 ≤ 32) ∧
  (∀ j : Nat, j < n → -41 ≤ next.getD j 0 ∧ next.getD j 0 ≤ 32) ∧
  (-27 ≤ next.getD n 0 ∧ next.getD n 0 ≤ 21) ∧
  (-5 ≤ next.getD (n + 1) 0 ∧ next.getD (n + 1) 0 ≤ 3) ∧
  (∀ j : Nat, n + 2 ≤ j → next.getD j 0 = 0)

/-- Invariant of a Floyd-Steinberg session between two rows: both error rows
are allocated with `width + 2` entries, the current row is within `[-72, 57]`
and the next row within `[-41, 32]`; before the first row (`prevRowY = -1`,
when the rows are not swapped) the next row is all 0 and the current row is
within `[-41, 32]`. -/
def BoundedRows (b : Bitmap) : Prop :=
  b.useFloydSteinberg = true ∧ -1 ≤ b.prevRowY ∧
  ∃ c n, b.errorCurRow = some c ∧ b.errorNextRow = some n ∧
    c.length = (b.width + 2).toNat ∧ n.length = (b.width + 2).toNat ∧
    (∀ j : Nat, -72 ≤ c.getD j 0 ∧ c.getD j 0 ≤ 57) ∧
    (∀ j : Nat, -41 ≤ n.getD j 0 ∧ n.getD j 0 ≤ 32) ∧
    (b.prevRowY = -1 →
      (∀ j : Nat, -41 ≤ c.getD j 0 ∧ c.getD j 0 ≤ 32) ∧ ∀ j : Nat, n.getD j 0 = 0)

/-- Bit `j` of byte `i` of an image; bit 7 is the leftmost pixel of the byte. -/
def bitAt (img : List Nat) (i j : Nat) : Bool := (img.getD i 0).testBit j

/-- The display image of `st` is `img0` with exactly the bits in `P` cleared
(among the eight bits of each byte). -/
def ClearedBits (P : Nat → Nat → Prop) (img0 : List Nat) (st : ConvertState) : Prop :=
  st.displayImage.length = img0.length ∧
  ∀ i j : Nat, j < 8 → (bitAt st.displayImage i j = true ↔ (bitAt img0 i j = true ∧ ¬ P i j))

/-! # Theorems -/

/-! ## Basic facts about the byte source -/

namespace FsFile

@[simp]
theorem seek_data (f : FsFile) (p : Nat) : (f.seek p).2.data = f.data := by
  unfold seek; split <;> rfl

@[simp]
theorem seek_isOpen (f : FsFile) (p : Nat) : (f.seek p).2.isOpen = f.isOpen := by
  unfold seek; split <;> rfl

@[simp]
theorem seekCur_data (f : FsFile) (n : Nat) : (f.seekCur n).2.data = f.data := by
  unfold seekCur; simp

@[simp]
theorem seekCur_isOpen (f : FsFile) (n : Nat) : (f.seekCur n).2.isOpen = f.isOpen := by
  unfold seekCur; simp

@[simp]
theorem read_data (f : FsFile) : f.read.2.data = f.data := by
  unfold read; split <;> rfl

@[simp]
theorem read_isOpen (f : FsFile) : f.read.2.isOpen = f.isOpen := by
  unfold read; split <;> rfl

@[simp]
theorem readBuf_data (f : FsFile) (n : Nat) : (f.readBuf n).2.data = f.data := rfl

@[simp]
theorem readBuf_isOpen (f : FsFile) (n : Nat) : (f.readBuf n).2.isOpen = f.isOpen := rfl

theorem seek_ok (f : FsFile) (p : Nat) (h : p ≤ f.data.length) :
    f.seek p = (true, { f with pos := p }) := by
  unfold seek; simp [h]

theorem seek_fst (f : FsFile) (p : Nat) : (f.seek p).1 = decide (p ≤ f.data.length) := by
  unfold seek; split <;> simp [*]

theorem readBuf_length (f : FsFile) (n : Nat) :
    (f.readBuf n).1.length = min n (f.data.length - f.pos) := by
  simp [readBuf]

theorem readBuf_pos (f : FsFile) (n : Nat) :
    (f.readBuf n).2.pos = f.pos + min n (f.data.length - f.pos) := by
  simp [readBuf]

end FsFile

@[simp]
theorem readLE16_data (f : FsFile) : (readLE16 f).2.data = f.data := by
  simp [readLE16]

@[simp]
theorem readLE16_isOpen (f : FsFile) : (readLE16 f).2.isOpen = f.isOpen := by
  simp [readLE16]

@[simp]
theorem readLE32_data (f : FsFile) : (readLE32 f).2.data = f.data := by
  simp [readLE32]

@[simp]
theorem readLE32_isOpen (f : FsFile) : (readLE32 f).2.isOpen = f.isOpen := by
  simp [readLE32]

theorem paletteFold_data (l : List Nat) (st : FsFile × List Nat) :
    (l.foldl paletteStep st).1.data = st.1.data := by
  induction l generalizing st with
  | nil => rfl
  | cons i l ih => simp [List.foldl_cons, ih, paletteStep]

theorem paletteFold_isOpen (l : List Nat) (st : FsFile × List Nat) :
    (l.foldl paletteStep st).1.isOpen = st.1.isOpen := by
  induction l generalizing st with
  | nil => rfl
  | cons i l ih => simp [List.foldl_cons, ih, paletteStep]

theorem FsFile.seek_pos (f : FsFile) (p : Nat) (h : (f.seek p).1 = true) : (f.seek p).2.pos = p := by
  unfold FsFile.seek at h ⊢; split <;> simp_all

theorem parseHeaders_spec (b : Bitmap) (hopen : b.file.isOpen = true) :
    ((parseHeaders b).1 =
      match firstViolation (headerFields b.file) with
      | some e => e
      | none =>
        if (headerFields b.file).bfOffBits ≤ b.file.data.length then .Ok
        else .SeekPixelDataFailed) ∧
    ((parseHeaders b).1 = .Ok → ParsedOk b (parseHeaders b).2) := by
  have hs0 : (b.file.seek 0).1 = true := by simp [FsFile.seek_fst]
  unfold ParsedOk parseHeaders firstViolation headerHeight headerFields
  dsimp only
  generalize e0 : b.file.seek 0 = s0 at hs0 ⊢
  have d0 : s0.2.data = b.file.data ∧ s0.2.isOpen = true := by rw [← e0]; simp [hopen]
  generalize e1 : readLE16 s0.2 = r1
  have d1 : r1.2.data = b.file.data ∧ r1.2.isOpen = true := by rw [← e1]; simp [d0]
  generalize e2 : r1.2.seekCur 8 = s1
  have d2 : s1.2.data = b.file.data ∧ s1.2.isOpen = true := by rw [← e2]; simp [d1]
  generalize e3 : readLE32 s1.2 = r2
  have d3 : r2.2.data = b.file.data ∧ r2.2.isOpen = true := by rw [← e3]; simp [d2]
  generalize e4 : readLE32 r2.2 = r3
  have d4 : r3.2.data = b.file.data ∧ r3.2.isOpen = true := by rw [← e4]; simp [d3]
  generalize e5 : readLE32 r3.2 = r4
  have d5 : r4.2.data = b.file.data ∧ r4.2.isOpen = true := by rw [← e5]; simp [d4]
  generalize e6 : readLE32 r4.2 = r5
  have d6 : r5.2.data = b.file.data ∧ r5.2.isOpen = true := by rw [← e6]; simp [d5]
  generalize e7 : readLE16 r5.2 = r6
  have d7 : r6.2.data = b.file.data ∧ r6.2.isOpen = true := by rw [← e7]; simp [d6]
  generalize e8 : readLE16 r6.2 = r7
  have d8 : r7.2.data = b.file.data ∧ r7.2.isOpen = true := by rw [← e8]; simp [d7]
  generalize e9 : readLE32 r7.2 = r8
  have d9 : r8.2.data = b.file.data ∧ r8.2.isOpen = true := by rw [← e9]; simp [d8]
  generalize e10 : r8.2.seekCur 12 = s2
  have d10 : s2.2.data = b.file.data ∧ s2.2.isOpen = true := by rw [← e10]; simp [d9]
  generalize e11 : readLE32 s2.2 = r9
  have d11 : r9.2.data = b.file.data ∧ r9.2.isOpen = true := by rw [← e11]; simp [d10]
  generalize e12 : r9.2.seekCur 4 = s3
  have d12 : s3.2.data = b.file.data ∧ s3.2.isOpen = true := by rw [← e12]; simp [d11]
  generalize e13 : List.foldl paletteStep (s3.2, List.map (fun i => wrapU8 i) (List.range 256))
    (List.range r9.1) = pl
  have d13 : pl.1.data = b.file.data ∧ pl.1.isOpen = true := by
    rw [← e13, paletteFold_data, paletteFold_isOpen]; exact d12
  clear e0 e1 e2 e3 e4 e5 e6 e7 e8 e9 e10 e11 e12 e13 d0 d1 d2 d3 d4 d5 d6 d7 d8 d9 d10 d11 d12
  rw [hopen, hs0]
  unfold MAX_IMAGE_WIDTH MAX_IMAGE_HEIGHT
  simp only [Bool.not_true, Bool.false_eq_true, ↓reduceIte]
  by_cases c1 : r1.1 = 19778
  swap
  · simp only [c1, ne_eq, not_false_eq_true, ↓reduceIte]
    exact ⟨trivial, fun h => absurd h (by decide)⟩
  simp only [c1, ne_eq, not_true_eq_false, ↓reduceIte]
  by_cases c2 : r3.1 < 40
  · simp only [c2, ↓reduceIte]
    exact ⟨trivial, fun h => absurd h (by decide)⟩
  simp only [c2, ↓reduceIte]
  by_cases c3 : r6.1 = 1
  swap
  · simp only [c3, not_false_eq_true, ↓reduceIte]
    exact ⟨trivial, fun h => absurd h (by decide)⟩
  simp only [c3, not_true_eq_false, ↓reduceIte]
  by_cases c4 : r7.1 = 1 ∨ r7.1 = 2 ∨ r7.1 = 8 ∨ r7.1 = 24 ∨ r7.1 = 32
  swap
  · have c4b : (!(r7.1 == 1 || r7.1 == 2 || r7.1 == 8 || r7.1 == 24 || r7.1 == 32)) = true := by
      simp; omega
    simp only [c4, c4b, not_false_eq_true, ↓reduceIte]
    exact ⟨trivial, fun h => absurd h (by decide)⟩
  have c4b : (!(r7.1 == 1 || r7.1 == 2 || r7.1 == 8 || r7.1 == 24 || r7.1 == 32)) = false := by
    simp; omega
  simp only [c4, c4b, Bool.false_eq_true, not_true_eq_false, ↓reduceIte]
  by_cases c5 : r8.1 = 0 ∨ (r7.1 = 32 ∧ r8.1 = 3)
  swap
  · have c5b : (!(r8.1 == 0 || r7.1 == 32 && r8.1 == 3)) = true := by simp; omega
    simp only [c5, c5b, not_false_eq_true, ↓reduceIte]
    exact ⟨trivial, fun h => absurd h (by decide)⟩
  have c5b : (!(r8.1 == 0 || r7.1 == 32 && r8.1 == 3)) = false := by simp; omega
  simp only [c5, c5b, Bool.false_eq_true, not_true_eq_false, ↓reduceIte]
  by_cases c6 : r9.1 > 256
  · simp only [c6, ↓reduceIte]
    exact ⟨trivial, fun h => absurd h (by decide)⟩
  simp only [c6, ↓reduceIte]
  by_cases c7 : toInt32 r4.1 ≤ 0 ∨
      (if decide (toInt32 r5.1 < 0) = true then wrap32 (-toInt32 r5.1) else toInt32 r5.1) ≤ 0
  · have c7s : toInt32 r4.1 ≤ 0 ∨
        (if toInt32 r5.1 < 0 then wrap32 (-toInt32 r5.1) else toInt32 r5.1) ≤ 0 := by
      simpa using c7
    simp only [c7, c7s, ↓reduceIte]
    exact ⟨trivial, fun h => absurd h (by decide)⟩
  have c7s : ¬ (toInt32 r4.1 ≤ 0 ∨
      (if toInt32 r5.1 < 0 then wrap32 (-toInt32 r5.1) else toInt32 r5.1) ≤ 0) := by
    simpa using c7
  simp only [c7, c7s, ↓reduceIte]
  by_cases c8 : toInt32 r4.1 > 2048 ∨
      (if decide (toInt32 r5.1 < 0) = true then wrap32 (-toInt32 r5.1) else toInt32 r5.1) > 3072
  · have c8s : toInt32 r4.1 > 2048 ∨
        (if toInt32 r5.1 < 0 then wrap32 (-toInt32 r5.1) else toInt32 r5.1) > 3072 := by
      simpa using c8
    simp only [c8, c8s, ↓reduceIte]
    exact ⟨trivial, fun h => absurd h (by decide)⟩
  have c8s : ¬ (toInt32 r4.1 > 2048 ∨
      (if toInt32 r5.1 < 0 then wrap32 (-toInt32 r5.1) else toInt32 r5.1) > 3072) := by
    simpa using c8
  simp only [c8, c8s, ↓reduceIte]
  have hlen : pl.1.data.length = b.file.data.length := by rw [d13.1]
  by_cases c9 : r2.1 ≤ b.file.data.length
  swap
  · have c9b : (pl.1.seek r2.1).1 = false := by simp [FsFile.seek_fst, hlen, c9]
    simp only [c9, c9b, Bool.not_false, ↓reduceIte]
    exact ⟨trivial, fun h => absurd h (by decide)⟩
  have c9b : (pl.1.seek r2.1).1 = true := by simp [FsFile.seek_fst, hlen, c9]
  simp only [c9, c9b, Bool.not_true, Bool.false_eq_true, ↓reduceIte]
  have hpos := FsFile.seek_pos pl.1 r2.1 c9b
  cases hfs : b.useFloydSteinberg
  · simp only [Bool.false_eq_true, ↓reduceIte]
    refine ⟨trivial, fun _ => ?_⟩
    simp [hpos, c9, d13]
  · simp only [↓reduceIte]
    refine ⟨trivial, fun _ => ?_⟩
    simp [hpos, c9, d13]
theorem toInt32_range (u : Nat) : -2147483648 ≤ toInt32 u ∧ toInt32 u < 2147483648 := by
  unfold toInt32; split <;> omega

theorem headerHeight_valid_iff (h : HeaderFields) :
    (0 < headerHeight h ∧ headerHeight h ≤ 3072) ↔
      (0 < |toInt32 h.rawHeight| ∧ |toInt32 h.rawHeight| ≤ 3072) := by
  have hr := toInt32_range h.rawHeight
  unfold headerHeight
  generalize toInt32 h.rawHeight = r at hr ⊢
  rcases abs_cases r with ⟨ha, hs⟩ | ⟨ha, hs⟩
  · rw [ha, if_neg (by omega)]
  · rw [ha, if_pos hs]
    unfold wrap32 toInt32
    split <;> omega

theorem firstViolation_none_iff (h : HeaderFields) :
    firstViolation h = none ↔
      (h.bfType = 0x4D42 ∧ 40 ≤ h.biSize ∧ h.planes = 1 ∧
       (h.bpp = 1 ∨ h.bpp = 2 ∨ h.bpp = 8 ∨ h.bpp = 24 ∨ h.bpp = 32) ∧
       (h.comp = 0 ∨ (h.bpp = 32 ∧ h.comp = 3)) ∧ h.colorsUsed ≤ 256 ∧
       0 < toInt32 h.width ∧ toInt32 h.width ≤ 2048 ∧
       0 < headerHeight h ∧ headerHeight h ≤ 3072) := by
  unfold firstViolation
  constructor
  · intro hv
    split_ifs at hv
    have hw : 0 < toInt32 h.width ∧ toInt32 h.width ≤ 2048 := by omega
    have hh : 0 < headerHeight h ∧ headerHeight h ≤ 3072 := by omega
    have hsz : 40 ≤ h.biSize ∧ h.colorsUsed ≤ 256 := by omega
    exact ⟨by omega, hsz.1, by omega, by assumption, by assumption, hsz.2, hw.1, hw.2,
      hh.1, hh.2⟩
  · rintro ⟨h1, h2, h3, h4, h5, h6, h7, h8, h9, h10⟩
    split_ifs
    all_goals first | rfl | (exfalso; omega)

theorem firstViolation_ne_ok (h : HeaderFields) :
    firstViolation h ≠ some BmpReaderError.Ok := by
  unfold firstViolation
  split_ifs <;> simp

/-- C1: on an open file whose seeks succeed, `parseHeaders` returns Ok exactly
when the header fields it reads satisfy every validation rule: magic 0x4D42,
info-header size at least 40, one plane, bits per pixel in 1, 2, 8, 24, 32,
compression 0 (or 3 for 32 bits per pixel), at most 256 colours used,
0 < width <= 2048 and 0 < |rawHeight| <= 3072. -/
theorem parseHeaders_ok_iff (b : Bitmap) (hopen : b.file.isOpen = true)
    (hseek : (headerFields b.file).bfOffBits ≤ b.file.data.length) :
    (parseHeaders b).1 = BmpReaderError.Ok ↔
      ((headerFields b.file).bfType = 0x4D42 ∧
       40 ≤ (headerFields b.file).biSize ∧
       (headerFields b.file).planes = 1 ∧
       ((headerFields b.file).bpp = 1 ∨ (headerFields b.file).bpp = 2 ∨
        (headerFields b.file).bpp = 8 ∨ (headerFields b.file).bpp = 24 ∨
        (headerFields b.file).bpp = 32) ∧
       ((headerFields b.file).comp = 0 ∨
        ((headerFields b.file).bpp = 32 ∧ (headerFields b.file).comp = 3)) ∧
       (headerFields b.file).colorsUsed ≤ 256 ∧
       0 < toInt32 (headerFields b.file).width ∧
       toInt32 (headerFields b.file).width ≤ 2048 ∧
       0 < |toInt32 (headerFields b.file).rawHeight| ∧
       |toInt32 (headerFields b.file).rawHeight| ≤ 3072) := by
  rw [(parseHeaders_spec b hopen).1, if_pos hseek]
  have hh := headerHeight_valid_iff (headerFields b.file)
  have hn := firstViolation_none_iff (headerFields b.file)
  have hne := firstViolation_ne_ok (headerFields b.file)
  generalize headerFields b.file = h at hh hn hne ⊢
  constructor
  · intro hv
    cases hf : firstViolation h with
    | some e =>
      rw [hf] at hv hne
      simp only at hv
      exact absurd (congrArg some hv) hne
    | none =>
      obtain ⟨v1, v2, v3, v4, v5, v6, v7, v8, v9⟩ := hn.mp hf
      exact ⟨v1, v2, v3, v4, v5, v6, v7, v8, hh.mp v9⟩
  · rintro ⟨v1, v2, v3, v4, v5, v6, v7, v8, v9⟩
    rw [hn.mpr ⟨v1, v2, v3, v4, v5, v6, v7, v8, hh.mpr v9⟩]

set_option maxRecDepth 100000 in
theorem headerFields_gray40x4 :
    headerFields (freshBitmap false gray40x4).file =
      { bfType := 0x4D42, bfOffBits := 54, biSize := 40, width := 40, rawHeight := 4,
        planes := 1, bpp := 24, comp := 0, colorsUsed := 0 } := by
  decide

set_option maxRecDepth 100000 in
/-- Witness for C1: the 40x4 sample image meets the hypotheses and is accepted. -/
theorem parseHeaders_ok_iff_witness :
    (freshBitmap false gray40x4).file.isOpen = true ∧
    (headerFields (freshBitmap false gray40x4).file).bfOffBits ≤
      (freshBitmap false gray40x4).file.data.length ∧
    (parseHeaders (freshBitmap false gray40x4)).1 = BmpReaderError.Ok :=
  ⟨rfl, by rw [headerFields_gray40x4]; decide,
   (parseHeaders_ok_iff (freshBitmap false gray40x4) rfl
      (by rw [headerFields_gray40x4]; decide)).mpr
      (by rw [headerFields_gray40x4]; decide)⟩

/-- C2: `parseHeaders` returns the code of the first validation rule the
header violates, in the order bad magic (NotBMP), info header below 40
(DIBTooSmall), planes other than 1 (BadPlanes), bad bit depth (UnsupportedBpp),
bad compression (UnsupportedCompression), more than 256 colours
(PaletteTooLarge), width or height not positive (BadDimensions), width above
2048 or height above 3072 (ImageTooLarge); a header violating exactly one rule
therefore gets that rule's own code, and the code is never Ok. -/
theorem parseHeaders_first_violation (b : Bitmap) (hopen : b.file.isOpen = true)
    (e : BmpReaderError) (hv : firstViolation (headerFields b.file) = some e) :
    (parseHeaders b).1 = e ∧ e ≠ BmpReaderError.Ok := by
  refine ⟨by rw [(parseHeaders_spec b hopen).1, hv], ?_⟩
  generalize headerFields b.file = h at hv
  unfold firstViolation at hv
  split_ifs at hv
  all_goals (injection hv with hv; subst hv; decide)

/-- Witness for C2: a file that does not start with the magic is reported as NotBMP. -/
theorem parseHeaders_first_violation_witness :
    (parseHeaders (freshBitmap false [0x50, 0x4B, 3, 4])).1 = BmpReaderError.NotBMP ∧
      BmpReaderError.NotBMP ≠ BmpReaderError.Ok :=
  parseHeaders_first_violation (freshBitmap false [0x50, 0x4B, 3, 4]) rfl
    BmpReaderError.NotBMP (by decide)

/-- C6: simple-threshold quantization depends on the luminance alone: at every
position `quantize` is the fixed cut-point function (below 50 gives 0, below 70
gives 1, below 140 gives 2, otherwise 3), so equal luminances at different
positions get equal levels. -/
theorem quantize_cut_points (gray x y : Int) :
    quantize gray x y =
      (if gray < 50 then 0 else if gray < 70 then 1 else if gray < 140 then 2 else 3) ∧
    ∀ x2 y2 : Int, quantize gray x2 y2 = quantize gray x y := by
  constructor
  · simp [quantize, USE_NOISE_DITHERING, quantizeSimple]
  · intro x2 y2
    simp [quantize, USE_NOISE_DITHERING]

/-- A successful parse: the file is open, no rule is violated, and the
session holds the parsed values. -/
theorem parseHeaders_ok (b : Bitmap) (h : (parseHeaders b).1 = BmpReaderError.Ok) :
    b.file.isOpen = true ∧ firstViolation (headerFields b.file) = none ∧
      ParsedOk b (parseHeaders b).2 := by
  have hopen : b.file.isOpen = true := by
    by_contra hno
    have hf : b.file.isOpen = false := by simpa using hno
    unfold parseHeaders at h
    simp only [hf, Bool.not_false, ↓reduceIte] at h
    exact absurd h (by decide)
  have hs := parseHeaders_spec b hopen
  refine ⟨hopen, ?_, hs.2 h⟩
  have h1 := hs.1
  rw [h] at h1
  cases hv : firstViolation (headerFields b.file) with
  | none => rfl
  | some e =>
    rw [hv] at h1
    simp only at h1
    exact absurd (h1 ▸ hv) (firstViolation_ne_ok _)

theorem rowBytes_ceil (a : Int) (ha : 0 ≤ a) :
    Int.tdiv (a + 31) 32 * 4 = 4 * ⌈(a : ℚ) / 32⌉ ∧ ⌈(a : ℚ) / 8⌉ ≤ Int.tdiv (a + 31) 32 * 4 := by
  have ht : Int.tdiv (a + 31) 32 = (a + 31) / 32 := Int.tdiv_eq_ediv (by omega) (by omega)
  have hc : ⌈(a : ℚ) / 32⌉ = (a + 31) / 32 := by
    rw [Int.ceil_eq_iff]
    have h1 : 32 * ((a + 31) / 32) - 32 < a := by omega
    have h2 : a ≤ 32 * ((a + 31) / 32) := by omega
    have h1q : (32 : ℚ) * (((a + 31) / 32 : Int) : ℚ) - 32 < (a : ℚ) := by exact_mod_cast h1
    have h2q : (a : ℚ) ≤ 32 * (((a + 31) / 32 : Int) : ℚ) := by exact_mod_cast h2
    constructor
    · rw [lt_div_iff₀ (by norm_num)]; linarith
    · rw [div_le_iff₀ (by norm_num)]; linarith
  refine ⟨by rw [ht, hc]; ring, ?_⟩
  rw [ht, Int.ceil_le]
  have h2 : a ≤ 8 * ((a + 31) / 32 * 4) := by omega
  have h2q : (a : ℚ) ≤ 8 * (((a + 31) / 32 * 4 : Int) : ℚ) := by exact_mod_cast h2
  rw [div_le_iff₀ (by norm_num)]; linarith

/-- C8: for every accepted header the row stride is 4 * ceil(width * bpp / 32):
a multiple of 4 that is at least ceil(width * bpp / 8), so one stride covers
all the pixels of a row. -/
theorem parseHeaders_rowBytes (b : Bitmap) (h : (parseHeaders b).1 = BmpReaderError.Ok) :
    (parseHeaders b).2.rowBytes =
        4 * ⌈(((parseHeaders b).2.width : ℚ) * ((parseHeaders b).2.bpp : ℚ)) / 32⌉ ∧
      (4 : Int) ∣ (parseHeaders b).2.rowBytes ∧
      ⌈(((parseHeaders b).2.width : ℚ) * ((parseHeaders b).2.bpp : ℚ)) / 8⌉ ≤
        (parseHeaders b).2.rowBytes := by
  obtain ⟨_, hv, hw, _, hb, _, hr, _⟩ := parseHeaders_ok b h
  have hvalid := (firstViolation_none_iff _).mp hv
  have hwpos : 0 ≤ (parseHeaders b).2.width * ((parseHeaders b).2.bpp : Int) := by
    rw [hw]; exact mul_nonneg (by omega) (by omega)
  have hc := rowBytes_ceil _ hwpos
  rw [hr]
  push_cast at hc
  exact ⟨hc.1, ⟨_, by rw [hc.1]⟩, hc.2⟩

set_option maxRecDepth 100000 in
theorem parseHeaders_gray40x4_ok :
    (parseHeaders (freshBitmap false gray40x4)).1 = BmpReaderError.Ok := by
  decide

/-- Witness for C8: the 40x4 sample image is accepted and its stride is 120. -/
theorem parseHeaders_rowBytes_witness :
    (parseHeaders (freshBitmap false gray40x4)).1 = BmpReaderError.Ok ∧
    (parseHeaders (freshBitmap false gray40x4)).2.rowBytes =
        4 * ⌈(((parseHeaders (freshBitmap false gray40x4)).2.width : ℚ) *
          ((parseHeaders (freshBitmap false gray40x4)).2.bpp : ℚ)) / 32⌉ :=
  ⟨parseHeaders_gray40x4_ok,
   (parseHeaders_rowBytes (freshBitmap false gray40x4) parseHeaders_gray40x4_ok).1⟩

/-! ## The pixel loop -/

theorem pixelLoop_zero (fs : Bool) (w p : Int) (lf : Nat → Nat) (s : PackState) :
    pixelLoop fs w p lf 0 s = s := rfl

theorem pixelLoop_succ (fs : Bool) (w p : Int) (lf : Nat → Nat) (n : Nat) (s : PackState) :
    pixelLoop fs w p lf (n + 1) s = packPixel fs w p (pixelLoop fs w p lf n s) (lf n) := by
  unfold pixelLoop
  rw [List.range_succ, List.foldl_append]
  rfl

theorem quantizeSimple_lt (g : Int) : quantizeSimple g < 4 := by
  unfold quantizeSimple; split_ifs <;> omega

theorem quantizeNoise_lt (g x y : Int) : quantizeNoise g x y < 4 := by
  unfold quantizeNoise; dsimp only; split_ifs <;> omega

theorem quantize_lt (g x y : Int) : quantize g x y < 4 := by
  unfold quantize; split
  · exact quantizeNoise_lt g x y
  · exact quantizeSimple_lt g

theorem quantizeFloydSteinberg_lt (g : Int) (x : Nat) (w : Int) (c n : List Int) (r : Bool) :
    (quantizeFloydSteinberg g x w c n r).1 < 4 := by
  unfold quantizeFloydSteinberg
  dsimp only
  split <;> (dsimp only; split_ifs <;> simp)

theorem pixelQuant_lt (fs : Bool) (w p : Int) (s : PackState) (lum : Nat) :
    (pixelQuant fs w p s lum).1 < 4 := by
  unfold pixelQuant
  split
  · exact quantizeFloydSteinberg_lt _ _ _ _ _ _
  · exact quantize_lt (adjustPixel ↑lum) ↑s.currentX p

/-- Bit arithmetic of one `packPixel` step: with `k` pixels already in the byte
(so its low `8 - 2k` bits are still zero), or-ing colour `c` at shift `6 - 2k`
places `c` in the next two bits, keeps the pixels before it and leaves the
remaining low bits zero. -/
theorem pack_bits (cur c k : Nat) (hk : k < 4) (hc : c < 4) (hcur : cur < 256)
    (hlow : cur % 4 ^ (4 - k) = 0) :
    wrapU8 (cur ||| (c <<< (6 - 2 * k))) < 256 ∧
    wrapU8 (cur ||| (c <<< (6 - 2 * k))) % 4 ^ (3 - k) = 0 ∧
    (wrapU8 (cur ||| (c <<< (6 - 2 * k))) / 4 ^ (3 - k)) % 4 = c ∧
    ∀ j, j < k → (wrapU8 (cur ||| (c <<< (6 - 2 * k))) / 4 ^ (3 - j)) % 4 =
      (cur / 4 ^ (3 - j)) % 4 := by
  have hor : cur ||| (c <<< (6 - 2 * k)) = cur + c * 2 ^ (6 - 2 * k) := by
    have hpow : (4 : Nat) ^ (4 - k) = 2 ^ (8 - 2 * k) := by
      interval_cases k <;> norm_num
    have h1 : 2 ^ (8 - 2 * k) * (cur / 2 ^ (8 - 2 * k)) = cur := by
      rw [hpow] at hlow
      have := Nat.div_add_mod cur (2 ^ (8 - 2 * k))
      omega
    have h2 : c <<< (6 - 2 * k) < 2 ^ (8 - 2 * k) := by
      rw [Nat.shiftLeft_eq]
      interval_cases k <;> norm_num <;> omega
    have h3 := Nat.mul_add_lt_is_or h2 (cur / 2 ^ (8 - 2 * k))
    rw [h1] at h3
    rw [← h3, Nat.shiftLeft_eq]
  rw [hor]
  unfold wrapU8
  refine ⟨by omega, ?_, ?_, ?_⟩
  · interval_cases k <;> norm_num at hlow ⊢ <;> omega
  · interval_cases k <;> norm_num at hlow ⊢ <;> omega
  · intro j hj
    interval_cases k <;> interval_cases j <;> norm_num at hlow ⊢ <;> omega

theorem getD_snoc_lt (l : List Nat) (a i : Nat) (h : i < l.length) :
    (l ++ [a]).getD i 0 = l.getD i 0 := by
  rw [List.getD_append _ _ _ _ h]

theorem getD_snoc_eq (l : List Nat) (a : Nat) : (l ++ [a]).getD l.length 0 = a := by
  rw [List.getD_append_right _ _ _ _ (le_refl _)]
  simp

theorem packInv_step (fs : Bool) (w p : Int) (L : Nat → Nat) (n : Nat) (s : PackState)
    (lum : Nat) (hinv : PackInv L n s) (hL : (pixelQuant fs w p s lum).1 = L n) :
    PackInv L (n + 1) (packPixel fs w p s lum) := by
  obtain ⟨hx, hsh, hlen, hcur, hlow, hbits⟩ := hinv
  have hk : n % 4 < 4 := Nat.mod_lt _ (by norm_num)
  have hc : (pixelQuant fs w p s lum).1 < 4 := pixelQuant_lt fs w p s lum
  obtain ⟨p1, p2, p3, p4⟩ := pack_bits s.currentOutByte _ (n % 4) hk hc hcur hlow
  rw [← hsh] at p1 p2 p3 p4
  have hcurAt : (s.out ++ [s.currentOutByte]).getD (n / 4) 0 = s.currentOutByte := by
    rw [← hlen]; exact getD_snoc_eq _ _
  unfold packPixel
  dsimp only
  by_cases h0 : s.bitShift = 0
  · have hk3 : n % 4 = 3 := by omega
    have hn1 : (n + 1) % 4 = 0 := by omega
    have hn2 : (n + 1) / 4 = n / 4 + 1 := by omega
    rw [if_pos h0]
    refine ⟨by simp [hx], by simp [hn1], by simp [hlen, hn2], by norm_num, by simp, ?_⟩
    intro x hxlt
    dsimp only
    by_cases hx4 : x / 4 < n / 4
    · have hxn : x < n := by omega
      rw [getD_snoc_lt _ _ _ (by simp; omega), getD_snoc_lt _ _ _ (by omega)]
      have := hbits x hxn
      rwa [getD_snoc_lt _ _ _ (by omega)] at this
    · have hxe : x / 4 = s.out.length := by omega
      rw [getD_snoc_lt _ _ _ (by simp; omega), hxe, getD_snoc_eq]
      by_cases hxn : x = n
      · subst hxn; rw [hk3] at p3 ⊢; rw [← hL]; exact p3
      · have hxn2 : x < n := by omega
        have h5 := p4 (x % 4) (by omega)
        rw [h5]
        have := hbits x hxn2
        rwa [hxe, getD_snoc_eq] at this
  · have hk3 : n % 4 < 3 := by omega
    have hn1 : (n + 1) % 4 = n % 4 + 1 := by omega
    have hn2 : (n + 1) / 4 = n / 4 := by omega
    rw [if_neg h0]
    refine ⟨by simp [hx], by simp only [hn1]; omega, by simp [hlen, hn2], p1, ?_, ?_⟩
    · dsimp only; rw [hn1]
      have : 4 - (n % 4 + 1) = 3 - n % 4 := by omega
      rw [this]; exact p2
    · intro x hxlt
      dsimp only
      by_cases hx4 : x / 4 < n / 4
      · have hxn : x < n := by omega
        rw [getD_snoc_lt _ _ _ (by omega)]
        have := hbits x hxn
        rwa [getD_snoc_lt _ _ _ (by omega)] at this
      · have hxe : x / 4 = s.out.length := by omega
        rw [hxe, getD_snoc_eq]
        by_cases hxn : x = n
        · subst hxn; rw [← hL]; exact p3
        · have hxn2 : x < n := by omega
          have h5 := p4 (x % 4) (by omega)
          rw [h5]
          have := hbits x hxn2
          rwa [hxe, getD_snoc_eq] at this

theorem packInv_loop (fs : Bool) (w p : Int) (lf : Nat → Nat) (s0 : PackState)
    (h0 : PackInv (fun x => (pixelQuant fs w p (pixelLoop fs w p lf x s0) (lf x)).1) 0 s0)
    (n : Nat) :
    PackInv (fun x => (pixelQuant fs w p (pixelLoop fs w p lf x s0) (lf x)).1) n
      (pixelLoop fs w p lf n s0) := by
  induction n with
  | zero => exact h0
  | succ n ih =>
    rw [pixelLoop_succ]
    exact packInv_step fs w p _ n _ (lf n) ih rfl

theorem flush_length (L : Nat → Nat) (n : Nat) (s : PackState) (h : PackInv L n s) :
    (flush s).length = (n + 3) / 4 := by
  obtain ⟨_, hsh, hlen, _, _, _⟩ := h
  unfold flush
  split_ifs with h6
  · simp [hlen]; omega
  · have : ¬ s.bitShift ≠ 6 := h6
    rw [hlen]; omega

theorem flush_bits (L : Nat → Nat) (n : Nat) (s : PackState) (h : PackInv L n s) :
    (∀ x, x < n → ((flush s).getD (x / 4) 0 / 4 ^ (3 - x % 4)) % 4 = L x) ∧
    (n % 4 ≠ 0 → (flush s).getD (n / 4) 0 % 4 ^ (4 - n % 4) = 0) := by
  obtain ⟨_, hsh, hlen, _, hlow, hbits⟩ := h
  unfold flush
  split_ifs with h6
  · refine ⟨hbits, fun _ => ?_⟩
    rw [← hlen, getD_snoc_eq]; exact hlow
  · have h6b : s.bitShift = 6 := by simpa using h6
    refine ⟨fun x hx => ?_, fun hne => absurd h6b (by omega)⟩
    have := hbits x hx
    rwa [getD_snoc_lt _ _ _ (by omega)] at this

theorem packInit_inv (L : Nat → Nat) (b : Bitmap) : PackInv L 0 (packInit b) := by
  refine ⟨rfl, rfl, rfl, by simp [packInit], by simp [packInit], ?_⟩
  intro x hx; omega

theorem readNextRow_eq (b : Bitmap) :
    readNextRow b =
      if ((rowRead b).1.length : Int) ≠ b.rowBytes then
        (BmpReaderError.ShortReadRow, [], { b with file := (rowRead b).2 })
      else
        match lumAt (rowBegin b).bpp (rowBegin b).paletteLum (rowRead b).1 with
        | none => (BmpReaderError.UnsupportedBpp, [], rowBegin b)
        | some lf =>
          (BmpReaderError.Ok,
           flush (pixelLoop (useFS b) (rowBegin b).width (rowBegin b).prevRowY lf
             (rowBegin b).width.toNat (packInit (rowBegin b))),
           if useFS b then
             { rowBegin b with
               errorCurRow := some (pixelLoop (useFS b) (rowBegin b).width (rowBegin b).prevRowY lf
                 (rowBegin b).width.toNat (packInit (rowBegin b))).errorCurRow,
               errorNextRow := some (pixelLoop (useFS b) (rowBegin b).width (rowBegin b).prevRowY lf
                 (rowBegin b).width.toNat (packInit (rowBegin b))).errorNextRow }
           else rowBegin b) := rfl

@[simp]
theorem beginRow_width (b : Bitmap) : (beginRow b).width = b.width := by
  unfold beginRow; dsimp only; split <;> rfl

@[simp]
theorem beginRow_bpp (b : Bitmap) : (beginRow b).bpp = b.bpp := by
  unfold beginRow; dsimp only; split <;> rfl

@[simp]
theorem beginRow_rowBytes (b : Bitmap) : (beginRow b).rowBytes = b.rowBytes := by
  unfold beginRow; dsimp only; split <;> rfl

@[simp]
theorem beginRow_file (b : Bitmap) : (beginRow b).file = b.file := by
  unfold beginRow; dsimp only; split <;> rfl

@[simp]
theorem beginRow_paletteLum (b : Bitmap) : (beginRow b).paletteLum = b.paletteLum := by
  unfold beginRow; dsimp only; split <;> rfl

@[simp]
theorem beginRow_prevRowY (b : Bitmap) : (beginRow b).prevRowY = b.prevRowY + 1 := by
  unfold beginRow; dsimp only; split <;> rfl

theorem lumAt_isSome (bpp : Nat) (pal row : List Nat)
    (h : bpp = 1 ∨ bpp = 2 ∨ bpp = 8 ∨ bpp = 24 ∨ bpp = 32) :
    ∃ lf, lumAt bpp pal row = some lf := by
  unfold lumAt
  rcases h with h | h | h | h | h <;> subst h <;> simp

theorem rowRead_full (b : Bitmap) (h0 : 0 ≤ b.rowBytes) (h1 : b.rowBytes < 4294967296)
    (hfit : b.file.pos + b.rowBytes.toNat ≤ b.file.data.length) :
    ((rowRead b).1.length : Int) = b.rowBytes ∧
      (rowRead b).2.pos = b.file.pos + b.rowBytes.toNat ∧
      (rowRead b).2.data = b.file.data := by
  have hn : (b.rowBytes % 4294967296).toNat = b.rowBytes.toNat := by omega
  unfold rowRead
  rw [hn, FsFile.readBuf_length, FsFile.readBuf_pos]
  refine ⟨by omega, by omega, rfl⟩

/-- One successful row: with a supported bit depth and a full row left in the
file, `readNextRow` returns Ok, stores ceil(width / 4) bytes with every pixel in
its two bits, and advances the file by one stride. -/
theorem readNextRow_ok (b : Bitmap)
    (hbpp : b.bpp = 1 ∨ b.bpp = 2 ∨ b.bpp = 8 ∨ b.bpp = 24 ∨ b.bpp = 32)
    (h0 : 0 ≤ b.rowBytes) (h1 : b.rowBytes < 4294967296)
    (hfit : b.file.pos + b.rowBytes.toNat ≤ b.file.data.length) :
    (readNextRow b).1 = BmpReaderError.Ok ∧
    (readNextRow b).2.1.length = (b.width.toNat + 3) / 4 ∧
    (∀ x, x < b.width.toNat →
      ((readNextRow b).2.1.getD (x / 4) 0 / 4 ^ (3 - x % 4)) % 4 = levelAt b x) ∧
    (b.width.toNat % 4 ≠ 0 →
      (readNextRow b).2.1.getD (b.width.toNat / 4) 0 % 4 ^ (4 - b.width.toNat % 4) = 0) ∧
    (readNextRow b).2.2.file.pos = b.file.pos + b.rowBytes.toNat ∧
    (readNextRow b).2.2.file.data = b.file.data ∧
    (readNextRow b).2.2.width = b.width ∧ (readNextRow b).2.2.bpp = b.bpp ∧
    (readNextRow b).2.2.rowBytes = b.rowBytes := by
  obtain ⟨hlen, hpos, hdata⟩ := rowRead_full b h0 h1 hfit
  have hw : (rowBegin b).width = b.width := by simp [rowBegin]
  have hb : (rowBegin b).bpp = b.bpp := by simp [rowBegin]
  obtain ⟨lf, hlf⟩ := lumAt_isSome (rowBegin b).bpp (rowBegin b).paletteLum (rowRead b).1
    (by rw [hb]; exact hbpp)
  have hinv := packInv_loop (useFS b) (rowBegin b).width (rowBegin b).prevRowY lf
    (packInit (rowBegin b)) (packInit_inv _ _) (rowBegin b).width.toNat
  have hlev : ∀ x, levelAt b x = (pixelQuant (useFS b) (rowBegin b).width (rowBegin b).prevRowY
      (pixelLoop (useFS b) (rowBegin b).width (rowBegin b).prevRowY lf x (packInit (rowBegin b)))
      (lf x)).1 := by
    intro x; unfold levelAt; rw [hlf]
  rw [readNextRow_eq, if_neg (by simpa using hlen), hlf]
  dsimp only
  have hfl := flush_length _ _ _ hinv
  obtain ⟨hb1, hb2⟩ := flush_bits _ _ _ hinv
  simp only [hw] at hfl hb1 hb2 hlev ⊢
  refine ⟨trivial, hfl, ?_, hb2, ?_, ?_, ?_, ?_, ?_⟩
  · intro x hx; rw [hlev]; exact hb1 x hx
  all_goals split <;> simp [rowBegin, hpos, hdata]

theorem readRows_ok (n : Nat) (b : Bitmap)
    (hbpp : b.bpp = 1 ∨ b.bpp = 2 ∨ b.bpp = 8 ∨ b.bpp = 24 ∨ b.bpp = 32)
    (h0 : 0 ≤ b.rowBytes) (h1 : b.rowBytes < 4294967296)
    (hfit : b.file.pos + n * b.rowBytes.toNat ≤ b.file.data.length) :
    (readRows n b).1.length = n ∧
      ∀ r ∈ (readRows n b).1, r.1 = BmpReaderError.Ok ∧ r.2.length = (b.width.toNat + 3) / 4 := by
  induction n generalizing b with
  | zero => exact ⟨rfl, fun r hr => by simp [readRows] at hr⟩
  | succ n ih =>
    have hfit1 : b.file.pos + b.rowBytes.toNat ≤ b.file.data.length := by
      have : (n + 1) * b.rowBytes.toNat = n * b.rowBytes.toNat + b.rowBytes.toNat := by ring
      omega
    obtain ⟨r1, r2, _, _, r5, r6, r7, r8, r9⟩ := readNextRow_ok b hbpp h0 h1 hfit1
    have hfit2 : (readNextRow b).2.2.file.pos + n * (readNextRow b).2.2.rowBytes.toNat ≤
        (readNextRow b).2.2.file.data.length := by
      rw [r5, r6, r9]
      have : (n + 1) * b.rowBytes.toNat = n * b.rowBytes.toNat + b.rowBytes.toNat := by ring
      omega
    obtain ⟨i1, i2⟩ := ih (readNextRow b).2.2 (by rw [r8]; exact hbpp) (by rw [r9]; exact h0)
      (by rw [r9]; exact h1) hfit2
    rw [r7] at i2
    unfold readRows
    dsimp only
    refine ⟨by simp [i1], ?_⟩
    intro r hr
    rcases List.mem_cons.mp hr with hr | hr
    · subst hr; exact ⟨r1, r2⟩
    · exact i2 r hr

theorem ceil_div_four (a : Int) (ha : 0 ≤ a) : (((a.toNat + 3) / 4 : Nat) : Int) = ⌈(a : ℚ) / 4⌉ := by
  symm
  rw [Int.ceil_eq_iff]
  have h1 : 4 * (((a.toNat + 3) / 4 : Nat) : Int) - 4 < a := by omega
  have h2 : a ≤ 4 * (((a.toNat + 3) / 4 : Nat) : Int) := by omega
  have h1q : (4 : ℚ) * ((((a.toNat + 3) / 4 : Nat) : Int) : ℚ) - 4 < (a : ℚ) := by exact_mod_cast h1
  have h2q : (a : ℚ) ≤ 4 * ((((a.toNat + 3) / 4 : Nat) : Int) : ℚ) := by exact_mod_cast h2
  constructor
  · rw [lt_div_iff₀ (by norm_num)]; linarith
  · rw [div_le_iff₀ (by norm_num)]; linarith

theorem rowBytes_bounds (w : Int) (bpp : Nat) (hw0 : 0 < w) (hw : w ≤ 2048)
    (hbpp : bpp = 1 ∨ bpp = 2 ∨ bpp = 8 ∨ bpp = 24 ∨ bpp = 32) :
    0 ≤ Int.tdiv (w * (bpp : Int) + 31) 32 * 4 ∧
      Int.tdiv (w * (bpp : Int) + 31) 32 * 4 < 4294967296 := by
  rcases hbpp with h | h | h | h | h <;> subst h <;>
    (rw [Int.tdiv_eq_ediv (by omega) (by omega)]; omega)

/-- C3: for every image whose header `parseHeaders` accepts (any of the five
bit depths) and whose pixel data holds `height` full rows of `rowBytes` bytes,
each of the `height` consecutive calls of `readNextRow` returns Ok and stores
exactly ceil(width / 4) output bytes (the returned list is everything the call
stores, so no byte beyond them is written). -/
theorem readNextRow_all_rows (b : Bitmap) (hok : (parseHeaders b).1 = BmpReaderError.Ok)
    (hdata : (parseHeaders b).2.bfOffBits +
      (parseHeaders b).2.height.toNat * (parseHeaders b).2.rowBytes.toNat ≤
        b.file.data.length) :
    (readRows (parseHeaders b).2.height.toNat (parseHeaders b).2).1.length =
        (parseHeaders b).2.height.toNat ∧
      ∀ r ∈ (readRows (parseHeaders b).2.height.toNat (parseHeaders b).2).1,
        r.1 = BmpReaderError.Ok ∧
          (r.2.length : Int) = ⌈((parseHeaders b).2.width : ℚ) / 4⌉ := by
  obtain ⟨_, hv, hw, _, hb, _, hr, hd, hp, _⟩ := parseHeaders_ok b hok
  obtain ⟨_, _, _, v4, _, _, v7, v8, _, _⟩ := (firstViolation_none_iff _).mp hv
  rw [← hw] at v7 v8
  rw [← hb] at v4
  obtain ⟨rb0, rb1⟩ := rowBytes_bounds _ _ v7 v8 v4
  rw [← hr] at rb0 rb1
  obtain ⟨l1, l2⟩ := readRows_ok (parseHeaders b).2.height.toNat (parseHeaders b).2 v4 rb0 rb1
    (by rw [hp, hd]; exact hdata)
  refine ⟨l1, fun r hr => ⟨(l2 r hr).1, ?_⟩⟩
  rw [(l2 r hr).2]
  exact ceil_div_four _ (by omega)

set_option maxRecDepth 100000 in
theorem gray40x4_fits :
    (parseHeaders (freshBitmap false gray40x4)).2.bfOffBits +
      (parseHeaders (freshBitmap false gray40x4)).2.height.toNat *
        (parseHeaders (freshBitmap false gray40x4)).2.rowBytes.toNat ≤
      (freshBitmap false gray40x4).file.data.length := by
  decide

/-- Witness for C3: the 40x4 sample image is accepted, holds its four rows,
and its four calls are answered. -/
theorem readNextRow_all_rows_witness :
    (parseHeaders (freshBitmap false gray40x4)).1 = BmpReaderError.Ok ∧
    (readRows (parseHeaders (freshBitmap false gray40x4)).2.height.toNat
        (parseHeaders (freshBitmap false gray40x4)).2).1.length =
      (parseHeaders (freshBitmap false gray40x4)).2.height.toNat :=
  ⟨parseHeaders_gray40x4_ok,
   (readNextRow_all_rows (freshBitmap false gray40x4) parseHeaders_gray40x4_ok
      gray40x4_fits).1⟩

/-- What an Ok result of `readNextRow` says about the stored bytes, with the
facts the call itself established: the row was read in full and the bit depth
has a decoder. -/
theorem readNextRow_of_ok (b : Bitmap) (h : (readNextRow b).1 = BmpReaderError.Ok) :
    ((rowRead b).1.length : Int) = b.rowBytes ∧
    (∃ lf, lumAt b.bpp b.paletteLum (rowRead b).1 = some lf) ∧
    (readNextRow b).2.1.length = (b.width.toNat + 3) / 4 ∧
    (∀ x, x < b.width.toNat →
      ((readNextRow b).2.1.getD (x / 4) 0 / 4 ^ (3 - x % 4)) % 4 = levelAt b x) ∧
    (b.width.toNat % 4 ≠ 0 →
      (readNextRow b).2.1.getD (b.width.toNat / 4) 0 % 4 ^ (4 - b.width.toNat % 4) = 0) := by
  have hw : (rowBegin b).width = b.width := by simp [rowBegin]
  have hb : (rowBegin b).bpp = b.bpp := by simp [rowBegin]
  have hp : (rowBegin b).paletteLum = b.paletteLum := by simp [rowBegin]
  rw [readNextRow_eq] at h ⊢
  by_cases hlen : ((rowRead b).1.length : Int) = b.rowBytes
  swap
  · rw [if_pos hlen] at h; simp at h
  rw [if_neg (by simpa using hlen)] at h ⊢
  cases hlf : lumAt (rowBegin b).bpp (rowBegin b).paletteLum (rowRead b).1 with
  | none => rw [hlf] at h; simp at h
  | some lf =>
    have hinv := packInv_loop (useFS b) (rowBegin b).width (rowBegin b).prevRowY lf
      (packInit (rowBegin b)) (packInit_inv _ _) (rowBegin b).width.toNat
    have hlev : ∀ x, levelAt b x = (pixelQuant (useFS b) (rowBegin b).width
        (rowBegin b).prevRowY
        (pixelLoop (useFS b) (rowBegin b).width (rowBegin b).prevRowY lf x (packInit (rowBegin b)))
        (lf x)).1 := by
      intro x; unfold levelAt; rw [hlf]
    dsimp only
    have hfl := flush_length _ _ _ hinv
    obtain ⟨hb1, hb2⟩ := flush_bits _ _ _ hinv
    simp only [hw] at hfl hb1 hb2 hlev ⊢
    refine ⟨hlen, ⟨lf, by rw [← hb, ← hp]; exact hlf⟩, hfl, ?_, hb2⟩
    intro x hx; rw [hlev]; exact hb1 x hx

theorem levelAt_lt (b : Bitmap) (x : Nat) : levelAt b x < 4 := by
  unfold levelAt
  split
  · norm_num
  · exact pixelQuant_lt _ _ _ _ _

theorem testBit_of_field (B c k : Nat) (hk : k < 4)
    (h : (B / 4 ^ (3 - k)) % 4 = c) :
    B.testBit (7 - 2 * k) = c.testBit 1 ∧ B.testBit (6 - 2 * k) = c.testBit 0 := by
  simp only [Nat.testBit_to_div_mod]
  interval_cases k <;> norm_num at h ⊢ <;>
    constructor <;> omega

theorem testBit_low_zero (B j i : Nat) (h : B % 2 ^ j = 0) (hi : i < j) : B.testBit i = false := by
  have := Nat.testBit_mod_two_pow B j i
  rw [h] at this
  simpa [hi] using this.symm

/-- C4: `readNextRow` packs four pixels per output byte, most significant bits
first: the 2-bit level of every pixel `x` below `width` occupies bits
`7 - 2 * (x mod 4)` and `6 - 2 * (x mod 4)` of output byte `x / 4`, and when
`width` is not a multiple of 4 the unused low bits of the last byte are zero. -/
theorem readNextRow_packs_msb_first (b : Bitmap)
    (h : (readNextRow b).1 = BmpReaderError.Ok) :
    (∀ x : Nat, (x : Int) < b.width →
      levelAt b x < 4 ∧
      ((readNextRow b).2.1.getD (x / 4) 0).testBit (7 - 2 * (x % 4)) = (levelAt b x).testBit 1 ∧
      ((readNextRow b).2.1.getD (x / 4) 0).testBit (6 - 2 * (x % 4)) =
        (levelAt b x).testBit 0) ∧
    (b.width.toNat % 4 ≠ 0 → ∀ i, i < 8 - 2 * (b.width.toNat % 4) →
      ((readNextRow b).2.1.getD (b.width.toNat / 4) 0).testBit i = false) := by
  obtain ⟨_, _, _, hbits, hlow⟩ := readNextRow_of_ok b h
  constructor
  · intro x hx
    have hxn : x < b.width.toNat := by omega
    exact ⟨levelAt_lt b x,
      testBit_of_field _ _ (x % 4) (Nat.mod_lt _ (by norm_num)) (hbits x hxn)⟩
  · intro hne i hi
    have hk : b.width.toNat % 4 < 4 := Nat.mod_lt _ (by norm_num)
    have hpow : (4 : Nat) ^ (4 - b.width.toNat % 4) = 2 ^ (8 - 2 * (b.width.toNat % 4)) := by
      generalize b.width.toNat % 4 = k at hk
      interval_cases k <;> norm_num
    have := hlow hne
    rw [hpow] at this
    exact testBit_low_zero _ _ _ this hi

set_option maxRecDepth 100000 in
theorem readNextRow_gray40x4_ok :
    (readNextRow (parseHeaders (freshBitmap false gray40x4)).2).1 = BmpReaderError.Ok := by
  decide

/-- Witness for C4: the first row of the 40x4 sample image decodes with Ok, and
its pixel 5 sits in bits 5 and 4 of byte 1. -/
theorem readNextRow_packs_msb_first_witness :
    (readNextRow (parseHeaders (freshBitmap false gray40x4)).2).1 = BmpReaderError.Ok ∧
    (((5 : Nat) : Int) < (parseHeaders (freshBitmap false gray40x4)).2.width →
      levelAt (parseHeaders (freshBitmap false gray40x4)).2 5 < 4 ∧
      ((readNextRow (parseHeaders (freshBitmap false gray40x4)).2).2.1.getD (5 / 4) 0).testBit
          (7 - 2 * (5 % 4)) =
        (levelAt (parseHeaders (freshBitmap false gray40x4)).2 5).testBit 1 ∧
      ((readNextRow (parseHeaders (freshBitmap false gray40x4)).2).2.1.getD (5 / 4) 0).testBit
          (6 - 2 * (5 % 4)) =
        (levelAt (parseHeaders (freshBitmap false gray40x4)).2 5).testBit 0) :=
  ⟨readNextRow_gray40x4_ok,
   (readNextRow_packs_msb_first (parseHeaders (freshBitmap false gray40x4)).2
      readNextRow_gray40x4_ok).1 5⟩

theorem shift_eq_div (B k : Nat) (hk : k < 4) : B >>> (6 - 2 * k) = B / 4 ^ (3 - k) := by
  rw [Nat.shiftRight_eq_div_pow]
  interval_cases k <;> norm_num

theorem rowRead_getD (b : Bitmap) (i : Nat) (hi : i < (rowRead b).1.length) :
    (rowRead b).1.getD i 0 = b.file.data.getD (b.file.pos + i) 0 % 256 := by
  unfold rowRead FsFile.readBuf at hi ⊢
  simp only [List.length_map, List.length_take, List.length_drop] at hi
  simp only [List.getD_eq_getElem?_getD, List.getElem?_map, List.getElem?_take, List.getElem?_drop]
  rw [if_pos (by omega)]
  cases b.file.data[b.file.pos + i]? <;> simp

theorem lumOf_gray (v : Nat) (hv : v < 256) : wrapU8 (lumOf v v v) = v := by
  unfold wrapU8 lumOf
  rw [Nat.shiftRight_eq_div_pow]
  omega

theorem levelAt_plain_24 (b : Bitmap) (x : Nat) (h24 : b.bpp = 24)
    (hplain : b.useFloydSteinberg = false) :
    levelAt b x = quantizeSimple (wrapU8 (lumOf ((rowRead b).1.getD (3 * x) 0)
      ((rowRead b).1.getD (3 * x + 1) 0) ((rowRead b).1.getD (3 * x + 2) 0)) : Nat) := by
  have hb : (rowBegin b).bpp = 24 := by simp [rowBegin, h24]
  have hfs : useFS b = false := by simp [useFS, hplain]
  unfold levelAt
  rw [hb]
  simp [lumAt, hfs, pixelQuant, quantize, USE_NOISE_DITHERING, adjustPixel, USE_BRIGHTNESS]

set_option maxRecDepth 1000000 in
theorem readRows_gray40x4 :
    (readRows 4 (parseHeaders (freshBitmap false gray40x4)).2).1 =
      List.replicate 4 (BmpReaderError.Ok, List.replicate 10 0xFF) := by
  decide

/-- C5: a 24 bits per pixel row whose pixels are all RGB (v, v, v) decodes,
under simple thresholding, to level `quantizeSimple v` at every pixel, for every
width and every byte value `v`; in particular the 40x4 image of RGB
(200, 200, 200) is accepted and decodes to 4 rows of 10 output bytes, each 0xFF. -/
theorem gray_rows_decode :
    (∀ (b : Bitmap) (v : Nat), v < 256 → b.bpp = 24 → b.useFloydSteinberg = false →
      3 * b.width ≤ b.rowBytes → (readNextRow b).1 = BmpReaderError.Ok →
      (∀ i, i < 3 * b.width.toNat → b.file.data.getD (b.file.pos + i) 0 = v) →
      ∀ x : Nat, (x : Int) < b.width →
        levelAt b x = quantizeSimple v ∧
        ((readNextRow b).2.1.getD (x / 4) 0 >>> (6 - 2 * (x % 4))) % 4 = quantizeSimple v) ∧
    ((parseHeaders (freshBitmap false gray40x4)).1 = BmpReaderError.Ok ∧
     (readRows 4 (parseHeaders (freshBitmap false gray40x4)).2).1 =
       List.replicate 4 (BmpReaderError.Ok, List.replicate 10 0xFF)) := by
  constructor
  · intro b v hv h24 hplain hstride hok hpix x hx
    obtain ⟨hlen, _, _, hbits, _⟩ := readNextRow_of_ok b hok
    have hxn : x < b.width.toNat := by omega
    have hlev : levelAt b x = quantizeSimple v := by
      rw [levelAt_plain_24 b x h24 hplain]
      rw [rowRead_getD b (3 * x) (by omega), rowRead_getD b (3 * x + 1) (by omega),
        rowRead_getD b (3 * x + 2) (by omega)]
      rw [hpix (3 * x) (by omega), hpix (3 * x + 1) (by omega), hpix (3 * x + 2) (by omega)]
      rw [Nat.mod_eq_of_lt hv, lumOf_gray v hv]
    refine ⟨hlev, ?_⟩
    rw [shift_eq_div _ _ (Nat.mod_lt _ (by norm_num)), hbits x hxn, hlev]
  · exact ⟨parseHeaders_gray40x4_ok, readRows_gray40x4⟩

set_option maxRecDepth 1000000 in
/-- Witness for C5: the first row of the 40x4 sample image meets the hypotheses
with v = 200, and its first pixel gets level `quantizeSimple 200`. -/
theorem gray_rows_decode_witness :
    levelAt (parseHeaders (freshBitmap false gray40x4)).2 0 = quantizeSimple 200 ∧
    ((readNextRow (parseHeaders (freshBitmap false gray40x4)).2).2.1.getD (0 / 4) 0 >>>
      (6 - 2 * (0 % 4))) % 4 = quantizeSimple 200 :=
  gray_rows_decode.1 (parseHeaders (freshBitmap false gray40x4)).2 200 (by decide) (by decide)
    (by decide) (by decide) readNextRow_gray40x4_ok (by decide) 0 (by decide)

/-! ## Rewinding -/

theorem memsetZero_length (buf : List Int) (n : Nat) : (memsetZero buf n).length = buf.length := by
  unfold memsetZero
  simp only [List.length_append, List.length_replicate, List.length_drop]
  omega

theorem memsetZero_full (buf : List Int) : memsetZero buf buf.length = List.replicate buf.length 0 := by
  unfold memsetZero
  simp

theorem addAt_length (buf : List Int) (i : Nat) (d : Int) : (addAt buf i d).length = buf.length := by
  unfold addAt; simp

theorem quantizeFloydSteinberg_lengths (g : Int) (x : Nat) (w : Int) (c n : List Int) (r : Bool) :
    (quantizeFloydSteinberg g x w c n r).2.1.length = c.length ∧
      (quantizeFloydSteinberg g x w c n r).2.2.length = n.length := by
  unfold quantizeFloydSteinberg
  dsimp only
  split <;> simp [addAt_length]

theorem pixelQuant_lengths (fs : Bool) (w p : Int) (s : PackState) (lum : Nat) :
    (pixelQuant fs w p s lum).2.1.length = s.errorCurRow.length ∧
      (pixelQuant fs w p s lum).2.2.length = s.errorNextRow.length := by
  unfold pixelQuant
  split
  · exact quantizeFloydSteinberg_lengths _ _ _ _ _ _
  · exact ⟨rfl, rfl⟩

theorem packPixel_lengths (fs : Bool) (w p : Int) (s : PackState) (lum : Nat) :
    (packPixel fs w p s lum).errorCurRow.length = s.errorCurRow.length ∧
      (packPixel fs w p s lum).errorNextRow.length = s.errorNextRow.length := by
  unfold packPixel
  dsimp only
  split <;> exact pixelQuant_lengths fs w p s lum

theorem pixelLoop_lengths (fs : Bool) (w p : Int) (lf : Nat → Nat) (n : Nat) (s : PackState) :
    (pixelLoop fs w p lf n s).errorCurRow.length = s.errorCurRow.length ∧
      (pixelLoop fs w p lf n s).errorNextRow.length = s.errorNextRow.length := by
  induction n with
  | zero => exact ⟨rfl, rfl⟩
  | succ n ih =>
    rw [pixelLoop_succ]
    obtain ⟨h1, h2⟩ := packPixel_lengths fs w p (pixelLoop fs w p lf n s) (lf n)
    exact ⟨h1.trans ih.1, h2.trans ih.2⟩

theorem beginRow_same (b : Bitmap) : SameImage b (beginRow b) := by
  unfold beginRow SameImage
  dsimp only
  split <;> simp

theorem beginRow_rows (m : Nat) (b : Bitmap) (h : RowsAllocated m b) :
    RowsAllocated m (beginRow b) := by
  obtain ⟨c, n, hc, hn, lc, ln⟩ := h
  unfold beginRow
  dsimp only
  split
  · exact ⟨n, memsetZero c (b.width + 2).toNat, hn, by simp [hc], ln,
      by rw [memsetZero_length]; exact lc⟩
  · exact ⟨c, n, hc, hn, lc, ln⟩

theorem SameImage.trans {a b c : Bitmap} (h1 : SameImage a b) (h2 : SameImage b c) :
    SameImage a c := by
  unfold SameImage at *
  obtain ⟨a1, a2, a3, a4, a5, a6, a7, a8, a9, a10⟩ := h1
  obtain ⟨b1, b2, b3, b4, b5, b6, b7, b8, b9, b10⟩ := h2
  exact ⟨b1.trans a1, b2.trans a2, b3.trans a3, b4.trans a4, b5.trans a5, b6.trans a6,
    b7.trans a7, b8.trans a8, b9.trans a9, b10.trans a10⟩

theorem rowBegin_same (b : Bitmap) : SameImage b (rowBegin b) := by
  have h1 : SameImage b { b with file := (rowRead b).2 } := by
    unfold SameImage rowRead; simp
  exact h1.trans (beginRow_same _)

theorem rowBegin_rows (m : Nat) (b : Bitmap) (h : RowsAllocated m b) :
    RowsAllocated m (rowBegin b) :=
  beginRow_rows m _ h

theorem readNextRow_same (b : Bitmap) : SameImage b (readNextRow b).2.2 := by
  rw [readNextRow_eq]
  split
  · unfold SameImage rowRead; simp
  · split
    · exact rowBegin_same b
    · dsimp only
      split
      · exact (rowBegin_same b).trans (by unfold SameImage; simp)
      · exact rowBegin_same b

theorem readNextRow_rows (m : Nat) (b : Bitmap) (h : RowsAllocated m b) :
    RowsAllocated m (readNextRow b).2.2 := by
  rw [readNextRow_eq]
  split
  · exact h
  · split
    · exact rowBegin_rows m b h
    · dsimp only
      obtain ⟨c, n, hc, hn, lc, ln⟩ := rowBegin_rows m b h
      split
      · refine ⟨_, _, rfl, rfl, ?_, ?_⟩
        · rw [(pixelLoop_lengths _ _ _ _ _ _).1]; simp [packInit, hc, lc]
        · rw [(pixelLoop_lengths _ _ _ _ _ _).2]; simp [packInit, hn, ln]
      · exact ⟨c, n, hc, hn, lc, ln⟩

theorem readRows_same (n : Nat) (b : Bitmap) : SameImage b (readRows n b).2 := by
  induction n generalizing b with
  | zero => unfold SameImage readRows; simp
  | succ n ih =>
    unfold readRows
    exact (readNextRow_same b).trans (ih _)

theorem readRows_rows (m n : Nat) (b : Bitmap) (h : RowsAllocated m b) :
    RowsAllocated m (readRows n b).2 := by
  induction n generalizing b with
  | zero => exact h
  | succ n ih =>
    unfold readRows
    exact ih _ (readNextRow_rows m b h)

theorem Bitmap.eq_of_fields (a b : Bitmap) (hs : SameImage a b) (hpos : b.file.pos = a.file.pos)
    (hc : b.errorCurRow = a.errorCurRow) (hn : b.errorNextRow = a.errorNextRow)
    (hy : b.prevRowY = a.prevRowY) : b = a := by
  obtain ⟨a1, a2, a3, a4, a5, a6, a7, a8, a9, a10⟩ := hs
  rcases a with ⟨⟨ao, ad, ap⟩, _, _, _, _, _, _, _, _, _, _, _⟩
  rcases b with ⟨⟨bo, bd, bp⟩, _, _, _, _, _, _, _, _, _, _, _⟩
  simp only at a1 a2 a3 a4 a5 a6 a7 a8 a9 a10 hpos hc hn hy
  subst a1 a2 a3 a4 a5 a6 a7 a8 a9 a10 hpos hc hn hy
  rfl

/-- Rewinding a Floyd-Steinberg session that has decoded any number of rows of
a parsed image restores the session `parseHeaders` left. -/
theorem rewind_restores (b : Bitmap) (hfs : b.useFloydSteinberg = true)
    (hok : (parseHeaders b).1 = BmpReaderError.Ok) (n : Nat) :
    rewindToData (readRows n (parseHeaders b).2).2 = (BmpReaderError.Ok, (parseHeaders b).2) := by
  obtain ⟨_, _, hw, _, _, hoff, _, hd, hp, hle, _, hf, hrows, _⟩ := parseHeaders_ok b hok
  obtain ⟨hcur, hnext, hy⟩ := hrows hfs
  have hsame := readRows_same n (parseHeaders b).2
  have hal : RowsAllocated ((parseHeaders b).2.width + 2).toNat (parseHeaders b).2 :=
    ⟨_, _, hcur, hnext, by simp, by simp⟩
  obtain ⟨c, m, hc, hm, lc, lm⟩ := readRows_rows _ n _ hal
  obtain ⟨s1, s2, s3, s4, s5, s6, s7, s8, s9, s10⟩ := hsame
  have hseek : ((readRows n (parseHeaders b).2).2.file.seek
      (readRows n (parseHeaders b).2).2.bfOffBits).1 = true := by
    rw [FsFile.seek_fst, s2, s8, hd]; simpa using hle
  have hpos := FsFile.seek_pos _ _ hseek
  have hu : useFS (readRows n (parseHeaders b).2).2 = true := by
    simp [useFS, s3, hf, hfs, hc, hm]
  unfold rewindToData
  dsimp only
  rw [hseek]
  simp only [Bool.not_true, Bool.false_eq_true, ↓reduceIte]
  have hu2 : useFS { (readRows n (parseHeaders b).2).2 with
      file := ((readRows n (parseHeaders b).2).2.file.seek
        (readRows n (parseHeaders b).2).2.bfOffBits).2 } = true := hu
  rw [if_pos hu2]
  congr 1
  apply Bitmap.eq_of_fields
  · unfold SameImage
    simp [s1, s2, s3, s4, s5, s6, s7, s8, s9, s10]
  · rw [hp, ← s8]; exact hpos
  · simp only [hc, hcur, s4, Option.map_some', ← lc, memsetZero_full]
  · simp only [hm, hnext, s4, Option.map_some', ← lm, memsetZero_full]
  · simp [hy]

/-- C7: Floyd-Steinberg decoding is idempotent under rewind: for every accepted
image, decoding rows with `readNextRow` (any number `n` of them, in particular
all `height` rows), calling `rewindToData` (which returns Ok) and decoding the
same number of rows again gives, row by row, the same result codes and the same
output bytes as the first pass. -/
theorem floydSteinberg_rewind_idempotent (b : Bitmap) (hfs : b.useFloydSteinberg = true)
    (hok : (parseHeaders b).1 = BmpReaderError.Ok) (n : Nat) :
    (rewindToData (readRows n (parseHeaders b).2).2).1 = BmpReaderError.Ok ∧
    (readRows n (rewindToData (readRows n (parseHeaders b).2).2).2).1 =
      (readRows n (parseHeaders b).2).1 ∧
    (readRows (parseHeaders b).2.height.toNat
        (rewindToData (readRows (parseHeaders b).2.height.toNat (parseHeaders b).2).2).2).1 =
      (readRows (parseHeaders b).2.height.toNat (parseHeaders b).2).1 := by
  refine ⟨?_, ?_, ?_⟩
  · rw [rewind_restores b hfs hok n]
  · rw [rewind_restores b hfs hok n]
  · rw [rewind_restores b hfs hok _]

set_option maxRecDepth 100000 in
theorem parseHeaders_gray40x4_fs_ok :
    (parseHeaders (freshBitmap true gray40x4)).1 = BmpReaderError.Ok := by
  decide

/-- Witness for C7: a Floyd-Steinberg session over the 40x4 sample image. -/
theorem floydSteinberg_rewind_idempotent_witness :
    (freshBitmap true gray40x4).useFloydSteinberg = true ∧
    (parseHeaders (freshBitmap true gray40x4)).1 = BmpReaderError.Ok ∧
    (rewindToData (readRows 4 (parseHeaders (freshBitmap true gray40x4)).2).2).1 =
      BmpReaderError.Ok ∧
    (readRows 4 (rewindToData (readRows 4 (parseHeaders (freshBitmap true gray40x4)).2).2).2).1 =
      (readRows 4 (parseHeaders (freshBitmap true gray40x4)).2).1 :=
  ⟨rfl, parseHeaders_gray40x4_fs_ok,
   (floydSteinberg_rewind_idempotent (freshBitmap true gray40x4) rfl
      parseHeaders_gray40x4_fs_ok 4).1,
   (floydSteinberg_rewind_idempotent (freshBitmap true gray40x4) rfl
      parseHeaders_gray40x4_fs_ok 4).2.1⟩

/-! ## The section cache -/

theorem loadCacheMetadata_spec (fs : SdCard) (sec : Section) (fontId : Int)
    (lineCompression : Nat) (marginTop marginRight marginBottom marginLeft : Int)
    (extraParagraphSpacing : Bool) (m : SectionCacheMetadata)
    (hm : storedMetadata fs sec = some m) :
    ((loadCacheMetadata fs sec fontId lineCompression marginTop marginRight marginBottom
        marginLeft extraParagraphSpacing).1 = true ↔
      (sdExists fs sec.cachePath = true ∧
       m.version = SECTION_FILE_VERSION ∧ m.fontId = fontId ∧
       floatNe lineCompression m.lineCompression = false ∧
       m.marginTop = marginTop ∧ m.marginRight = marginRight ∧
       m.marginBottom = marginBottom ∧ m.marginLeft = marginLeft ∧
       m.extraParagraphSpacing = extraParagraphSpacing)) ∧
    ((loadCacheMetadata fs sec fontId lineCompression marginTop marginRight marginBottom
        marginLeft extraParagraphSpacing).1 = true →
      (loadCacheMetadata fs sec fontId lineCompression marginTop marginRight marginBottom
        marginLeft extraParagraphSpacing).2.2.pageCount = m.pageCount) := by
  unfold storedMetadata at hm
  cases he : fs.entry ("/sd" ++ (sec.cachePath ++ "/section.bin")) with
  | none => rw [he] at hm; simp at hm
  | some e =>
    cases e with
    | dir => rw [he] at hm; simp at hm
    | file bytes =>
      rw [he] at hm
      simp only at hm
      split at hm
      swap
      · simp at hm
      injection hm with hm
      subst hm
      have hex : sdExists fs (sec.cachePath ++ "/section.bin") = true := by
        simp [sdExists, he]
      have hopen : ifstreamOpen fs ("/sd" ++ (sec.cachePath ++ "/section.bin")) = bytes := by
        simp [ifstreamOpen, he]
      unfold loadCacheMetadata
      simp only [hex, hopen, Bool.not_true, Bool.false_eq_true, ↓reduceIte]
      by_cases hd : sdExists fs sec.cachePath = true
      swap
      · simp [hd]
      simp only [hd, Bool.not_true, Bool.false_eq_true, ↓reduceIte, true_and]
      by_cases hv : readU8 bytes 0 = SECTION_FILE_VERSION
      swap
      · simp [hv]
      simp only [hv, ne_eq, not_true_eq_false, ↓reduceIte, true_and]
      split
      · rename_i hne
        refine ⟨⟨fun h => absurd h (by simp), fun h => ?_⟩, fun h => absurd h (by simp)⟩
        obtain ⟨h1, h2, h3, h4, h5, h6, h7⟩ := h
        rcases hne with hne | hne | hne | hne | hne | hne | hne
        · exact absurd h1.symm hne
        · rw [h2] at hne; exact absurd hne (by simp)
        · exact absurd h3.symm hne
        · exact absurd h4.symm hne
        · exact absurd h5.symm hne
        · exact absurd h6.symm hne
        · exact absurd h7.symm hne
      · rename_i hne
        simp only [not_or, not_not] at hne
        obtain ⟨h1, h2, h3, h4, h5, h6, h7⟩ := hne
        refine ⟨⟨fun _ => ⟨h1.symm, by simpa using h2, h3.symm, h4.symm, h5.symm, h6.symm,
          h7.symm⟩, fun _ => rfl⟩, fun _ => rfl⟩

theorem loadCacheMetadata_no_file (fs : SdCard) (sec : Section) (fontId : Int)
    (lineCompression : Nat) (marginTop marginRight marginBottom marginLeft : Int)
    (extraParagraphSpacing : Bool)
    (h : sdExists fs (sec.cachePath ++ "/section.bin") = false) :
    (loadCacheMetadata fs sec fontId lineCompression marginTop marginRight marginBottom
        marginLeft extraParagraphSpacing).1 = false := by
  unfold loadCacheMetadata
  by_cases hd : sdExists fs sec.cachePath = true
  · simp [hd, h]
  · simp [hd]

/-- C9: `loadCacheMetadata` returns true exactly when the section cache
directory exists, its `section.bin` exists, the stored version byte equals
`SECTION_FILE_VERSION` and each of the seven stored layout parameters equals
the caller-supplied value (the line compression as `float` values, that is
`!=` is false); on true it sets `pageCount` to the stored page count. The
stored values are those of a complete record, so `section.bin` is taken to
hold one whenever it exists. -/
theorem loadCacheMetadata_true_iff (fs : SdCard) (sec : Section) (fontId : Int)
    (lineCompression : Nat) (marginTop marginRight marginBottom marginLeft : Int)
    (extraParagraphSpacing : Bool)
    (hrec : sdExists fs (sec.cachePath ++ "/section.bin") = true →
      ∃ m, storedMetadata fs sec = some m) :
    ((loadCacheMetadata fs sec fontId lineCompression marginTop marginRight marginBottom
        marginLeft extraParagraphSpacing).1 = true ↔
      (sdExists fs sec.cachePath = true ∧
       sdExists fs (sec.cachePath ++ "/section.bin") = true ∧
       ∃ m, storedMetadata fs sec = some m ∧
         m.version = SECTION_FILE_VERSION ∧ m.fontId = fontId ∧
         floatNe lineCompression m.lineCompression = false ∧
         m.marginTop = marginTop ∧ m.marginRight = marginRight ∧
         m.marginBottom = marginBottom ∧ m.marginLeft = marginLeft ∧
         m.extraParagraphSpacing = extraParagraphSpacing)) ∧
    ((loadCacheMetadata fs sec fontId lineCompression marginTop marginRight marginBottom
        marginLeft extraParagraphSpacing).1 = true →
      ∃ m, storedMetadata fs sec = some m ∧
        (loadCacheMetadata fs sec fontId lineCompression marginTop marginRight marginBottom
          marginLeft extraParagraphSpacing).2.2.pageCount = m.pageCount) := by
  by_cases hex : sdExists fs (sec.cachePath ++ "/section.bin") = true
  · obtain ⟨m, hm⟩ := hrec hex
    obtain ⟨h1, h2⟩ := loadCacheMetadata_spec fs sec fontId lineCompression marginTop
      marginRight marginBottom marginLeft extraParagraphSpacing m hm
    constructor
    · rw [h1]
      constructor
      · rintro ⟨a, b⟩
        exact ⟨a, hex, m, hm, b⟩
      · rintro ⟨a, _, m2, hm2, b⟩
        rw [hm] at hm2
        injection hm2 with hm2
        subst hm2
        exact ⟨a, b⟩
    · intro h
      exact ⟨m, hm, h2 h⟩
  · have hf : sdExists fs (sec.cachePath ++ "/section.bin") = false := by simpa using hex
    have hl := loadCacheMetadata_no_file fs sec fontId lineCompression marginTop marginRight
      marginBottom marginLeft extraParagraphSpacing hf
    rw [hl]
    constructor
    · constructor
      · intro h; exact absurd h (by decide)
      · rintro ⟨_, b, _⟩; exact absurd b hex
    · intro h; exact absurd h (by decide)

theorem sampleCard_stored :
    storedMetadata sampleCard sampleSection =
      some { version := 5, fontId := 7, lineCompression := 1065353216, marginTop := 1,
             marginRight := 2, marginBottom := 3, marginLeft := 4,
             extraParagraphSpacing := true, pageCount := 12 } := by
  decide

/-- Witness for C9: the sample card holds a complete record, and the matching
request is a hit that sets the page count to the stored 12. -/
theorem loadCacheMetadata_true_iff_witness :
    (loadCacheMetadata sampleCard sampleSection 7 1065353216 1 2 3 4 true).1 = true ∧
    ∃ m, storedMetadata sampleCard sampleSection = some m ∧
      (loadCacheMetadata sampleCard sampleSection 7 1065353216 1 2 3 4 true).2.2.pageCount =
        m.pageCount :=
  have hrec : sdExists sampleCard (sampleSection.cachePath ++ "/section.bin") = true →
      ∃ m, storedMetadata sampleCard sampleSection = some m :=
    fun _ => ⟨_, sampleCard_stored⟩
  have hhit : (loadCacheMetadata sampleCard sampleSection 7 1065353216 1 2 3 4 true).1 = true :=
    (loadCacheMetadata_true_iff sampleCard sampleSection 7 1065353216 1 2 3 4 true hrec).1.mpr
      ⟨by decide, by decide, _, sampleCard_stored, by decide⟩
  ⟨hhit,
   (loadCacheMetadata_true_iff sampleCard sampleSection 7 1065353216 1 2 3 4 true hrec).2 hhit⟩

theorem parentDir_section (d : String) : parentDir (d ++ "/section.bin") = d := by
  unfold parentDir
  have h : (d ++ "/section.bin").data = d.data ++ "/section.bin".data := String.data_append _ _
  rw [h, List.reverse_append]
  have h2 : "/section.bin".data.reverse = ['n', 'i', 'b', '.', 'n', 'o', 'i', 't', 'c', 'e', 's', '/'] := by
    decide
  rw [h2]
  simp [List.dropWhile]

theorem append_ne_self (d : String) : d ++ "/section.bin" ≠ d := by
  intro h
  have h2 := congrArg String.length h
  simp [String.length_append] at h2
  have : "/section.bin".length = 12 := by decide
  omega

theorem toInt32_roundtrip (i : Int) (h0 : -2147483648 ≤ i) (h1 : i < 2147483648) :
    toInt32 (i % 4294967296).toNat = i := by
  unfold toInt32
  split <;> omega

/-- The bytes `writeCacheMetadata` stores for the given values. -/
theorem metadataBytes_read (v : Nat) (a : Int) (l : Nat) (t r bo le : Int) (e : Bool) (n : Int)
    (hv : v < 256)
    (ha : -2147483648 ≤ a ∧ a < 2147483648) (hl : l < 4294967296)
    (ht : -2147483648 ≤ t ∧ t < 2147483648) (hr : -2147483648 ≤ r ∧ r < 2147483648)
    (hb : -2147483648 ≤ bo ∧ bo < 2147483648) (hle : -2147483648 ≤ le ∧ le < 2147483648)
    (hn : -2147483648 ≤ n ∧ n < 2147483648) :
    readU8 ([v % 256] ++ podInt a ++ podFloat l ++ podInt t ++ podInt r ++ podInt bo ++
        podInt le ++ podBool e ++ podInt n) 0 = v ∧
    readInt ([v % 256] ++ podInt a ++ podFloat l ++ podInt t ++ podInt r ++ podInt bo ++
        podInt le ++ podBool e ++ podInt n) 1 = a ∧
    readU32 ([v % 256] ++ podInt a ++ podFloat l ++ podInt t ++ podInt r ++ podInt bo ++
        podInt le ++ podBool e ++ podInt n) 5 = l ∧
    readInt ([v % 256] ++ podInt a ++ podFloat l ++ podInt t ++ podInt r ++ podInt bo ++
        podInt le ++ podBool e ++ podInt n) 9 = t ∧
    readInt ([v % 256] ++ podInt a ++ podFloat l ++ podInt t ++ podInt r ++ podInt bo ++
        podInt le ++ podBool e ++ podInt n) 13 = r ∧
    readInt ([v % 256] ++ podInt a ++ podFloat l ++ podInt t ++ podInt r ++ podInt bo ++
        podInt le ++ podBool e ++ podInt n) 17 = bo ∧
    readInt ([v % 256] ++ podInt a ++ podFloat l ++ podInt t ++ podInt r ++ podInt bo ++
        podInt le ++ podBool e ++ podInt n) 21 = le ∧
    readBool ([v % 256] ++ podInt a ++ podFloat l ++ podInt t ++ podInt r ++ podInt bo ++
        podInt le ++ podBool e ++ podInt n) 25 = e ∧
    readInt ([v % 256] ++ podInt a ++ podFloat l ++ podInt t ++ podInt r ++ podInt bo ++
        podInt le ++ podBool e ++ podInt n) 26 = n := by
  have key : ∀ x : Nat, x < 4294967296 →
      x % 256 % 256 + 256 * (x / 256 % 256 % 256) + 65536 * (x / 65536 % 256 % 256) +
        16777216 * (x / 16777216 % 256 % 256) = x := by
    intro x hx; omega
  have hi : ∀ i : Int, (i % 4294967296).toNat < 4294967296 := by intro i; omega
  simp only [podInt, podFloat, podBool, le32, List.cons_append, List.nil_append, List.append_nil,
    List.singleton_append, readInt, readU32, readU8, readBool, List.getD_cons_zero,
    List.getD_cons_succ]
  refine ⟨by omega, ?_, ?_, ?_, ?_, ?_, ?_, ?_, ?_⟩
  · rw [key _ (hi a)]; exact toInt32_roundtrip a ha.1 ha.2
  · rw [key _ (Nat.mod_lt _ (by norm_num))]; exact Nat.mod_eq_of_lt hl
  · rw [key _ (hi t)]; exact toInt32_roundtrip t ht.1 ht.2
  · rw [key _ (hi r)]; exact toInt32_roundtrip r hr.1 hr.2
  · rw [key _ (hi bo)]; exact toInt32_roundtrip bo hb.1 hb.2
  · rw [key _ (hi le)]; exact toInt32_roundtrip le hle.1 hle.2
  · cases e <;> simp
  · rw [key _ (hi n)]; exact toInt32_roundtrip n hn.1 hn.2

theorem writeCacheMetadata_entry (fs : SdCard) (sec : Section) (fontId : Int)
    (lineCompression : Nat) (marginTop marginRight marginBottom marginLeft : Int)
    (extraParagraphSpacing : Bool)
    (hdir : fs.entry ("/sd" ++ sec.cachePath) = some Entry.dir)
    (hnd : fs.entry ("/sd" ++ sec.cachePath ++ "/section.bin") ≠ some Entry.dir) :
    (writeCacheMetadata fs sec fontId lineCompression marginTop marginRight marginBottom
        marginLeft extraParagraphSpacing).entry ("/sd" ++ (sec.cachePath ++ "/section.bin")) =
      some (Entry.file ([SECTION_FILE_VERSION % 256] ++ podInt fontId ++ podFloat lineCompression ++
        podInt marginTop ++ podInt marginRight ++ podInt marginBottom ++ podInt marginLeft ++
        podBool extraParagraphSpacing ++ podInt sec.pageCount)) ∧
    (writeCacheMetadata fs sec fontId lineCompression marginTop marginRight marginBottom
        marginLeft extraParagraphSpacing).entry ("/sd" ++ sec.cachePath) = some Entry.dir := by
  unfold writeCacheMetadata ofstreamWrite
  rw [parentDir_section, if_pos ⟨hdir, hnd⟩]
  dsimp only
  rw [← String.append_assoc, if_pos rfl, if_neg (append_ne_self _).symm]
  exact ⟨rfl, hdir⟩

theorem floatNe_self (l : Nat) (h : floatIsNaN l = false) : floatNe l l = false := by
  simp [floatNe, h]

/-- Counterexample to C10: in an existing cache directory, metadata written
with a NaN line compression (bit pattern 0x7FC00000) and read back with the
same parameters is a miss, while the same sequence with line compression 1.0f
is a hit. -/
theorem write_then_load_nan_miss :
    sdExists emptyCacheCard paginatedSection.cachePath = true ∧
    (loadCacheMetadata
      (writeCacheMetadata emptyCacheCard paginatedSection 7 2143289344 1 2 3 4 true)
      paginatedSection 7 2143289344 1 2 3 4 true).1 = false ∧
    (loadCacheMetadata
      (writeCacheMetadata emptyCacheCard paginatedSection 7 1065353216 1 2 3 4 true)
      paginatedSection 7 1065353216 1 2 3 4 true).1 = true := by
  decide

/-- C10 as amended: for all layout parameters whose line compression is not a
NaN and every page count `n`, in an existing section cache directory (where
`section.bin` is not itself a directory), `writeCacheMetadata` with
`pageCount = n` followed by `loadCacheMetadata` with the same parameters on the
unmodified cache returns true and yields `pageCount = n`. -/
theorem write_then_load_hit (fs : SdCard) (sec sec2 : Section) (fontId : Int)
    (lineCompression : Nat) (marginTop marginRight marginBottom marginLeft : Int)
    (extraParagraphSpacing : Bool)
    (hpath : sec2.cachePath = sec.cachePath)
    (hdir : fs.entry ("/sd" ++ sec.cachePath) = some Entry.dir)
    (hnd : fs.entry ("/sd" ++ sec.cachePath ++ "/section.bin") ≠ some Entry.dir)
    (hfont : IsInt32 fontId) (hlc : lineCompression < 4294967296)
    (hnan : floatIsNaN lineCompression = false)
    (htop : IsInt32 marginTop) (hright : IsInt32 marginRight)
    (hbottom : IsInt32 marginBottom) (hleft : IsInt32 marginLeft)
    (hcount : IsInt32 sec.pageCount) :
    (loadCacheMetadata
      (writeCacheMetadata fs sec fontId lineCompression marginTop marginRight marginBottom
        marginLeft extraParagraphSpacing)
      sec2 fontId lineCompression marginTop marginRight marginBottom marginLeft
      extraParagraphSpacing).1 = true ∧
    (loadCacheMetadata
      (writeCacheMetadata fs sec fontId lineCompression marginTop marginRight marginBottom
        marginLeft extraParagraphSpacing)
      sec2 fontId lineCompression marginTop marginRight marginBottom marginLeft
      extraParagraphSpacing).2.2.pageCount = sec.pageCount := by
  obtain ⟨he, hd⟩ := writeCacheMetadata_entry fs sec fontId lineCompression marginTop
    marginRight marginBottom marginLeft extraParagraphSpacing hdir hnd
  obtain ⟨r0, r1, r2, r3, r4, r5, r6, r7, r8⟩ := metadataBytes_read SECTION_FILE_VERSION fontId
    lineCompression marginTop marginRight marginBottom marginLeft extraParagraphSpacing
    sec.pageCount (by decide) hfont hlc htop hright hbottom hleft hcount
  have hstored : storedMetadata
      (writeCacheMetadata fs sec fontId lineCompression marginTop marginRight marginBottom
        marginLeft extraParagraphSpacing) sec2 =
      some { version := SECTION_FILE_VERSION, fontId := fontId,
             lineCompression := lineCompression, marginTop := marginTop,
             marginRight := marginRight, marginBottom := marginBottom,
             marginLeft := marginLeft, extraParagraphSpacing := extraParagraphSpacing,
             pageCount := sec.pageCount } := by
    unfold storedMetadata
    rw [hpath, he]
    dsimp only
    rw [if_pos, r0, r1, r2, r3, r4, r5, r6, r7, r8]
    refine ⟨by simp [podInt, podFloat, podBool, le32], ?_⟩
    cases extraParagraphSpacing <;> simp [podInt, podFloat, podBool, le32]
  obtain ⟨h1, h2⟩ := loadCacheMetadata_spec _ sec2 fontId lineCompression marginTop marginRight
    marginBottom marginLeft extraParagraphSpacing _ hstored
  have hhit := h1.mpr ⟨by simp [sdExists, hpath, hd], rfl, rfl, floatNe_self _ hnan, rfl, rfl,
    rfl, rfl, rfl⟩
  exact ⟨hhit, h2 hhit⟩

/-- Witness for the amended C10: parameters 7, 1.0f, 1, 2, 3, 4, true and 3
pages in the empty cache directory `/c`. -/
theorem write_then_load_hit_witness :
    (loadCacheMetadata
      (writeCacheMetadata emptyCacheCard paginatedSection 7 1065353216 1 2 3 4 true)
      sampleSection 7 1065353216 1 2 3 4 true).1 = true ∧
    (loadCacheMetadata
      (writeCacheMetadata emptyCacheCard paginatedSection 7 1065353216 1 2 3 4 true)
      sampleSection 7 1065353216 1 2 3 4 true).2.2.pageCount = paginatedSection.pageCount :=
  write_then_load_hit emptyCacheCard paginatedSection sampleSection 7 1065353216 1 2 3 4 true
    rfl (by decide) (by decide) (by unfold IsInt32; decide) (by decide) (by decide)
    (by unfold IsInt32; decide) (by unfold IsInt32; decide) (by unfold IsInt32; decide)
    (by unfold IsInt32; decide) (by unfold IsInt32; decide)

/-! ## One Floyd-Steinberg step -/

theorem wrap16_id (v : Int) (h0 : -32768 ≤ v) (h1 : v ≤ 32767) : wrap16 v = v := by
  unfold wrap16; split <;> omega

theorem shiftRight4_div (v : Int) : v >>> (4 : Int) = v / 16 := by
  have h4 : ((4 : Nat) : Int) = 4 := rfl
  cases v with
  | ofNat m =>
    have h := Int.shiftRight_coe_nat m 4
    rw [Nat.shiftRight_eq_div_pow, h4] at h
    simp only [Int.ofNat_eq_coe]
    rw [h]
    norm_num
  | negSucc m =>
    have h := Int.shiftRight_negSucc m 4
    rw [Nat.shiftRight_eq_div_pow, h4] at h
    rw [h]
    simp only [Int.negSucc_eq]
    norm_num
    omega

theorem shiftRight4_floor (v : Int) : v >>> (4 : Int) = ⌊(v : ℚ) / 16⌋ := by
  rw [shiftRight4_div]
  symm
  rw [Int.floor_eq_iff]
  have h1 : 16 * (v / 16) ≤ v := by omega
  have h2 : v < 16 * (v / 16) + 16 := by omega
  have h1q : (16 : ℚ) * ((v / 16 : Int) : ℚ) ≤ (v : ℚ) := by exact_mod_cast h1
  have h2q : (v : ℚ) < 16 * ((v / 16 : Int) : ℚ) + 16 := by exact_mod_cast h2
  constructor
  · rw [le_div_iff₀ (by norm_num)]; linarith
  · rw [div_lt_iff₀ (by norm_num)]; linarith

theorem addAt_getD (buf : List Int) (i j : Nat) (d : Int) :
    (addAt buf i d).getD j 0 =
      if j = i ∧ i < buf.length then wrap16 (buf.getD i 0 + d) else buf.getD j 0 := by
  unfold addAt
  simp only [List.getD_eq_getElem?_getD, List.getElem?_set]
  by_cases h : i = j
  · subst h
    by_cases hi : i < buf.length
    · simp [hi]
    · simp [hi, List.getElem?_eq_none (Nat.le_of_not_lt hi)]
  · have h2 : ¬ j = i := fun e => h e.symm
    simp [h, h2]

theorem addAt3_getD (buf : List Int) (x i : Nat) (d0 d1 d2 : Int) (h : x + 2 < buf.length) :
    (addAt (addAt (addAt buf x d0) (x + 1) d1) (x + 2) d2).getD i 0 =
      if i = x then wrap16 (buf.getD i 0 + d0)
      else if i = x + 1 then wrap16 (buf.getD i 0 + d1)
      else if i = x + 2 then wrap16 (buf.getD i 0 + d2)
      else buf.getD i 0 := by
  have n1 : ¬ (x + 2 = x + 1) := by omega
  have n2 : ¬ (x + 2 = x) := by omega
  have n3 : ¬ (x + 1 = x) := by omega
  have l0 : x < buf.length := by omega
  have l1 : x + 1 < buf.length := by omega
  simp only [addAt_getD, addAt_length]
  by_cases h0 : i = x
  · subst h0; simp [l0]
  · by_cases h1 : i = x + 1
    · subst h1; simp [l1]
    · by_cases h2 : i = x + 2
      · subst h2; simp [h]
      · simp [h0, h1, h2]

theorem quantizeFloydSteinberg_forward (gray : Int) (x : Nat) (w : Int) (cur next : List Int) :
    quantizeFloydSteinberg gray x w cur next false =
      (fsLevel (fsAdjusted gray x cur),
       addAt cur (x + 2)
         (((fsAdjusted gray x cur - fsReconstruction (fsAdjusted gray x cur)) * 7) >>> 4),
       addAt (addAt (addAt next x
         (((fsAdjusted gray x cur - fsReconstruction (fsAdjusted gray x cur)) * 3) >>> 4)) (x + 1)
         (((fsAdjusted gray x cur - fsReconstruction (fsAdjusted gray x cur)) * 5) >>> 4)) (x + 2)
         ((fsAdjusted gray x cur - fsReconstruction (fsAdjusted gray x cur)) >>> 4)) := by
  have ha : (if (if gray + cur.getD (x + 1) 0 < 0 then 0 else gray + cur.getD (x + 1) 0) > 255
      then 255 else (if gray + cur.getD (x + 1) 0 < 0 then 0 else gray + cur.getD (x + 1) 0)) =
      fsAdjusted gray x cur := by
    unfold fsAdjusted
    generalize gray + cur.getD (x + 1) 0 = v
    split_ifs <;> omega
  unfold quantizeFloydSteinberg
  simp only [ha, Bool.not_false, ↓reduceIte]
  unfold fsLevel fsReconstruction
  generalize fsAdjusted gray x cur = a
  split_ifs <;> rfl

/-- C17: one left-to-right step of `quantizeFloydSteinberg` at pixel `x`, with
`a` the input plus `errorCurRow[x+1]` clamped to 0..255: it returns level 0, 1,
2 or 3 for `a < 30`, `a < 50`, `a < 140` or otherwise, uses reconstruction
value 15, 30, 80 or 210, and with `e = a - reconstruction` adds floor(7e/16) to
`errorCurRow[x+2]`, floor(3e/16) to `errorNextRow[x]`, floor(5e/16) to
`errorNextRow[x+1]` and floor(e/16) to `errorNextRow[x+2]` (each sum stored as an
`int16_t`, which is the plain sum whenever it lies in -32768..32767), leaving
every other entry and both lengths unchanged. -/
theorem quantizeFloydSteinberg_step (gray : Int) (x : Nat) (w : Int) (cur next : List Int)
    (hc : x + 2 < cur.length) (hn : x + 2 < next.length) :
    (quantizeFloydSteinberg gray x w cur next false).1 = fsLevel (fsAdjusted gray x cur) ∧
    (quantizeFloydSteinberg gray x w cur next false).2.1.length = cur.length ∧
    (quantizeFloydSteinberg gray x w cur next false).2.2.length = next.length ∧
    (∀ i, (quantizeFloydSteinberg gray x w cur next false).2.1.getD i 0 =
      if i = x + 2 then
        wrap16 (cur.getD i 0 + ⌊7 *
          ((fsAdjusted gray x cur - fsReconstruction (fsAdjusted gray x cur) : Int) : ℚ) / 16⌋)
      else cur.getD i 0) ∧
    (∀ i, (quantizeFloydSteinberg gray x w cur next false).2.2.getD i 0 =
      if i = x then
        wrap16 (next.getD i 0 + ⌊3 *
          ((fsAdjusted gray x cur - fsReconstruction (fsAdjusted gray x cur) : Int) : ℚ) / 16⌋)
      else if i = x + 1 then
        wrap16 (next.getD i 0 + ⌊5 *
          ((fsAdjusted gray x cur - fsReconstruction (fsAdjusted gray x cur) : Int) : ℚ) / 16⌋)
      else if i = x + 2 then
        wrap16 (next.getD i 0 +
          ⌊((fsAdjusted gray x cur - fsReconstruction (fsAdjusted gray x cur) : Int) : ℚ) / 16⌋)
      else next.getD i 0) ∧
    (∀ v : Int, -32768 ≤ v → v ≤ 32767 → wrap16 v = v) := by
  rw [quantizeFloydSteinberg_forward]
  generalize fsAdjusted gray x cur - fsReconstruction (fsAdjusted gray x cur) = e
  have e7 : ((e * 7) >>> (4 : Int)) = ⌊7 * (e : ℚ) / 16⌋ := by
    rw [shiftRight4_floor]; push_cast; ring_nf
  have e3 : ((e * 3) >>> (4 : Int)) = ⌊3 * (e : ℚ) / 16⌋ := by
    rw [shiftRight4_floor]; push_cast; ring_nf
  have e5 : ((e * 5) >>> (4 : Int)) = ⌊5 * (e : ℚ) / 16⌋ := by
    rw [shiftRight4_floor]; push_cast; ring_nf
  have e1 : (e >>> (4 : Int)) = ⌊(e : ℚ) / 16⌋ := shiftRight4_floor e
  rw [e7, e3, e5, e1]
  refine ⟨rfl, by simp [addAt_length], by simp [addAt_length], ?_, ?_, wrap16_id⟩
  · intro i
    rw [addAt_getD]
    by_cases h : i = x + 2
    · subst h; rw [if_pos ⟨rfl, hc⟩, if_pos rfl]
    · rw [if_neg (fun c => h c.1), if_neg h]
  · intro i
    exact addAt3_getD next x i _ _ _ hn

/-- Witness for C17: pixel 0 of a three-entry row pair with gray 100. -/
theorem quantizeFloydSteinberg_step_witness :
    (quantizeFloydSteinberg 100 0 1 [0, 0, 0] [0, 0, 0] false).1 =
      fsLevel (fsAdjusted 100 0 [0, 0, 0]) :=
  (quantizeFloydSteinberg_step 100 0 1 [0, 0, 0] [0, 0, 0] (by decide) (by decide)).1

/-! ## Scan direction and rewinding -/

set_option maxRecDepth 100000 in
/-- C16 (the code at the failing input): in Floyd-Steinberg mode the quantizer
call of `readNextRow` always passes `reverseDir = false`. On the second row of
the 2x2 sample (first row without residual, second row gray 100 twice) the
error rows end as the left-to-right pattern leaves them, `[0, 0, 8, 12]` and
`[3, 11, 9, 1]`: the residual of each pixel went to its right neighbour. The
mirrored right-to-left pass over the same row would leave `[12, 8, 0, 0]` and
`[1, 9, 11, 3]`. -/
theorem readNextRow_second_row_left_to_right :
    (∀ (w p : Int) (s : PackState) (lum : Nat),
      pixelQuant true w p s lum =
        quantizeFloydSteinberg (adjustPixel lum) s.currentX w s.errorCurRow s.errorNextRow
          false) ∧
    (parseHeaders (freshBitmap true twoRows)).1 = BmpReaderError.Ok ∧
    (readRows 1 (parseHeaders (freshBitmap true twoRows)).2).2.errorNextRow =
      some [0, 0, 0, 0] ∧
    (readRows 2 (parseHeaders (freshBitmap true twoRows)).2).2.errorCurRow =
      some [0, 0, 8, 12] ∧
    (readRows 2 (parseHeaders (freshBitmap true twoRows)).2).2.errorNextRow =
      some [3, 11, 9, 1] ∧
    (quantizeFloydSteinberg 100 0 2
      (quantizeFloydSteinberg 100 1 2 [0, 0, 0, 0] [0, 0, 0, 0] true).2.1
      (quantizeFloydSteinberg 100 1 2 [0, 0, 0, 0] [0, 0, 0, 0] true).2.2 true).2 =
      ([12, 8, 0, 0], [1, 9, 11, 3]) := by
  refine ⟨fun w p s lum => rfl, by decide, by decide, by decide, by decide, by decide⟩

set_option maxRecDepth 1000000 in
/-- Counterexample to C19: in a session without Floyd-Steinberg (simple
thresholding) over the 40x4 sample, after four rows `rewindToData` returns Ok
but leaves `prevRowY` at 3, not at its initial value -1. -/
theorem rewindToData_plain_keeps_row_counter :
    (freshBitmap false gray40x4).prevRowY = -1 ∧
    (rewindToData (readRows 4 (parseHeaders (freshBitmap false gray40x4)).2).2).1 =
      BmpReaderError.Ok ∧
    (rewindToData (readRows 4 (parseHeaders (freshBitmap false gray40x4)).2).2).2.prevRowY =
      3 := by
  decide

/-- C19 as amended: when `rewindToData` returns Ok the read position is the
pixel-data offset in every session; in a Floyd-Steinberg session (both error
rows allocated) `prevRowY` is -1 afterwards and the first `width + 2` entries
of both rows, which is all of them for rows of that length, are zero; in every
other session `prevRowY` and the error rows are left as they were. -/
theorem rewindToData_reset (b : Bitmap) (h : (rewindToData b).1 = BmpReaderError.Ok) :
    (rewindToData b).2.file.pos = b.bfOffBits ∧
    (useFS b = true →
      (rewindToData b).2.prevRowY = -1 ∧
      (rewindToData b).2.errorCurRow =
        b.errorCurRow.map (fun t => memsetZero t (b.width + 2).toNat) ∧
      (rewindToData b).2.errorNextRow =
        b.errorNextRow.map (fun t => memsetZero t (b.width + 2).toNat) ∧
      (∀ c, b.errorCurRow = some c → c.length = (b.width + 2).toNat →
        (rewindToData b).2.errorCurRow = some (List.replicate c.length 0)) ∧
      (∀ c, b.errorNextRow = some c → c.length = (b.width + 2).toNat →
        (rewindToData b).2.errorNextRow = some (List.replicate c.length 0))) ∧
    (useFS b = false →
      (rewindToData b).2.prevRowY = b.prevRowY ∧
      (rewindToData b).2.errorCurRow = b.errorCurRow ∧
      (rewindToData b).2.errorNextRow = b.errorNextRow) := by
  have hseek : (b.file.seek b.bfOffBits).1 = true := by
    by_contra hno
    have hf : (b.file.seek b.bfOffBits).1 = false := by simpa using hno
    unfold rewindToData at h
    simp [hf] at h
  have hpos := FsFile.seek_pos _ _ hseek
  have hu : useFS { b with file := (b.file.seek b.bfOffBits).2 } = useFS b := rfl
  unfold rewindToData
  simp only [hseek, Bool.not_true, Bool.false_eq_true, ↓reduceIte, hu]
  cases hfs : useFS b
  · simp [hpos]
  · simp only [↓reduceIte, true_and, hpos, Bool.true_eq_false, false_implies, and_true,
      implies_true]
    refine fun _ => ⟨fun c hc hl => ?_, fun c hc hl => ?_⟩
    · rw [hc, Option.map_some', ← hl, memsetZero_full]
    · rw [hc, Option.map_some', ← hl, memsetZero_full]

set_option maxRecDepth 1000000 in
theorem rewind_gray40x4_fs_ok :
    (rewindToData (readRows 4 (parseHeaders (freshBitmap true gray40x4)).2).2).1 =
      BmpReaderError.Ok := by
  decide

/-- Witness for the amended C19: a Floyd-Steinberg session over the 40x4
sample, rewound after four rows. -/
theorem rewindToData_reset_witness :
    (rewindToData (readRows 4 (parseHeaders (freshBitmap true gray40x4)).2).2).2.file.pos =
      (readRows 4 (parseHeaders (freshBitmap true gray40x4)).2).2.bfOffBits :=
  (rewindToData_reset (readRows 4 (parseHeaders (freshBitmap true gray40x4)).2).2
    rewind_gray40x4_fs_ok).1

/-! ## The palette -/

set_option maxRecDepth 100000 in
/-- Counterexample to C18: (1) in the 1 bit per pixel sample whose palette
entry 0 is white, `paletteLum[0]` is 255 yet the pixels of index 0 get
luminance 0 and level 0, where the palette luminance would give level 3;
(2) in the 8 bits per pixel sample that declares no palette entries,
`paletteLum[0]` is 0 although the entry stored after the header has
luminance 255; (3) in the 8 bits per pixel sample with a 108-byte info header
the file is accepted and its palette entry 0, at offset 122, has luminance
255, yet `paletteLum[0]` and the luminance of the pixel of index 0 are 0,
taken from the header bytes at offset 54. -/
theorem indexed_pixel_not_palette :
    ((parseHeaders (freshBitmap false invertedMono)).1 = BmpReaderError.Ok ∧
     (parseHeaders (freshBitmap false invertedMono)).2.paletteLum.getD 0 0 = 255 ∧
     pixelLum (parseHeaders (freshBitmap false invertedMono)).2 0 = 0 ∧
     levelAt (parseHeaders (freshBitmap false invertedMono)).2 0 = 0 ∧
     quantize 255 0 0 = 3) ∧
    ((parseHeaders (freshBitmap false undeclaredPalette)).1 = BmpReaderError.Ok ∧
     paletteEntryLum (freshBitmap false undeclaredPalette).file 0 = 255 ∧
     (parseHeaders (freshBitmap false undeclaredPalette)).2.paletteLum.getD 0 0 = 0 ∧
     pixelLum (parseHeaders (freshBitmap false undeclaredPalette)).2 0 = 0) ∧
    ((parseHeaders (freshBitmap false extendedHeaderPalette)).1 = BmpReaderError.Ok ∧
     (headerFields (freshBitmap false extendedHeaderPalette).file).biSize = 108 ∧
     (headerFields (freshBitmap false extendedHeaderPalette).file).colorsUsed = 1 ∧
     paletteEntryLum (freshBitmap false extendedHeaderPalette).file 0 = 255 ∧
     (parseHeaders (freshBitmap false extendedHeaderPalette)).2.paletteLum.getD 0 0 = 0 ∧
     pixelLum (parseHeaders (freshBitmap false extendedHeaderPalette)).2 0 = 0) := by
  decide

theorem parseHeaders_palette (b : Bitmap) (h : (parseHeaders b).1 = BmpReaderError.Ok) :
    (parseHeaders b).2.paletteLum =
      (List.foldl paletteStep (headerEnd b.file, (List.range 256).map (fun i => wrapU8 i))
        (List.range (headerFields b.file).colorsUsed)).2 := by
  revert h
  unfold parseHeaders headerEnd headerFields
  dsimp only
  generalize b.file.seek 0 = s0
  generalize readLE16 s0.2 = r1
  generalize r1.2.seekCur 8 = s1
  generalize readLE32 s1.2 = r2
  generalize readLE32 r2.2 = r3
  generalize readLE32 r3.2 = r4
  generalize readLE32 r4.2 = r5
  generalize readLE16 r5.2 = r6
  generalize readLE16 r6.2 = r7
  generalize readLE32 r7.2 = r8
  generalize r8.2.seekCur 12 = s2
  generalize readLE32 s2.2 = r9
  generalize r9.2.seekCur 4 = s3
  generalize List.foldl paletteStep (s3.2, List.map (fun i => wrapU8 i) (List.range 256))
    (List.range r9.1) = pl
  by_cases c0 : (!b.file.isOpen) = true
  · rw [if_pos c0]; intro h; simp at h
  rw [if_neg c0]
  by_cases c1 : (!s0.1) = true
  · rw [if_pos c1]; intro h; simp at h
  rw [if_neg c1]
  by_cases c2 : r1.1 ≠ 19778
  · rw [if_pos c2]; intro h; simp at h
  rw [if_neg c2]
  by_cases c3 : r3.1 < 40
  · rw [if_pos c3]; intro h; simp at h
  rw [if_neg c3]
  by_cases c4 : r6.1 ≠ 1
  · rw [if_pos c4]; intro h; simp at h
  rw [if_neg c4]
  by_cases c5 : (!(r7.1 == 1 || r7.1 == 2 || r7.1 == 8 || r7.1 == 24 || r7.1 == 32)) = true
  · rw [if_pos c5]; intro h; simp at h
  rw [if_neg c5]
  by_cases c6 : (!(r8.1 == 0 || r7.1 == 32 && r8.1 == 3)) = true
  · rw [if_pos c6]; intro h; simp at h
  rw [if_neg c6]
  by_cases c7 : r9.1 > 256
  · rw [if_pos c7]; intro h; simp at h
  rw [if_neg c7]
  by_cases c8 : toInt32 r4.1 ≤ 0 ∨
      (if decide (toInt32 r5.1 < 0) = true then wrap32 (-toInt32 r5.1) else toInt32 r5.1) ≤ 0
  · rw [if_pos c8]; intro h; simp at h
  rw [if_neg c8]
  by_cases c9 : toInt32 r4.1 > MAX_IMAGE_WIDTH ∨
      (if decide (toInt32 r5.1 < 0) = true then wrap32 (-toInt32 r5.1) else toInt32 r5.1) >
        MAX_IMAGE_HEIGHT
  · rw [if_pos c9]; intro h; simp at h
  rw [if_neg c9]
  by_cases c10 : (!(pl.1.seek r2.1).1) = true
  · rw [if_pos c10]; intro h; simp at h
  rw [if_neg c10]
  intro _
  split <;> rfl

theorem FsFile.read_pos (f : FsFile) (h : f.pos < f.data.length) : f.read.2.pos = f.pos + 1 := by
  unfold FsFile.read; rw [if_pos h]

theorem readLE16_snd (f : FsFile) : (readLE16 f).2 = f.read.2.read.2 := rfl

theorem readLE32_snd (f : FsFile) : (readLE32 f).2 = f.read.2.read.2.read.2.read.2 := rfl

theorem readLE16_pos (f : FsFile) (h : f.pos + 2 ≤ f.data.length) :
    (readLE16 f).2.pos = f.pos + 2 := by
  have h1 := FsFile.read_pos f (by omega)
  have h2 := FsFile.read_pos f.read.2 (by rw [h1, FsFile.read_data]; omega)
  rw [readLE16_snd]
  omega

theorem readLE32_pos (f : FsFile) (h : f.pos + 4 ≤ f.data.length) :
    (readLE32 f).2.pos = f.pos + 4 := by
  have h1 := FsFile.read_pos f (by omega)
  have h2 := FsFile.read_pos f.read.2 (by rw [h1, FsFile.read_data]; omega)
  have h3 := FsFile.read_pos f.read.2.read.2 (by
    rw [h2, h1, FsFile.read_data, FsFile.read_data]; omega)
  have h4 := FsFile.read_pos f.read.2.read.2.read.2 (by
    rw [h3, h2, h1, FsFile.read_data, FsFile.read_data, FsFile.read_data]; omega)
  rw [readLE32_snd]
  omega

theorem FsFile.seekCur_pos (f : FsFile) (n : Nat) (h : f.pos + n ≤ f.data.length) :
    (f.seekCur n).2.pos = f.pos + n := by
  unfold FsFile.seekCur
  rw [FsFile.seek_ok _ _ h]

theorem headerEnd_pos (f : FsFile) (h : 54 ≤ f.data.length) :
    (headerEnd f).pos = 54 ∧ (headerEnd f).data = f.data := by
  unfold headerEnd
  dsimp only
  have p0 : (f.seek 0).2.pos = 0 := by rw [FsFile.seek_ok _ _ (by omega)]
  have p1 := readLE16_pos (f.seek 0).2 (by simp [p0]; omega)
  generalize hr1 : readLE16 (f.seek 0).2 = r1 at p1 ⊢
  have d1 : r1.2.data = f.data := by rw [← hr1]; simp
  have p2 := FsFile.seekCur_pos r1.2 8 (by rw [p1, p0, d1]; omega)
  generalize hs1 : r1.2.seekCur 8 = s1 at p2 ⊢
  have d2 : s1.2.data = f.data := by rw [← hs1]; simp [d1]
  have p3 := readLE32_pos s1.2 (by rw [p2, p1, p0, d2]; omega)
  generalize hr2 : readLE32 s1.2 = r2 at p3 ⊢
  have d3 : r2.2.data = f.data := by rw [← hr2]; simp [d2]
  have p4 := readLE32_pos r2.2 (by rw [p3, p2, p1, p0, d3]; omega)
  generalize hr3 : readLE32 r2.2 = r3 at p4 ⊢
  have d4 : r3.2.data = f.data := by rw [← hr3]; simp [d3]
  have p5 := readLE32_pos r3.2 (by rw [p4, p3, p2, p1, p0, d4]; omega)
  generalize hr4 : readLE32 r3.2 = r4 at p5 ⊢
  have d5 : r4.2.data = f.data := by rw [← hr4]; simp [d4]
  have p6 := readLE32_pos r4.2 (by rw [p5, p4, p3, p2, p1, p0, d5]; omega)
  generalize hr5 : readLE32 r4.2 = r5 at p6 ⊢
  have d6 : r5.2.data = f.data := by rw [← hr5]; simp [d5]
  have p7 := readLE16_pos r5.2 (by rw [p6, p5, p4, p3, p2, p1, p0, d6]; omega)
  generalize hr6 : readLE16 r5.2 = r6 at p7 ⊢
  have d7 : r6.2.data = f.data := by rw [← hr6]; simp [d6]
  have p8 := readLE16_pos r6.2 (by rw [p7, p6, p5, p4, p3, p2, p1, p0, d7]; omega)
  generalize hr7 : readLE16 r6.2 = r7 at p8 ⊢
  have d8 : r7.2.data = f.data := by rw [← hr7]; simp [d7]
  have p9 := readLE32_pos r7.2 (by rw [p8, p7, p6, p5, p4, p3, p2, p1, p0, d8]; omega)
  generalize hr8 : readLE32 r7.2 = r8 at p9 ⊢
  have d9 : r8.2.data = f.data := by rw [← hr8]; simp [d8]
  have p10 := FsFile.seekCur_pos r8.2 12 (by
    rw [p9, p8, p7, p6, p5, p4, p3, p2, p1, p0, d9]; omega)
  generalize hs2 : r8.2.seekCur 12 = s2 at p10 ⊢
  have d10 : s2.2.data = f.data := by rw [← hs2]; simp [d9]
  have p11 := readLE32_pos s2.2 (by
    rw [p10, p9, p8, p7, p6, p5, p4, p3, p2, p1, p0, d10]; omega)
  generalize hr9 : readLE32 s2.2 = r9 at p11 ⊢
  have d11 : r9.2.data = f.data := by rw [← hr9]; simp [d10]
  have p12 := FsFile.seekCur_pos r9.2 4 (by
    rw [p11, p10, p9, p8, p7, p6, p5, p4, p3, p2, p1, p0, d11]; omega)
  refine ⟨by omega, by simp [d11]⟩

theorem FsFile.readBuf_getD (f : FsFile) (n i : Nat) (hi : i < (f.readBuf n).1.length) :
    (f.readBuf n).1.getD i 0 = f.data.getD (f.pos + i) 0 % 256 := by
  unfold FsFile.readBuf at hi ⊢
  simp only [List.length_map, List.length_take, List.length_drop] at hi
  simp only [List.getD_eq_getElem?_getD, List.getElem?_map, List.getElem?_take,
    List.getElem?_drop]
  rw [if_pos (by omega)]
  cases f.data[f.pos + i]? <;> simp

theorem lumOf_le (b g r : Nat) (hb : b < 256) (hg : g < 256) (hr : r < 256) :
    wrapU8 (lumOf b g r) = lumOf b g r := by
  unfold wrapU8 lumOf
  rw [Nat.shiftRight_eq_div_pow]
  omega

theorem paletteStep_spec (f : FsFile) (pal : List Nat) (i : Nat)
    (hfit : f.pos + 4 ≤ f.data.length) :
    (paletteStep (f, pal) i).1.pos = f.pos + 4 ∧
    (paletteStep (f, pal) i).1.data = f.data ∧
    (paletteStep (f, pal) i).2 =
      pal.set i (lumOf (f.data.getD f.pos 0 % 256) (f.data.getD (f.pos + 1) 0 % 256)
        (f.data.getD (f.pos + 2) 0 % 256)) := by
  have hl : (f.readBuf 4).1.length = 4 := by rw [FsFile.readBuf_length]; omega
  have g0 := FsFile.readBuf_getD f 4 0 (by omega)
  have g1 := FsFile.readBuf_getD f 4 1 (by omega)
  have g2 := FsFile.readBuf_getD f 4 2 (by omega)
  unfold paletteStep
  dsimp only
  refine ⟨by rw [FsFile.readBuf_pos]; omega, rfl, ?_⟩
  rw [g0, g1, g2, lumOf_le _ _ _ (Nat.mod_lt _ (by norm_num)) (Nat.mod_lt _ (by norm_num))
    (Nat.mod_lt _ (by norm_num))]
  rfl

theorem paletteFold_spec (n : Nat) (f : FsFile) (pal : List Nat) (hn : n ≤ pal.length)
    (hfit : f.pos + 4 * n ≤ f.data.length) :
    (List.foldl paletteStep (f, pal) (List.range n)).1.pos = f.pos + 4 * n ∧
    (List.foldl paletteStep (f, pal) (List.range n)).1.data = f.data ∧
    (List.foldl paletteStep (f, pal) (List.range n)).2.length = pal.length ∧
    (∀ i, i < n → (List.foldl paletteStep (f, pal) (List.range n)).2.getD i 0 =
      lumOf (f.data.getD (f.pos + 4 * i) 0 % 256) (f.data.getD (f.pos + 4 * i + 1) 0 % 256)
        (f.data.getD (f.pos + 4 * i + 2) 0 % 256)) ∧
    (∀ i, n ≤ i → (List.foldl paletteStep (f, pal) (List.range n)).2.getD i 0 =
      pal.getD i 0) := by
  induction n with
  | zero => exact ⟨rfl, rfl, rfl, fun i hi => absurd hi (by omega), fun i _ => rfl⟩
  | succ n ih =>
    obtain ⟨i1, i2, i3, i4, i5⟩ := ih (by omega) (by omega)
    rw [List.range_succ, List.foldl_append]
    simp only [List.foldl_cons, List.foldl_nil]
    generalize List.foldl paletteStep (f, pal) (List.range n) = st at i1 i2 i3 i4 i5
    obtain ⟨f1, pal1⟩ := st
    simp only at i1 i2 i3 i4 i5
    obtain ⟨s1, s2, s3⟩ := paletteStep_spec f1 pal1 n (by rw [i1, i2]; omega)
    refine ⟨by rw [s1, i1]; ring, by rw [s2, i2], by rw [s3]; simp [i3], ?_, ?_⟩
    · intro i hi
      rw [s3]
      simp only [List.getD_eq_getElem?_getD, List.getElem?_set]
      by_cases hin : n = i
      · subst hin
        simp [i3, hn, i1, i2]
        rw [if_pos (by omega)]
        simp
      · have hlt : i < n := by omega
        have := i4 i hlt
        simp only [List.getD_eq_getElem?_getD] at this
        simp [hin, this]
    · intro i hi
      rw [s3]
      have hne : ¬ n = i := by omega
      have := i5 i (by omega)
      simp only [List.getD_eq_getElem?_getD, List.getElem?_set] at this ⊢
      simp [hne, this]

theorem and_three (v : Nat) : v &&& 3 = v % 4 := Nat.and_pow_two_sub_one_eq_mod v 2

theorem twoBit_index (v x : Nat) :
    (v >>> (6 - (x &&& 3) * 2)) &&& 3 = (v / 4 ^ (3 - x % 4)) % 4 := by
  rw [and_three, and_three, Nat.mul_comm, shift_eq_div _ _ (Nat.mod_lt _ (by norm_num))]

theorem oneBit_index (v x : Nat) :
    (v &&& (0x80 >>> (x &&& 7)) ≠ 0) ↔ (v / 2 ^ (7 - x % 8)) % 2 = 1 := by
  have h7 : x &&& 7 = x % 8 := Nat.and_pow_two_sub_one_eq_mod x 3
  have hlt : x % 8 < 8 := Nat.mod_lt _ (by norm_num)
  have hm : (0x80 : Nat) >>> (x % 8) = 2 ^ (7 - x % 8) := by
    generalize x % 8 = c at hlt
    interval_cases c <;> rfl
  rw [h7, hm, Nat.and_two_pow]
  have ht : v.testBit (7 - x % 8) = decide (v / 2 ^ (7 - x % 8) % 2 = 1) :=
    Nat.testBit_to_div_mod
  rw [ht]
  have hpos : 0 < 2 ^ (7 - x % 8) := Nat.two_pow_pos _
  by_cases hc : v / 2 ^ (7 - x % 8) % 2 = 1
  · simp only [hc, decide_True, Bool.toNat_true, one_mul, ne_eq, iff_true]
    omega
  · simp only [hc, decide_False, Bool.toNat_false, zero_mul, ne_eq, not_true_eq_false]

theorem pixelLum_indexed (s : Bitmap) (x : Nat) (h : s.bpp = 8 ∨ s.bpp = 2) :
    pixelLum s x = s.paletteLum.getD (pixelIndex s.bpp (rowRead s).1 x) 0 := by
  have hb : (rowBegin s).bpp = s.bpp := by simp [rowBegin]
  have hp : (rowBegin s).paletteLum = s.paletteLum := by simp [rowBegin]
  unfold pixelLum pixelIndex
  rw [hb, hp]
  rcases h with h | h
  · rw [h]; simp [lumAt]
  · rw [h]
    simp only [lumAt, Nat.reduceEqDiff, ↓reduceIte]
    rw [twoBit_index, Nat.shiftRight_eq_div_pow]

theorem pixelLum_oneBit (s : Bitmap) (x : Nat) (h : s.bpp = 1) :
    pixelLum s x = if pixelIndex 1 (rowRead s).1 x = 1 then 255 else 0 := by
  have hb : (rowBegin s).bpp = s.bpp := by simp [rowBegin]
  unfold pixelLum pixelIndex
  rw [hb, h]
  simp only [lumAt, Nat.reduceEqDiff, ↓reduceIte, OfNat.ofNat_ne_one]
  have h3 : x >>> 3 = x / 8 := by
    rw [Nat.shiftRight_eq_div_pow]
  rw [h3]
  have key := oneBit_index ((rowRead s).1.getD (x / 8) 0) x
  by_cases hc : (rowRead s).1.getD (x / 8) 0 / 2 ^ (7 - x % 8) % 2 = 1
  · rw [if_pos hc, if_pos (key.mpr hc)]
  · rw [if_neg hc, if_neg (fun c => hc (key.mp c))]

/-- C18 as amended: for the 2 and 8 bits per pixel formats `readNextRow` gives
a pixel whose stored index is `i` the luminance `paletteLum[i]`; after a
successful `parseHeaders` over a file with a 40-byte info header that holds
its declared palette, `paletteLum[i]` is `(77*R + 150*G + 29*B) >> 8` of
palette entry `i` of the file for every `i` below `colorsUsed`, and `i` itself
for every other `i` below 256. For all three indexed formats the index is
taken most significant bits first from the row bytes; for 1 bit per pixel the
luminance is 255 for index 1 and 0 for index 0. -/
theorem indexed_pixel_luminance (b : Bitmap) (hok : (parseHeaders b).1 = BmpReaderError.Ok)
    (hsize : (headerFields b.file).biSize = 40)
    (hpal : 54 + 4 * (headerFields b.file).colorsUsed ≤ b.file.data.length) :
    (∀ i, i < (headerFields b.file).colorsUsed →
      (parseHeaders b).2.paletteLum.getD i 0 = paletteEntryLum b.file i ∧
      paletteEntryLum b.file i =
        (77 * (b.file.data.getD (54 + 4 * i + 2) 0 % 256) +
          150 * (b.file.data.getD (54 + 4 * i + 1) 0 % 256) +
          29 * (b.file.data.getD (54 + 4 * i) 0 % 256)) / 256) ∧
    (∀ i, (headerFields b.file).colorsUsed ≤ i → i < 256 →
      (parseHeaders b).2.paletteLum.getD i 0 = i) ∧
    (∀ (s : Bitmap) (x : Nat), s.bpp = 8 ∨ s.bpp = 2 →
      pixelLum s x = s.paletteLum.getD (pixelIndex s.bpp (rowRead s).1 x) 0) ∧
    (∀ (s : Bitmap) (x : Nat), s.bpp = 1 →
      pixelLum s x = if pixelIndex 1 (rowRead s).1 x = 1 then 255 else 0) ∧
    (∀ (row : List Nat) (x : Nat),
      pixelIndex 8 row x = row.getD x 0 ∧
      pixelIndex 2 row x = (row.getD (x / 4) 0 / 4 ^ (3 - x % 4)) % 4 ∧
      pixelIndex 1 row x = (row.getD (x / 8) 0 / 2 ^ (7 - x % 8)) % 2) := by
  obtain ⟨_, hv, _⟩ := parseHeaders_ok b hok
  obtain ⟨_, _, _, _, _, hcol, _⟩ := (firstViolation_none_iff _).mp hv
  obtain ⟨hpos, hdata⟩ := headerEnd_pos b.file (by omega)
  have hlen : ((List.range 256).map (fun i => wrapU8 i)).length = 256 := by simp
  obtain ⟨_, _, _, f4, f5⟩ := paletteFold_spec (headerFields b.file).colorsUsed (headerEnd b.file)
    ((List.range 256).map (fun i => wrapU8 i)) (by rw [hlen]; exact hcol)
    (by rw [hpos, hdata]; exact hpal)
  have hentry : ∀ i, paletteEntryLum b.file i =
      (77 * (b.file.data.getD (54 + 4 * i + 2) 0 % 256) +
        150 * (b.file.data.getD (54 + 4 * i + 1) 0 % 256) +
        29 * (b.file.data.getD (54 + 4 * i) 0 % 256)) / 256 := by
    intro i
    unfold paletteEntryLum
    rw [hsize]
  rw [parseHeaders_palette b hok]
  refine ⟨fun i hi => ⟨?_, hentry i⟩, fun i hi h256 => ?_, pixelLum_indexed, pixelLum_oneBit,
    fun row x => ⟨rfl, rfl, rfl⟩⟩
  · rw [f4 i hi, hpos, hdata, hentry i]
    unfold lumOf
    rw [Nat.shiftRight_eq_div_pow]
  · rw [f5 i hi]
    simp only [List.getD_eq_getElem?_getD, List.getElem?_map, List.getElem?_range h256]
    simp [wrapU8]
    omega

set_option maxRecDepth 100000 in
theorem invertedMono_ok :
    (parseHeaders (freshBitmap false invertedMono)).1 = BmpReaderError.Ok ∧
    54 + 4 * (headerFields (freshBitmap false invertedMono).file).colorsUsed ≤
      (freshBitmap false invertedMono).file.data.length := by
  decide

set_option maxRecDepth 100000 in
/-- Witness for the amended C18: entry 1 of the palette of the 1 bit per pixel
sample (40-byte info header, two declared entries, white then black). -/
theorem indexed_pixel_luminance_witness :
    (parseHeaders (freshBitmap false invertedMono)).2.paletteLum.getD 1 0 =
      paletteEntryLum (freshBitmap false invertedMono).file 1 :=
  ((indexed_pixel_luminance (freshBitmap false invertedMono) invertedMono_ok.1 (by decide)
    invertedMono_ok.2).1 1 (by decide)).1

/-! ## Cache invalidation -/

theorem clearCache_absent (fs : SdCard) (sec : Section)
    (h : sdExists fs sec.cachePath = false) : clearCache fs sec = (true, fs) := by
  unfold clearCache
  simp [h]

theorem removeDir_gone (fs : SdCard) (path : String) (h : fs.removeOk = true) :
    (removeDir fs path).1 = true ∧ sdExists (removeDir fs path).2 path = false ∧
    (∀ rest : String, sdExists (removeDir fs path).2 (path ++ "/" ++ rest) = false) ∧
    (removeDir fs path).2.removeOk = true := by
  unfold removeDir
  rw [if_pos h]
  refine ⟨rfl, by simp [sdExists], fun rest => ?_, h⟩
  have hp : ("/sd" ++ path ++ "/").data.isPrefixOf ("/sd" ++ (path ++ "/" ++ rest)).data = true := by
    rw [List.isPrefixOf_iff_prefix]
    simp only [String.data_append, List.append_assoc]
    exact ⟨rest.data, by simp⟩
  simp [sdExists, hp]

theorem removeDir_fst (fs : SdCard) (path : String) : (removeDir fs path).1 = fs.removeOk := by
  unfold removeDir
  split <;> simp_all

/-- C15: `clearCache` succeeds even if the directory never existed and
otherwise removes the whole subdirectory tree: with the section cache directory
absent it returns true and leaves the storage unchanged; whenever it returns
true the directory does not exist afterwards (and, if it existed, nothing below
it does either), so a second call returns true and changes nothing. -/
theorem clearCache_idempotent (fs : SdCard) (sec : Section) :
    (sdExists fs sec.cachePath = false → clearCache fs sec = (true, fs)) ∧
    ((clearCache fs sec).1 = true →
      sdExists (clearCache fs sec).2 sec.cachePath = false ∧
      (sdExists fs sec.cachePath = true →
        ∀ rest : String, sdExists (clearCache fs sec).2 (sec.cachePath ++ "/" ++ rest) = false) ∧
      clearCache (clearCache fs sec).2 sec = (true, (clearCache fs sec).2)) := by
  refine ⟨clearCache_absent fs sec, fun h => ?_⟩
  have key : sdExists (clearCache fs sec).2 sec.cachePath = false ∧
      (sdExists fs sec.cachePath = true →
        ∀ rest : String,
          sdExists (clearCache fs sec).2 (sec.cachePath ++ "/" ++ rest) = false) := by
    cases hex : sdExists fs sec.cachePath
    · rw [clearCache_absent fs sec hex]
      exact ⟨hex, fun hc => absurd hc (by simp)⟩
    · unfold clearCache at h ⊢
      simp only [hex, Bool.not_true, Bool.false_eq_true, ↓reduceIte] at h ⊢
      have hok : fs.removeOk = true := by
        by_contra hno
        have hf : (removeDir fs sec.cachePath).1 = false := by
          rw [removeDir_fst]; simpa using hno
        simp [hf] at h
      obtain ⟨g1, g2, g3, _⟩ := removeDir_gone fs sec.cachePath hok
      simp only [g1, Bool.not_true, Bool.false_eq_true, ↓reduceIte]
      exact ⟨g2, fun _ => g3⟩
  exact ⟨key.1, key.2, clearCache_absent _ sec key.1⟩

/-- Witness for C15: clearing the sample cache `/c` succeeds and removes it. -/
theorem clearCache_idempotent_witness :
    (clearCache sampleCard sampleSection).1 = true ∧
    sdExists (clearCache sampleCard sampleSection).2 sampleSection.cachePath = false :=
  ⟨by decide, ((clearCache_idempotent sampleCard sampleSection).2 (by decide)).1⟩

theorem loadCacheMetadata_mismatch (fs : SdCard) (sec : Section) (fontId : Int)
    (lineCompression : Nat) (marginTop marginRight marginBottom marginLeft : Int)
    (extraParagraphSpacing : Bool) (m : SectionCacheMetadata)
    (hdir : sdExists fs sec.cachePath = true)
    (hm : storedMetadata fs sec = some m)
    (hdiff : m.version ≠ SECTION_FILE_VERSION ∨ m.fontId ≠ fontId ∨
      floatNe lineCompression m.lineCompression = true ∨
      m.marginTop ≠ marginTop ∨ m.marginRight ≠ marginRight ∨
      m.marginBottom ≠ marginBottom ∨ m.marginLeft ≠ marginLeft ∨
      m.extraParagraphSpacing ≠ extraParagraphSpacing) :
    loadCacheMetadata fs sec fontId lineCompression marginTop marginRight marginBottom
      marginLeft extraParagraphSpacing = (false, (clearCache fs sec).2, sec) := by
  unfold storedMetadata at hm
  cases he : fs.entry ("/sd" ++ (sec.cachePath ++ "/section.bin")) with
  | none => rw [he] at hm; simp at hm
  | some e =>
    cases e with
    | dir => rw [he] at hm; simp at hm
    | file bytes =>
      rw [he] at hm
      simp only at hm
      split at hm
      swap
      · simp at hm
      injection hm with hm
      subst hm
      have hex : sdExists fs (sec.cachePath ++ "/section.bin") = true := by
        simp [sdExists, he]
      have hopen : ifstreamOpen fs ("/sd" ++ (sec.cachePath ++ "/section.bin")) = bytes := by
        simp [ifstreamOpen, he]
      unfold loadCacheMetadata
      simp only [hex, hopen, hdir, Bool.not_true, Bool.false_eq_true, ↓reduceIte]
      by_cases hv : readU8 bytes 0 = SECTION_FILE_VERSION
      swap
      · simp [hv]
      simp only [hv, ne_eq, not_true_eq_false, ↓reduceIte]
      simp only [hv, ne_eq, not_true_eq_false, false_or] at hdiff
      rw [if_pos]
      rcases hdiff with h | h | h | h | h | h | h
      · exact Or.inl (fun c => h c.symm)
      · exact Or.inr (Or.inl h)
      · exact Or.inr (Or.inr (Or.inl (fun c => h c.symm)))
      · exact Or.inr (Or.inr (Or.inr (Or.inl (fun c => h c.symm))))
      · exact Or.inr (Or.inr (Or.inr (Or.inr (Or.inl (fun c => h c.symm)))))
      · exact Or.inr (Or.inr (Or.inr (Or.inr (Or.inr (Or.inl (fun c => h c.symm))))))
      · exact Or.inr (Or.inr (Or.inr (Or.inr (Or.inr (Or.inr (fun c => h c.symm))))))

theorem page_path_split (c t : String) :
    c ++ "/page_" ++ t ++ ".bin" = c ++ "/" ++ ("page_" ++ t ++ ".bin") := by
  apply String.ext
  simp [String.data_append]

/-- C11: version skew and parameter drift both cause full invalidation. When
`section.bin` is a file whose first byte, the stored version byte, differs
from the expected one (whatever follows it and however long the file is), or
when it holds a complete record whose parameter tuple differs from the
requested one in some parameter (the line compression compared as `float`
values), `loadCacheMetadata` returns false, and provided the recursive removal
succeeds the section cache directory and everything below it, every page file
included, no longer exists. -/
theorem loadCacheMetadata_invalidates (fs : SdCard) (sec : Section) (fontId : Int)
    (lineCompression : Nat) (marginTop marginRight marginBottom marginLeft : Int)
    (extraParagraphSpacing : Bool) (bytes : List Nat)
    (hdir : sdExists fs sec.cachePath = true)
    (hfile : fs.entry ("/sd" ++ (sec.cachePath ++ "/section.bin")) = some (Entry.file bytes))
    (hdiff : (0 < bytes.length ∧ bytes.getD 0 0 % 256 ≠ SECTION_FILE_VERSION) ∨
      ∃ m, storedMetadata fs sec = some m ∧
        (m.fontId ≠ fontId ∨ floatNe lineCompression m.lineCompression = true ∨
          m.marginTop ≠ marginTop ∨ m.marginRight ≠ marginRight ∨
          m.marginBottom ≠ marginBottom ∨ m.marginLeft ≠ marginLeft ∨
          m.extraParagraphSpacing ≠ extraParagraphSpacing))
    (hrm : fs.removeOk = true) :
    (loadCacheMetadata fs sec fontId lineCompression marginTop marginRight marginBottom
      marginLeft extraParagraphSpacing).1 = false ∧
    sdExists (loadCacheMetadata fs sec fontId lineCompression marginTop marginRight
      marginBottom marginLeft extraParagraphSpacing).2.1 sec.cachePath = false ∧
    (∀ rest : String,
      sdExists (loadCacheMetadata fs sec fontId lineCompression marginTop marginRight
        marginBottom marginLeft extraParagraphSpacing).2.1 (sec.cachePath ++ "/" ++ rest) =
        false) ∧
    (∀ n : Int,
      sdExists (loadCacheMetadata fs sec fontId lineCompression marginTop marginRight
        marginBottom marginLeft extraParagraphSpacing).2.1
        (sec.cachePath ++ "/page_" ++ toString n ++ ".bin") = false) := by
  have hres : loadCacheMetadata fs sec fontId lineCompression marginTop marginRight
      marginBottom marginLeft extraParagraphSpacing = (false, (clearCache fs sec).2, sec) := by
    rcases hdiff with ⟨_, hv⟩ | ⟨m, hm, hd⟩
    · have hex : sdExists fs (sec.cachePath ++ "/section.bin") = true := by
        simp [sdExists, hfile]
      have hopen : ifstreamOpen fs ("/sd" ++ (sec.cachePath ++ "/section.bin")) = bytes := by
        simp [ifstreamOpen, hfile]
      have hv2 : readU8 bytes 0 ≠ SECTION_FILE_VERSION := hv
      unfold loadCacheMetadata
      simp only [hex, hopen, hdir, Bool.not_true, Bool.false_eq_true, ↓reduceIte]
      rw [if_pos hv2]
    · exact loadCacheMetadata_mismatch fs sec fontId lineCompression marginTop marginRight
        marginBottom marginLeft extraParagraphSpacing m hdir hm (Or.inr hd)
  rw [hres]
  obtain ⟨g1, g2, g3, _⟩ := removeDir_gone fs sec.cachePath hrm
  have hc : (clearCache fs sec).2 = (removeDir fs sec.cachePath).2 := by
    unfold clearCache
    simp [hdir, g1]
  simp only [hc]
  refine ⟨trivial, g2, g3, fun n => ?_⟩
  rw [page_path_split]
  exact g3 _

/-- Witness for C11: the cache written by the older format (a 29-byte record
with version byte 4), read with the very parameters it stores: the version
byte alone makes it a miss and the directory with its page files is gone. -/
theorem loadCacheMetadata_invalidates_witness :
    (loadCacheMetadata olderFormatCard sampleSection 7 1065353216 1 2 3 4 true).1 = false ∧
    sdExists (loadCacheMetadata olderFormatCard sampleSection 7 1065353216 1 2 3 4 true).2.1
      sampleSection.cachePath = false ∧
    sdExists (loadCacheMetadata olderFormatCard sampleSection 7 1065353216 1 2 3 4 true).2.1
      (sampleSection.cachePath ++ "/page_" ++ toString (1 : Int) ++ ".bin") = false :=
  ⟨(loadCacheMetadata_invalidates olderFormatCard sampleSection 7 1065353216 1 2 3 4 true
      [4, 7, 0, 0, 0, 0, 0, 128, 63, 1, 0, 0, 0, 2, 0, 0, 0, 3, 0, 0, 0, 4, 0, 0, 0, 12, 0, 0, 0]
      (by decide) (by decide) (Or.inl (by decide)) rfl).1,
   (loadCacheMetadata_invalidates olderFormatCard sampleSection 7 1065353216 1 2 3 4 true
      [4, 7, 0, 0, 0, 0, 0, 128, 63, 1, 0, 0, 0, 2, 0, 0, 0, 3, 0, 0, 0, 4, 0, 0, 0, 12, 0, 0, 0]
      (by decide) (by decide) (Or.inl (by decide)) rfl).2.1,
   (loadCacheMetadata_invalidates olderFormatCard sampleSection 7 1065353216 1 2 3 4 true
      [4, 7, 0, 0, 0, 0, 0, 128, 63, 1, 0, 0, 0, 2, 0, 0, 0, 3, 0, 0, 0, 4, 0, 0, 0, 12, 0, 0, 0]
      (by decide) (by decide) (Or.inl (by decide)) rfl).2.2.2 1⟩

/-- Counterexample to C12: the cache directory `/c` holds a leftover page file
and no `section.bin`; the cache check reports the miss, and the directory and
the page file are still there afterwards. -/
theorem loadCacheMetadata_missing_file_keeps_cache :
    sdExists leftoverCard "/c" = true ∧
    sdExists leftoverCard "/c/section.bin" = false ∧
    (loadCacheMetadata leftoverCard sampleSection 7 1065353216 1 2 3 4 true).1 = false ∧
    sdExists (loadCacheMetadata leftoverCard sampleSection 7 1065353216 1 2 3 4 true).2.1
      "/c" = true ∧
    sdExists (loadCacheMetadata leftoverCard sampleSection 7 1065353216 1 2 3 4 true).2.1
      "/c/page_5.bin" = true := by
  decide

/-- C12 as amended: when `section.bin` is missing, whether or not the section
cache directory exists, `loadCacheMetadata` reports the miss and leaves the
storage and the section as they were: the directory and any leftover page
files remain. The cache is wiped only on a version or parameter mismatch: a
hit leaves the storage unchanged, and whenever the call changes the storage at
all, the directory and `section.bin` both exist, the version byte or one of
the seven parameters read from the file differs from what is expected, the
result is a miss and the storage is what `clearCache` leaves. -/
theorem loadCacheMetadata_missing_file (fs : SdCard) (sec : Section) (fontId : Int)
    (lineCompression : Nat) (marginTop marginRight marginBottom marginLeft : Int)
    (extraParagraphSpacing : Bool) :
    (sdExists fs (sec.cachePath ++ "/section.bin") = false →
      loadCacheMetadata fs sec fontId lineCompression marginTop marginRight marginBottom
        marginLeft extraParagraphSpacing = (false, fs, sec)) ∧
    ((loadCacheMetadata fs sec fontId lineCompression marginTop marginRight marginBottom
        marginLeft extraParagraphSpacing).1 = true →
      (loadCacheMetadata fs sec fontId lineCompression marginTop marginRight marginBottom
        marginLeft extraParagraphSpacing).2.1 = fs) ∧
    ((loadCacheMetadata fs sec fontId lineCompression marginTop marginRight marginBottom
        marginLeft extraParagraphSpacing).2.1 = fs ∨
      (sdExists fs sec.cachePath = true ∧
       sdExists fs (sec.cachePath ++ "/section.bin") = true ∧
       (readU8 (ifstreamOpen fs ("/sd" ++ (sec.cachePath ++ "/section.bin"))) 0 ≠
          SECTION_FILE_VERSION ∨
        fontId ≠ readInt (ifstreamOpen fs ("/sd" ++ (sec.cachePath ++ "/section.bin"))) 1 ∨
        floatNe lineCompression
          (readU32 (ifstreamOpen fs ("/sd" ++ (sec.cachePath ++ "/section.bin"))) 5) = true ∨
        marginTop ≠ readInt (ifstreamOpen fs ("/sd" ++ (sec.cachePath ++ "/section.bin"))) 9 ∨
        marginRight ≠
          readInt (ifstreamOpen fs ("/sd" ++ (sec.cachePath ++ "/section.bin"))) 13 ∨
        marginBottom ≠
          readInt (ifstreamOpen fs ("/sd" ++ (sec.cachePath ++ "/section.bin"))) 17 ∨
        marginLeft ≠ readInt (ifstreamOpen fs ("/sd" ++ (sec.cachePath ++ "/section.bin"))) 21 ∨
        extraParagraphSpacing ≠
          readBool (ifstreamOpen fs ("/sd" ++ (sec.cachePath ++ "/section.bin"))) 25) ∧
       loadCacheMetadata fs sec fontId lineCompression marginTop marginRight marginBottom
         marginLeft extraParagraphSpacing = (false, (clearCache fs sec).2, sec))) := by
  have hmiss : sdExists fs (sec.cachePath ++ "/section.bin") = false →
      loadCacheMetadata fs sec fontId lineCompression marginTop marginRight marginBottom
        marginLeft extraParagraphSpacing = (false, fs, sec) := by
    intro h
    unfold loadCacheMetadata
    by_cases hd : sdExists fs sec.cachePath = true
    · simp [hd, h]
    · simp [hd]
  have hmain : (loadCacheMetadata fs sec fontId lineCompression marginTop marginRight
        marginBottom marginLeft extraParagraphSpacing).2.1 = fs ∨
      (sdExists fs sec.cachePath = true ∧
       sdExists fs (sec.cachePath ++ "/section.bin") = true ∧
       (readU8 (ifstreamOpen fs ("/sd" ++ (sec.cachePath ++ "/section.bin"))) 0 ≠
          SECTION_FILE_VERSION ∨
        fontId ≠ readInt (ifstreamOpen fs ("/sd" ++ (sec.cachePath ++ "/section.bin"))) 1 ∨
        floatNe lineCompression
          (readU32 (ifstreamOpen fs ("/sd" ++ (sec.cachePath ++ "/section.bin"))) 5) = true ∨
        marginTop ≠ readInt (ifstreamOpen fs ("/sd" ++ (sec.cachePath ++ "/section.bin"))) 9 ∨
        marginRight ≠
          readInt (ifstreamOpen fs ("/sd" ++ (sec.cachePath ++ "/section.bin"))) 13 ∨
        marginBottom ≠
          readInt (ifstreamOpen fs ("/sd" ++ (sec.cachePath ++ "/section.bin"))) 17 ∨
        marginLeft ≠ readInt (ifstreamOpen fs ("/sd" ++ (sec.cachePath ++ "/section.bin"))) 21 ∨
        extraParagraphSpacing ≠
          readBool (ifstreamOpen fs ("/sd" ++ (sec.cachePath ++ "/section.bin"))) 25) ∧
       loadCacheMetadata fs sec fontId lineCompression marginTop marginRight marginBottom
         marginLeft extraParagraphSpacing = (false, (clearCache fs sec).2, sec)) := by
    by_cases hf : sdExists fs (sec.cachePath ++ "/section.bin") = true
    swap
    · left
      rw [hmiss (by simpa using hf)]
    by_cases hd : sdExists fs sec.cachePath = true
    swap
    · left
      unfold loadCacheMetadata
      simp [hd]
    generalize hin : ifstreamOpen fs ("/sd" ++ (sec.cachePath ++ "/section.bin")) = inputFile
    unfold loadCacheMetadata
    simp only [hd, hf, hin, Bool.not_true, Bool.false_eq_true, ↓reduceIte]
    by_cases hv : readU8 inputFile 0 ≠ SECTION_FILE_VERSION
    · right
      rw [if_pos hv]
      exact ⟨trivial, trivial, Or.inl hv, rfl⟩
    rw [if_neg hv]
    split
    · rename_i hp
      right
      exact ⟨trivial, trivial, Or.inr hp, rfl⟩
    · left
      rfl
  refine ⟨hmiss, fun htrue => ?_, hmain⟩
  rcases hmain with h | ⟨_, _, _, h⟩
  · exact h
  · rw [h] at htrue
    exact absurd htrue Bool.false_ne_true

/-- Witness for the amended C12: the leftover cache `/c`. -/
theorem loadCacheMetadata_missing_file_witness :
    loadCacheMetadata leftoverCard sampleSection 7 1065353216 1 2 3 4 true =
      (false, leftoverCard, sampleSection) :=
  (loadCacheMetadata_missing_file leftoverCard sampleSection 7 1065353216 1 2 3 4 true).1
    (by decide)

theorem drop_mount (x : String) : ("/sd" ++ x).drop 3 = x := by
  rw [String.drop_eq]
  apply String.ext
  simp [String.data_append]

/-- Counterexample to C14: with 3 committed pages and the cursor at page 5,
whose file is a leftover, `loadPageFromSD` returns the deserialized page
instead of reporting not-found. -/
theorem loadPageFromSD_out_of_range :
    strayCursorSection.pageCount = 3 ∧ strayCursorSection.currentPage = 5 ∧
    loadPageFromSD leftoverCard strayCursorSection (fun bytes => some bytes) =
      some [1, 2, 3] := by
  decide

/-- C14 as amended: `loadPageFromSD` reports not-found (returns null) exactly
when the page file `page_<currentPage>.bin` does not exist, and otherwise
returns what `Page::deserialize` makes of that file; it makes no range check,
so the result does not depend on `pageCount`. -/
theorem loadPageFromSD_by_file {Page : Type} (fs : SdCard) (sec : Section)
    (deserialize : List Nat → Option Page) :
    (sdExists fs (sec.cachePath ++ "/page_" ++ toString sec.currentPage ++ ".bin") = false →
      loadPageFromSD fs sec deserialize = none) ∧
    (sdExists fs (sec.cachePath ++ "/page_" ++ toString sec.currentPage ++ ".bin") = true →
      loadPageFromSD fs sec deserialize =
        deserialize (ifstreamOpen fs
          ("/sd" ++ (sec.cachePath ++ "/page_" ++ toString sec.currentPage ++ ".bin")))) ∧
    (∀ n : Int, loadPageFromSD fs { sec with pageCount := n } deserialize =
      loadPageFromSD fs sec deserialize) := by
  have hp : "/sd" ++ sec.cachePath ++ "/page_" ++ toString sec.currentPage ++ ".bin" =
      "/sd" ++ (sec.cachePath ++ "/page_" ++ toString sec.currentPage ++ ".bin") := by
    simp only [String.append_assoc]
  unfold loadPageFromSD
  simp only [hp, drop_mount]
  refine ⟨fun h => by simp [h], fun h => by simp [h], fun n => trivial⟩

/-- Witness for the amended C14: page 0 of the leftover cache is missing. -/
theorem loadPageFromSD_by_file_witness :
    loadPageFromSD leftoverCard sampleSection (fun bytes => some bytes) = none :=
  (loadPageFromSD_by_file leftoverCard sampleSection (fun bytes => some bytes)).1 (by decide)


/-! ## The pagination pass -/

theorem streamToFile_entry_ne (fs : SdCard) (path : String) (o : StreamOutcome) (k : String)
    (h : k ≠ "/sd" ++ path) : (streamToFile fs path o).entry k = fs.entry k := by
  unfold streamToFile
  split
  · simp [h]
  · rfl

theorem ofstreamWrite_entry_ne (fs : SdCard) (path : String) (bytes : List Nat) (k : String)
    (h : k ≠ path) : (ofstreamWrite fs path bytes).entry k = fs.entry k := by
  unfold ofstreamWrite
  split
  · simp [h]
  · rfl

theorem sdRemove_entry_ne (fs : SdCard) (path : String) (k : String)
    (h : k ≠ "/sd" ++ path) : (sdRemove fs path).2.entry k = fs.entry k := by
  unfold sdRemove
  split
  · simp [h]
  · rfl

theorem streamToFile_dir (fs : SdCard) (path : String) (o : StreamOutcome) (k : String) :
    (streamToFile fs path o).entry k = some Entry.dir ↔ fs.entry k = some Entry.dir := by
  unfold streamToFile
  split
  · rename_i hc
    by_cases hk : k = "/sd" ++ path
    · subst hk; simp [hc.2]
    · simp [hk]
  · rfl

theorem ofstreamWrite_dir (fs : SdCard) (path : String) (bytes : List Nat) (k : String) :
    (ofstreamWrite fs path bytes).entry k = some Entry.dir ↔ fs.entry k = some Entry.dir := by
  unfold ofstreamWrite
  split
  · rename_i hc
    by_cases hk : k = path
    · subst hk; simp [hc.2]
    · simp [hk]
  · rfl

theorem sdRemove_dir (fs : SdCard) (path : String) (k : String) :
    (sdRemove fs path).2.entry k = some Entry.dir ↔ fs.entry k = some Entry.dir := by
  unfold sdRemove
  split
  · rename_i b hb
    by_cases hk : k = "/sd" ++ path
    · subst hk; simp [hb]
    · simp [hk]
  · rfl

theorem page_ne_section (c t : String) :
    "/sd" ++ (c ++ "/section.bin") ≠ "/sd" ++ (c ++ "/page_" ++ t ++ ".bin") := by
  intro h
  have h2 := congrArg String.data h
  simp only [String.data_append, List.append_assoc, List.append_cancel_left_eq] at h2
  have h3 := congrArg (fun l => l.getD 1 'x') h2
  simp at h3

theorem tmp_ne_section (c e t : String) :
    "/sd" ++ (c ++ "/section.bin") ≠ "/sd" ++ (e ++ "/.tmp_" ++ t ++ ".html") := by
  intro h
  have h2 := congrArg (fun s => s.data.reverse.head?) h
  simp [String.data_append] at h2

theorem pages_fold (pages : List (List Nat)) (fs : SdCard) (sec : Section) :
    (pages.foldl onPageComplete (fs, sec)).2.cachePath = sec.cachePath ∧
    (pages.foldl onPageComplete (fs, sec)).2.pageCount = sec.pageCount + pages.length ∧
    (pages.foldl onPageComplete (fs, sec)).1.entry ("/sd" ++ (sec.cachePath ++ "/section.bin")) =
      fs.entry ("/sd" ++ (sec.cachePath ++ "/section.bin")) ∧
    (∀ k, (pages.foldl onPageComplete (fs, sec)).1.entry k = some Entry.dir ↔
      fs.entry k = some Entry.dir) := by
  induction pages generalizing fs sec with
  | nil => simp
  | cons p ps ih =>
    rw [List.foldl_cons]
    have hstep : onPageComplete (fs, sec) p =
        (ofstreamWrite fs ("/sd" ++ (sec.cachePath ++ "/page_" ++ toString sec.pageCount ++ ".bin")) p,
          { sec with pageCount := sec.pageCount + 1 }) := rfl
    rw [hstep]
    obtain ⟨i1, i2, i3, i4⟩ := ih
      (ofstreamWrite fs ("/sd" ++ (sec.cachePath ++ "/page_" ++ toString sec.pageCount ++ ".bin")) p)
      { sec with pageCount := sec.pageCount + 1 }
    refine ⟨i1, ?_, ?_, fun k => ?_⟩
    · rw [i2]; simp only [List.length_cons]; push_cast; ring
    · rw [i3]
      exact ofstreamWrite_entry_ne _ _ _ _ (page_ne_section _ _)
    · rw [i4 k]
      exact ofstreamWrite_dir _ _ _ _

theorem persist_cases (fs : SdCard) (sec : Section) (e : String) (stream : StreamOutcome)
    (layout : LayoutOutcome) (fontId : Int) (lineCompression : Nat)
    (marginTop marginRight marginBottom marginLeft : Int) (extraParagraphSpacing : Bool) :
    persistPageDataToSD fs sec e stream layout fontId lineCompression marginTop marginRight
      marginBottom marginLeft extraParagraphSpacing =
    if stream.success = false then
      (false, streamToFile fs (e ++ "/.tmp_" ++ toString sec.spineIndex ++ ".html") stream, sec)
    else if layout.success = false then
      (false,
       (sdRemove (layout.pages.foldl onPageComplete
          (streamToFile fs (e ++ "/.tmp_" ++ toString sec.spineIndex ++ ".html") stream, sec)).1
          (e ++ "/.tmp_" ++ toString sec.spineIndex ++ ".html")).2,
       (layout.pages.foldl onPageComplete
          (streamToFile fs (e ++ "/.tmp_" ++ toString sec.spineIndex ++ ".html") stream, sec)).2)
    else
      (true,
       writeCacheMetadata
         (sdRemove (layout.pages.foldl onPageComplete
            (streamToFile fs (e ++ "/.tmp_" ++ toString sec.spineIndex ++ ".html") stream,
              sec)).1
            (e ++ "/.tmp_" ++ toString sec.spineIndex ++ ".html")).2
         (layout.pages.foldl onPageComplete
            (streamToFile fs (e ++ "/.tmp_" ++ toString sec.spineIndex ++ ".html") stream,
              sec)).2
         fontId lineCompression marginTop marginRight marginBottom marginLeft
         extraParagraphSpacing,
       (layout.pages.foldl onPageComplete
          (streamToFile fs (e ++ "/.tmp_" ++ toString sec.spineIndex ++ ".html") stream, sec)).2) := by
  unfold persistPageDataToSD
  cases stream.success <;> cases layout.success <;> rfl

/-- C13: `persistPageDataToSD` writes `section.bin` only after the whole pass
succeeded. It returns true exactly when both content streaming and the layout
engine succeed. When it returns false the entry of `section.bin` is what it
was before the call, so if no `section.bin` existed a later
`loadCacheMetadata` reports a miss. When it returns true (in an existing
section cache directory, `section.bin` not being a directory) `section.bin`
holds the metadata of this pass, with the page count raised by the number of
pages produced. -/
theorem persistPageDataToSD_metadata (fs : SdCard) (sec : Section) (e : String)
    (stream : StreamOutcome) (layout : LayoutOutcome) (fontId : Int) (lineCompression : Nat)
    (marginTop marginRight marginBottom marginLeft : Int) (extraParagraphSpacing : Bool) :
    ((persistPageDataToSD fs sec e stream layout fontId lineCompression marginTop marginRight
        marginBottom marginLeft extraParagraphSpacing).1 = true ↔
      (stream.success = true ∧ layout.success = true)) ∧
    ((persistPageDataToSD fs sec e stream layout fontId lineCompression marginTop marginRight
        marginBottom marginLeft extraParagraphSpacing).1 = false →
      (persistPageDataToSD fs sec e stream layout fontId lineCompression marginTop marginRight
        marginBottom marginLeft extraParagraphSpacing).2.1.entry
          ("/sd" ++ (sec.cachePath ++ "/section.bin")) =
        fs.entry ("/sd" ++ (sec.cachePath ++ "/section.bin"))) ∧
    ((persistPageDataToSD fs sec e stream layout fontId lineCompression marginTop marginRight
        marginBottom marginLeft extraParagraphSpacing).1 = false →
      sdExists fs (sec.cachePath ++ "/section.bin") = false →
      ∀ (f2 : Int) (l2 : Nat) (t2 r2 b2 m2 : Int) (x2 : Bool),
        (loadCacheMetadata
          (persistPageDataToSD fs sec e stream layout fontId lineCompression marginTop
            marginRight marginBottom marginLeft extraParagraphSpacing).2.1
          sec f2 l2 t2 r2 b2 m2 x2).1 = false) ∧
    ((persistPageDataToSD fs sec e stream layout fontId lineCompression marginTop marginRight
        marginBottom marginLeft extraParagraphSpacing).1 = true →
      fs.entry ("/sd" ++ sec.cachePath) = some Entry.dir →
      fs.entry ("/sd" ++ (sec.cachePath ++ "/section.bin")) ≠ some Entry.dir →
      (persistPageDataToSD fs sec e stream layout fontId lineCompression marginTop marginRight
        marginBottom marginLeft extraParagraphSpacing).2.1.entry
          ("/sd" ++ (sec.cachePath ++ "/section.bin")) =
        some (Entry.file ([SECTION_FILE_VERSION % 256] ++ podInt fontId ++
          podFloat lineCompression ++ podInt marginTop ++ podInt marginRight ++
          podInt marginBottom ++ podInt marginLeft ++ podBool extraParagraphSpacing ++
          podInt (sec.pageCount + layout.pages.length)))) := by
  have e1 := streamToFile_entry_ne fs (e ++ "/.tmp_" ++ toString sec.spineIndex ++ ".html")
    stream _ (tmp_ne_section sec.cachePath e (toString sec.spineIndex))
  obtain ⟨f1, f2, f3, f4⟩ := pages_fold layout.pages
    (streamToFile fs (e ++ "/.tmp_" ++ toString sec.spineIndex ++ ".html") stream) sec
  have e3 := sdRemove_entry_ne (layout.pages.foldl onPageComplete
    (streamToFile fs (e ++ "/.tmp_" ++ toString sec.spineIndex ++ ".html") stream, sec)).1
    (e ++ "/.tmp_" ++ toString sec.spineIndex ++ ".html") _
    (tmp_ne_section sec.cachePath e (toString sec.spineIndex))
  have hkeep : ∀ r : Bool × SdCard × Section,
      r = persistPageDataToSD fs sec e stream layout fontId lineCompression marginTop
        marginRight marginBottom marginLeft extraParagraphSpacing → r.1 = false →
      r.2.1.entry ("/sd" ++ (sec.cachePath ++ "/section.bin")) =
        fs.entry ("/sd" ++ (sec.cachePath ++ "/section.bin")) := by
    intro r hr hfalse
    rw [persist_cases] at hr
    by_cases hs : stream.success = false
    · rw [if_pos hs] at hr; subst hr; exact e1
    · rw [if_neg hs] at hr
      by_cases hl : layout.success = false
      · rw [if_pos hl] at hr; subst hr
        show (sdRemove _ _).2.entry _ = _
        rw [e3, f3, e1]
      · rw [if_neg hl] at hr; subst hr; simp at hfalse
  refine ⟨?_, hkeep _ rfl, fun hfalse hno f2 l2 t2 r2 b2 m2 x2 => ?_, fun htrue hdir hnd => ?_⟩
  · rw [persist_cases]
    cases stream.success <;> cases layout.success <;> simp
  · apply loadCacheMetadata_no_file
    have := hkeep _ rfl hfalse
    unfold sdExists at hno ⊢
    rw [this]; exact hno
  · rw [persist_cases] at htrue ⊢
    by_cases hs : stream.success = false
    · rw [if_pos hs] at htrue; simp at htrue
    rw [if_neg hs] at htrue ⊢
    by_cases hl : layout.success = false
    · rw [if_pos hl] at htrue; simp at htrue
    rw [if_neg hl]
    have hd2 : (sdRemove (layout.pages.foldl onPageComplete
        (streamToFile fs (e ++ "/.tmp_" ++ toString sec.spineIndex ++ ".html") stream, sec)).1
        (e ++ "/.tmp_" ++ toString sec.spineIndex ++ ".html")).2.entry
          ("/sd" ++ (layout.pages.foldl onPageComplete
            (streamToFile fs (e ++ "/.tmp_" ++ toString sec.spineIndex ++ ".html") stream,
              sec)).2.cachePath) = some Entry.dir := by
      rw [f1, sdRemove_dir, f4, streamToFile_dir]; exact hdir
    have hn2 : (sdRemove (layout.pages.foldl onPageComplete
        (streamToFile fs (e ++ "/.tmp_" ++ toString sec.spineIndex ++ ".html") stream, sec)).1
        (e ++ "/.tmp_" ++ toString sec.spineIndex ++ ".html")).2.entry
          ("/sd" ++ (layout.pages.foldl onPageComplete
            (streamToFile fs (e ++ "/.tmp_" ++ toString sec.spineIndex ++ ".html") stream,
              sec)).2.cachePath ++ "/section.bin") ≠ some Entry.dir := by
      rw [f1, Ne, sdRemove_dir, f4, streamToFile_dir,
        String.append_assoc "/sd" sec.cachePath "/section.bin"]; exact hnd
    have hw := (writeCacheMetadata_entry _ _ fontId lineCompression marginTop marginRight
      marginBottom marginLeft extraParagraphSpacing hd2 hn2).1
    rw [f1, f2] at hw
    exact hw

/-- Witness for C13: a pass over the book cache `/e` whose layout engine
produces two pages and succeeds writes `section.bin`; one whose streaming
fails does not. -/
theorem persistPageDataToSD_metadata_witness :
    (persistPageDataToSD bookCard firstSection "/e"
      { opened := true, written := [60], success := true }
      { pages := [[1], [2]], success := true } 7 1065353216 1 2 3 4 true).1 = true ∧
    (persistPageDataToSD bookCard firstSection "/e"
      { opened := true, written := [60], success := false }
      { pages := [], success := true } 7 1065353216 1 2 3 4 true).2.1.entry
        ("/sd" ++ (firstSection.cachePath ++ "/section.bin")) =
      bookCard.entry ("/sd" ++ (firstSection.cachePath ++ "/section.bin")) :=
  ⟨(persistPageDataToSD_metadata bookCard firstSection "/e"
      { opened := true, written := [60], success := true }
      { pages := [[1], [2]], success := true } 7 1065353216 1 2 3 4 true).1.mpr ⟨rfl, rfl⟩,
   (persistPageDataToSD_metadata bookCard firstSection "/e"
      { opened := true, written := [60], success := false }
      { pages := [], success := true } 7 1065353216 1 2 3 4 true).2.1 (by decide)⟩


/-- C20: code evaluation of `persistPageDataToSD` on the book cache `/e`.
When content streaming fails after the scratch file was opened, the call
returns false and `/e/.tmp_0.html` is still on the card; when streaming
succeeds the scratch file is gone after the call, whether the layout engine
fails or succeeds. -/
theorem persistPageDataToSD_stream_failure_keeps_scratch :
    (persistPageDataToSD bookCard firstSection "/e"
        { opened := true, written := [60], success := false }
        { pages := [], success := true } 7 1065353216 1 2 3 4 true).1 = false ∧
    sdExists (persistPageDataToSD bookCard firstSection "/e"
        { opened := true, written := [60], success := false }
        { pages := [], success := true } 7 1065353216 1 2 3 4 true).2.1
      "/e/.tmp_0.html" = true ∧
    (persistPageDataToSD bookCard firstSection "/e"
        { opened := true, written := [60], success := true }
        { pages := [[1]], success := false } 7 1065353216 1 2 3 4 true).1 = false ∧
    sdExists (persistPageDataToSD bookCard firstSection "/e"
        { opened := true, written := [60], success := true }
        { pages := [[1]], success := false } 7 1065353216 1 2 3 4 true).2.1
      "/e/.tmp_0.html" = false ∧
    (persistPageDataToSD bookCard firstSection "/e"
        { opened := true, written := [60], success := true }
        { pages := [[1]], success := true } 7 1065353216 1 2 3 4 true).1 = true ∧
    sdExists (persistPageDataToSD bookCard firstSection "/e"
        { opened := true, written := [60], success := true }
        { pages := [[1]], success := true } 7 1065353216 1 2 3 4 true).2.1
      "/e/.tmp_0.html" = false := by
  decide


/-! ## Short reads -/

/-- C22: a short read is reported without side effects on the decode state.
When fewer than `rowBytes` bytes remain to be read, `readNextRow` returns
`ShortReadRow`, stores no output byte, and leaves the error-diffusion buffers
and the row counter `prevRowY` as they were (only the file position moves). -/
theorem readNextRow_short_read (b : Bitmap)
    (h : ((b.file.data.length - b.file.pos : Nat) : Int) < b.rowBytes) :
    (readNextRow b).1 = BmpReaderError.ShortReadRow ∧
    (readNextRow b).2.1 = [] ∧
    (readNextRow b).2.2.errorCurRow = b.errorCurRow ∧
    (readNextRow b).2.2.errorNextRow = b.errorNextRow ∧
    (readNextRow b).2.2.prevRowY = b.prevRowY ∧
    (readNextRow b).2.2 = { b with file := (rowRead b).2 } := by
  have hne : ((rowRead b).1.length : Int) ≠ b.rowBytes := by
    unfold rowRead
    rw [FsFile.readBuf_length]
    omega
  rw [readNextRow_eq, if_pos hne]
  exact ⟨rfl, rfl, rfl, rfl, rfl, rfl⟩

set_option maxRecDepth 100000 in
theorem truncated40x4_short :
    (((parseHeaders (freshBitmap true truncated40x4)).2.file.data.length -
        (parseHeaders (freshBitmap true truncated40x4)).2.file.pos : Nat) : Int) <
      (parseHeaders (freshBitmap true truncated40x4)).2.rowBytes := by
  decide

/-- Witness for C22: the first row of the truncated 40x4 image, in
Floyd-Steinberg mode. -/
theorem readNextRow_short_read_witness :
    (readNextRow (parseHeaders (freshBitmap true truncated40x4)).2).1 =
      BmpReaderError.ShortReadRow ∧
    (readNextRow (parseHeaders (freshBitmap true truncated40x4)).2).2.1 = [] :=
  ⟨(readNextRow_short_read _ truncated40x4_short).1,
   (readNextRow_short_read _ truncated40x4_short).2.1⟩

/-! ## Hash noise dithering -/

theorem noiseThreshold_le (x y : Int) : noiseThreshold x y ≤ 255 := by
  unfold noiseThreshold
  dsimp only
  generalize (((x % 4294967296).toNat * 374761393 % 4294967296 +
    (y % 4294967296).toNat * 668265263 % 4294967296) % 4294967296) = h0
  have hlt : ((h0 ^^^ (h0 >>> 13)) * 1274126177) % 4294967296 < 4294967296 :=
    Nat.mod_lt _ (by norm_num)
  generalize ((h0 ^^^ (h0 >>> 13)) * 1274126177) % 4294967296 = h1 at hlt
  rw [Nat.shiftRight_eq_div_pow]
  norm_num
  omega

theorem quantizeNoise_eq (gray x y : Int) :
    quantizeNoise gray x y =
      if gray * 3 < 255 then (if gray * 3 + (noiseThreshold x y : Int) ≥ 255 then 1 else 0)
      else if gray * 3 < 510 then
        (if (gray * 3 - 255) + (noiseThreshold x y : Int) ≥ 255 then 2 else 1)
      else (if (gray * 3 - 510) + (noiseThreshold x y : Int) ≥ 255 then 3 else 2) := rfl

/-- C24: hash noise dithering adds a position-derived threshold to the
3x-scaled luminance and compares against 255-wide bands. With `t` the top 8
bits of the position hash, `0 <= t <= 255`, and for every gray in 0..255,
`quantizeNoise gray x y = min 3 (floor ((3 * gray + t) / 255))`; the result is
in 0..3 and is non-decreasing in gray at a fixed position. -/
theorem quantizeNoise_bands (gray x y : Int) (h0 : 0 ≤ gray) (h1 : gray ≤ 255) :
    noiseThreshold x y ≤ 255 ∧
    (quantizeNoise gray x y : Int) = min 3 ((3 * gray + (noiseThreshold x y : Int)) / 255) ∧
    quantizeNoise gray x y ≤ 3 ∧
    (∀ g2 : Int, gray ≤ g2 → g2 ≤ 255 → quantizeNoise gray x y ≤ quantizeNoise g2 x y) := by
  have ht := noiseThreshold_le x y
  refine ⟨ht, ?_, ?_, ?_⟩
  · rw [quantizeNoise_eq]
    generalize noiseThreshold x y = t at ht
    split_ifs <;> simp only [Nat.cast_ofNat, Nat.cast_one, Nat.cast_zero] <;> omega
  · have := quantizeNoise_lt gray x y
    omega
  · intro g2 hg hg2
    rw [quantizeNoise_eq, quantizeNoise_eq]
    generalize noiseThreshold x y = t at ht
    split_ifs <;> omega

/-- Witness for C24: gray 100 at position (3, 5). -/
theorem quantizeNoise_bands_witness :
    (quantizeNoise 100 3 5 : Int) = min 3 ((3 * 100 + (noiseThreshold 3 5 : Int)) / 255) :=
  (quantizeNoise_bands 100 3 5 (by decide) (by decide)).2.1

/-! ## The diffused shares -/

/-- C28: the four diffused shares do not conserve the residual exactly. The
amounts `quantizeFloydSteinberg` adds for a residual `e` are `floor (7e/16)`,
`floor (3e/16)`, `floor (5e/16)` and `floor (e/16)`; for every integer `e`
their sum lies in `[e - 3, e]` and equals `e` exactly when `e` is a multiple of
16, so a quantized pixel loses between 0 and 3 units and never gains any. -/
theorem diffusedTotal_bounds :
    (∀ (gray : Int) (x : Nat) (w : Int) (cur next : List Int),
      quantizeFloydSteinberg gray x w cur next false =
        (fsLevel (fsAdjusted gray x cur),
         addAt cur (x + 2)
           (diffusedShares (fsAdjusted gray x cur - fsReconstruction (fsAdjusted gray x cur))).1,
         addAt (addAt (addAt next x
           (diffusedShares
             (fsAdjusted gray x cur - fsReconstruction (fsAdjusted gray x cur))).2.1)
           (x + 1)
           (diffusedShares
             (fsAdjusted gray x cur - fsReconstruction (fsAdjusted gray x cur))).2.2.1)
           (x + 2)
           (diffusedShares
             (fsAdjusted gray x cur - fsReconstruction (fsAdjusted gray x cur))).2.2.2)) ∧
    (∀ e : Int,
      diffusedShares e =
        (⌊(7 * (e : ℚ)) / 16⌋, ⌊(3 * (e : ℚ)) / 16⌋, ⌊(5 * (e : ℚ)) / 16⌋, ⌊(e : ℚ) / 16⌋)) ∧
    (∀ e : Int, e - 3 ≤ diffusedTotal e ∧ diffusedTotal e ≤ e ∧
      (diffusedTotal e = e ↔ (16 : Int) ∣ e)) := by
  refine ⟨fun gray x w cur next => quantizeFloydSteinberg_forward gray x w cur next,
    fun e => ?_, fun e => ?_⟩
  · unfold diffusedShares
    simp only [shiftRight4_floor]
    have c7 : (((e * 7 : Int) : ℚ)) = 7 * (e : ℚ) := by push_cast; ring
    have c3 : (((e * 3 : Int) : ℚ)) = 3 * (e : ℚ) := by push_cast; ring
    have c5 : (((e * 5 : Int) : ℚ)) = 5 * (e : ℚ) := by push_cast; ring
    rw [c7, c3, c5]
  · unfold diffusedTotal diffusedShares
    simp only [shiftRight4_div]
    refine ⟨by omega, by omega, ⟨fun h => ?_, fun h => ?_⟩⟩
    · omega
    · obtain ⟨k, hk⟩ := h
      omega

/-! ## Error-buffer accesses -/


theorem quantizeFloydSteinberg_frame (gray : Int) (x : Nat) (w : Int) (cur next : List Int)
    (r : Bool) (j : Nat) :
    (j ∉ curRowAccesses x r →
      (quantizeFloydSteinberg gray x w cur next r).2.1.getD j 0 = cur.getD j 0) ∧
    (j ∉ nextRowAccesses x r →
      (quantizeFloydSteinberg gray x w cur next r).2.2.getD j 0 = next.getD j 0) := by
  unfold quantizeFloydSteinberg curRowAccesses nextRowAccesses
  cases r
  · simp only [Bool.not_false, ↓reduceIte, List.mem_cons, List.mem_singleton, not_or,
      List.not_mem_nil, or_false, addAt_getD]
    constructor
    · intro h
      rw [if_neg (fun c => h.2 c.1)]
    · intro h
      rw [if_neg (fun c => h.2.2 c.1), if_neg (fun c => h.2.1 c.1), if_neg (fun c => h.1 c.1)]
  · simp only [Bool.not_true, Bool.false_eq_true, ↓reduceIte, List.mem_cons, List.mem_singleton,
      not_or, List.not_mem_nil, or_false, addAt_getD]
    constructor
    · intro h
      rw [if_neg (fun c => h.2 c.1)]
    · intro h
      rw [if_neg (fun c => h.2.2 c.1), if_neg (fun c => h.2.1 c.1), if_neg (fun c => h.1 c.1)]

theorem quantizeFloydSteinberg_reads (gray : Int) (x : Nat) (w : Int)
    (cur cur2 next next2 : List Int) (r : Bool)
    (h : cur2.getD (x + 1) 0 = cur.getD (x + 1) 0) :
    (quantizeFloydSteinberg gray x w cur2 next2 r).1 =
      (quantizeFloydSteinberg gray x w cur next r).1 := by
  unfold quantizeFloydSteinberg
  rw [h]
  cases r <;> rfl

/-- C25: the `width + 2` padding makes every error-buffer access in bounds.
For every width of at least 1, every pixel `x` below the width and both scan
directions, each index `quantizeFloydSteinberg` reads or updates in
`errorCurRow` and `errorNextRow` is below `width + 2`, hence inside the two
buffers a successful `parseHeaders` allocates in Floyd-Steinberg mode. The
indices listed are all the call touches: the level depends on `errorCurRow`
only through index `x + 1`, and entries at other indices are left unchanged. -/
theorem quantizeFloydSteinberg_in_bounds :
    (∀ (width x : Nat) (r : Bool), 1 ≤ width → x < width →
      ∀ i, i ∈ curRowAccesses x r ∨ i ∈ nextRowAccesses x r → i < width + 2) ∧
    (∀ (b : Bitmap), (parseHeaders b).1 = BmpReaderError.Ok → b.useFloydSteinberg = true →
      ∀ (x : Nat) (r : Bool), (x : Int) < (parseHeaders b).2.width →
      ∃ c n, (parseHeaders b).2.errorCurRow = some c ∧
        (parseHeaders b).2.errorNextRow = some n ∧
        (∀ i, i ∈ curRowAccesses x r → i < c.length) ∧
        (∀ i, i ∈ nextRowAccesses x r → i < n.length)) ∧
    (∀ (gray : Int) (x : Nat) (w : Int) (cur next : List Int) (r : Bool),
      (∀ cur2 next2 : List Int, cur2.getD (x + 1) 0 = cur.getD (x + 1) 0 →
        (quantizeFloydSteinberg gray x w cur2 next2 r).1 =
          (quantizeFloydSteinberg gray x w cur next r).1) ∧
      (∀ j, j ∉ curRowAccesses x r →
        (quantizeFloydSteinberg gray x w cur next r).2.1.getD j 0 = cur.getD j 0) ∧
      (∀ j, j ∉ nextRowAccesses x r →
        (quantizeFloydSteinberg gray x w cur next r).2.2.getD j 0 = next.getD j 0)) := by
  have hidx : ∀ (width x : Nat) (r : Bool), x < width →
      ∀ i, i ∈ curRowAccesses x r ∨ i ∈ nextRowAccesses x r → i < width + 2 := by
    intro width x r hx i hi
    unfold curRowAccesses nextRowAccesses at hi
    cases r <;> simp at hi <;> omega
  refine ⟨fun width x r _ hx => hidx width x r hx, ?_, ?_⟩
  · intro b hok hfs x r hx
    obtain ⟨_, _, hp⟩ := parseHeaders_ok b hok
    obtain ⟨_, _, _, _, _, _, _, _, _, _, hrows, _⟩ := hp
    obtain ⟨hc, hn, _⟩ := hrows hfs
    have hw : x < ((parseHeaders b).2.width + 2).toNat - 2 := by omega
    refine ⟨_, _, hc, hn, fun i hi => ?_, fun i hi => ?_⟩
    · have := hidx (((parseHeaders b).2.width + 2).toNat - 2) x r hw i (Or.inl hi)
      rw [List.length_replicate]; omega
    · have := hidx (((parseHeaders b).2.width + 2).toNat - 2) x r hw i (Or.inr hi)
      rw [List.length_replicate]; omega
  · intro gray x w cur next r
    exact ⟨fun cur2 next2 h => quantizeFloydSteinberg_reads gray x w cur cur2 next next2 r h,
      fun j hj => (quantizeFloydSteinberg_frame gray x w cur next r j).1 hj,
      fun j hj => (quantizeFloydSteinberg_frame gray x w cur next r j).2 hj⟩

set_option maxRecDepth 100000 in
/-- Witness for C25: pixel 39 of the 40 pixel wide sample, left to right. -/
theorem quantizeFloydSteinberg_in_bounds_witness :
    ∃ c n, (parseHeaders (freshBitmap true gray40x4)).2.errorCurRow = some c ∧
      (parseHeaders (freshBitmap true gray40x4)).2.errorNextRow = some n ∧
      (∀ i, i ∈ curRowAccesses 39 false → i < c.length) ∧
      (∀ i, i ∈ nextRowAccesses 39 false → i < n.length) :=
  quantizeFloydSteinberg_in_bounds.2.1 (freshBitmap true gray40x4) (by decide) rfl 39 false
    (by decide)


/-! ## Settings persistence -/

theorem settings_paths :
    SETTINGS_FILE.drop 3 = "/.crosspoint/settings.bin" ∧
    parentDir SETTINGS_FILE = "/sd" ++ "/.crosspoint" ∧
    "/sd" ++ "/.crosspoint/settings.bin" = SETTINGS_FILE ∧
    SETTINGS_FILE ≠ "/sd" ++ "/.crosspoint" := by
  decide

theorem sdMkdir_dir (fs : SdCard) (path : String)
    (h : ∀ bytes, fs.entry ("/sd" ++ path) ≠ some (Entry.file bytes)) :
    (sdMkdir fs path).2.entry ("/sd" ++ path) = some Entry.dir ∧
    ∀ k, k ≠ "/sd" ++ path → (sdMkdir fs path).2.entry k = fs.entry k := by
  unfold sdMkdir
  split
  · exact ⟨by simp, fun k hk => by simp [hk]⟩
  · rename_i hd
    exact ⟨hd, fun _ _ => rfl⟩
  · rename_i bytes hf
    exact absurd hf (h bytes)

/-- C30: settings persistence round-trips. For every pair of values of
`whiteSleepScreen` and `extraParagraphSpacing`, on a card where `/.crosspoint`
is not a regular file and `settings.bin` is not a directory (so that the file
is written), `saveToFile` returns true and `loadFromFile` on the written file,
called on any settings object, returns true and leaves exactly the two saved
values in it. -/
theorem settings_round_trip (fs : SdCard) (s s0 : CrossPointSettings)
    (hdir : ∀ bytes, fs.entry "/sd/.crosspoint" ≠ some (Entry.file bytes))
    (hfile : fs.entry "/sd/.crosspoint/settings.bin" ≠ some Entry.dir) :
    (saveToFile fs s).1 = true ∧
    (saveToFile fs s).2.entry SETTINGS_FILE =
      some (Entry.file [1, 2, if s.whiteSleepScreen then 1 else 0,
        if s.extraParagraphSpacing then 1 else 0]) ∧
    loadFromFile (saveToFile fs s).2 s0 = (true, s) := by
  obtain ⟨p1, p2, p3, p4⟩ := settings_paths
  obtain ⟨m1, m2⟩ := sdMkdir_dir fs "/.crosspoint" hdir
  have hw : (saveToFile fs s).2.entry SETTINGS_FILE =
      some (Entry.file [1, 2, if s.whiteSleepScreen then 1 else 0,
        if s.extraParagraphSpacing then 1 else 0]) := by
    unfold saveToFile ofstreamWrite
    dsimp only
    rw [p2, m1, m2 _ p4]
    have hf : fs.entry SETTINGS_FILE ≠ some Entry.dir := hfile
    rw [if_pos ⟨rfl, hf⟩]
    simp [podBool, SETTINGS_FILE_VERSION, SETTINGS_COUNT]
  refine ⟨rfl, hw, ?_⟩
  unfold loadFromFile
  have hex : sdExists (saveToFile fs s).2 (SETTINGS_FILE.drop 3) = true := by
    unfold sdExists
    rw [p1, p3, hw]
    rfl
  have hin : ifstreamOpen (saveToFile fs s).2 SETTINGS_FILE =
      [1, 2, if s.whiteSleepScreen then 1 else 0, if s.extraParagraphSpacing then 1 else 0] := by
    unfold ifstreamOpen
    rw [hw]
  rw [hex, hin]
  cases s with
  | mk w e => cases w <;> cases e <;> rfl

/-- Witness for C30: saving changed settings on a blank card and loading
them into an object holding the defaults. -/
theorem settings_round_trip_witness :
    loadFromFile (saveToFile blankCard changedSettings).2 defaultSettings =
      (true, changedSettings) :=
  (settings_round_trip blankCard changedSettings defaultSettings
    (fun _ => by simp [blankCard]) (by simp [blankCard])).2.2


/-! ## Page numbering -/

theorem digitChar_val (d : Nat) (h : d < 10) :
    (Nat.digitChar d).toNat - 48 = d ∧ Nat.digitChar d ≠ '/' := by
  interval_cases d <;> exact ⟨rfl, by decide⟩

theorem toDigitsCore_val (fuel : Nat) : ∀ (n : Nat) (ds : List Char), n < fuel →
    (Nat.toDigitsCore 10 fuel n ds).foldl (fun a c => 10 * a + (c.toNat - 48)) 0 =
      ds.foldl (fun a c => 10 * a + (c.toNat - 48)) n := by
  induction fuel with
  | zero => intro n ds h; omega
  | succ f ih =>
    intro n ds h
    have hd := (digitChar_val (n % 10) (Nat.mod_lt _ (by norm_num))).1
    simp only [Nat.toDigitsCore]
    split
    · rename_i h0
      simp only [List.foldl_cons, hd]
      congr 1
      omega
    · rename_i h0
      rw [ih (n / 10) _ (by omega)]
      simp only [List.foldl_cons, hd]
      congr 1
      omega

theorem toDigitsCore_no_slash (fuel : Nat) : ∀ (n : Nat) (ds : List Char),
    (∀ c ∈ ds, c ≠ '/') → ∀ c ∈ Nat.toDigitsCore 10 fuel n ds, c ≠ '/' := by
  induction fuel with
  | zero => intro n ds h; simpa [Nat.toDigitsCore] using h
  | succ f ih =>
    intro n ds h
    have hd := (digitChar_val (n % 10) (Nat.mod_lt _ (by norm_num))).2
    have hcons : ∀ c ∈ Nat.digitChar (n % 10) :: ds, c ≠ '/' := by
      intro c hc
      rcases List.mem_cons.mp hc with e | e
      · rw [e]; exact hd
      · exact h c e
    simp only [Nat.toDigitsCore]
    split
    · exact hcons
    · exact ih _ _ hcons

theorem natRepr_inj (a b : Nat) (h : Nat.repr a = Nat.repr b) : a = b := by
  unfold Nat.repr Nat.toDigits List.asString at h
  have h2 : Nat.toDigitsCore 10 (a + 1) a [] = Nat.toDigitsCore 10 (b + 1) b [] :=
    congrArg String.data h
  have ha := toDigitsCore_val (a + 1) a [] (by omega)
  have hb := toDigitsCore_val (b + 1) b [] (by omega)
  rw [h2] at ha
  simpa using ha.symm.trans hb

theorem natRepr_no_slash (a : Nat) : ∀ c ∈ (Nat.repr a).data, c ≠ '/' := by
  unfold Nat.repr Nat.toDigits List.asString
  exact toDigitsCore_no_slash _ _ _ (by simp)

theorem toString_natCast (j : Nat) : toString ((j : Nat) : Int) = Nat.repr j := rfl

theorem pagePath_inj (c : String) (i j : Nat) (h : pagePath c i = pagePath c j) : i = j := by
  unfold pagePath at h
  rw [toString_natCast, toString_natCast] at h
  have h2 := congrArg String.data h
  simp only [String.data_append, List.append_assoc, List.append_cancel_left_eq,
    List.append_cancel_right_eq] at h2
  exact natRepr_inj i j (String.ext h2)

theorem dropWhile_stop {α : Type} (p : α → Bool) (l1 : List α) (a : α) (l2 : List α)
    (h1 : ∀ x ∈ l1, p x = true) (ha : p a = false) :
    (l1 ++ a :: l2).dropWhile p = a :: l2 := by
  induction l1 with
  | nil => simp [List.dropWhile, ha]
  | cons x xs ih =>
    have hx := h1 x (List.mem_cons_self _ _)
    simp only [List.cons_append, List.dropWhile, hx]
    exact ih (fun y hy => h1 y (List.mem_cons_of_mem _ hy))

theorem parentDir_pagePath (c : String) (j : Nat) : parentDir (pagePath c j) = "/sd" ++ c := by
  unfold parentDir pagePath
  rw [toString_natCast]
  have hdata : ("/sd" ++ (c ++ "/page_" ++ Nat.repr j ++ ".bin")).data.reverse =
      (("page_".data ++ (Nat.repr j).data ++ ".bin".data).reverse) ++
        '/' :: ("/sd" ++ c).data.reverse := by
    simp [String.data_append]
  rw [hdata, dropWhile_stop]
  · apply String.ext
    simp [String.data_append]
  · intro x hx
    have hx2 : x ∈ "page_".data ++ (Nat.repr j).data ++ ".bin".data := List.mem_reverse.mp hx
    have hne : x ≠ '/' := by
      rcases List.mem_append.mp hx2 with h | h
      · rcases List.mem_append.mp h with h | h
        · intro e; rw [e] at h; revert h; decide
        · exact natRepr_no_slash j x h
      · intro e; rw [e] at h; revert h; decide
    simpa using hne
  · simp

theorem onPageComplete_step (fs : SdCard) (sec : Section) (page : List Nat) :
    onPageComplete (fs, sec) page =
      (ofstreamWrite fs (pagePath sec.cachePath sec.pageCount) page,
        { sec with pageCount := sec.pageCount + 1 }) := rfl

theorem pages_numbered (pages : List (List Nat)) : ∀ (fs : SdCard) (sec : Section) (n0 : Nat),
    sec.pageCount = n0 →
    fs.entry ("/sd" ++ sec.cachePath) = some Entry.dir →
    (∀ j : Nat, j < pages.length →
      fs.entry (pagePath sec.cachePath ((n0 + j : Nat) : Int)) ≠ some Entry.dir) →
    (∀ (j : Nat) (hj : j < pages.length),
      (pages.foldl onPageComplete (fs, sec)).1.entry
        (pagePath sec.cachePath ((n0 + j : Nat) : Int)) =
          some (Entry.file (pages.get ⟨j, hj⟩))) ∧
    (∀ p : String, (∀ j : Nat, j < pages.length →
        p ≠ pagePath sec.cachePath ((n0 + j : Nat) : Int)) →
      (pages.foldl onPageComplete (fs, sec)).1.entry p = fs.entry p) := by
  induction pages with
  | nil =>
    intro fs sec n0 _ _ _
    exact ⟨fun j hj => absurd hj (by simp), fun p _ => rfl⟩
  | cons pg ps ih =>
    intro fs sec n0 hn hdir hfree
    rw [List.foldl_cons, onPageComplete_step]
    have hfree0 := hfree 0 (by simp)
    rw [Nat.add_zero, ← hn] at hfree0
    have hwrite : (ofstreamWrite fs (pagePath sec.cachePath sec.pageCount) pg).entry
        (pagePath sec.cachePath sec.pageCount) = some (Entry.file pg) := by
      unfold ofstreamWrite
      rw [hn, parentDir_pagePath, if_pos ⟨hdir, by rw [← hn]; exact hfree0⟩]
      simp
    obtain ⟨i1, i2⟩ := ih (ofstreamWrite fs (pagePath sec.cachePath sec.pageCount) pg)
      { sec with pageCount := sec.pageCount + 1 } (n0 + 1) (by simp [hn])
      ((ofstreamWrite_dir _ _ _ _).mpr hdir)
      (fun j hj => by
        rw [Ne, ofstreamWrite_dir]
        have := hfree (j + 1) (by simp; omega)
        rw [show n0 + (j + 1) = n0 + 1 + j by omega] at this
        exact this)
    have hc : ({ sec with pageCount := sec.pageCount + 1 } : Section).cachePath =
        sec.cachePath := rfl
    rw [hc] at i1 i2
    constructor
    · intro j hj
      cases j with
      | zero =>
        rw [i2]
        · rw [Nat.add_zero, ← hn]; exact hwrite
        · intro j2 _ e
          have := pagePath_inj _ _ _ e
          omega
      | succ j2 =>
        have := i1 j2 (by simpa using hj)
        rw [show n0 + 1 + j2 = n0 + (j2 + 1) by omega] at this
        rw [this]
        rfl
    · intro p hp
      rw [i2]
      · apply ofstreamWrite_entry_ne
        have := hp 0 (by simp)
        rw [Nat.add_zero, ← hn] at this
        exact this
      · intro j2 hj2
        have := hp (j2 + 1) (by simp; omega)
        rw [show n0 + (j2 + 1) = n0 + 1 + j2 by omega] at this
        exact this

/-- C21: page files are numbered `0 .. pageCount - 1` in production order.
Starting from `pageCount = 0` in an existing section cache directory (no page
path being a directory), after `onPageComplete` has been called for each of
`k` pages in turn the counter `pageCount` equals `k`, page file `page_<j>.bin`
holds the `j`-th page received (`j` from 0) for every `j < k`, and every other
path of the storage is as it was before. -/
theorem onPageComplete_numbering (fs : SdCard) (sec : Section) (pages : List (List Nat))
    (h0 : sec.pageCount = 0)
    (hdir : fs.entry ("/sd" ++ sec.cachePath) = some Entry.dir)
    (hfree : ∀ j : Nat, j < pages.length →
      fs.entry (pagePath sec.cachePath j) ≠ some Entry.dir) :
    (pages.foldl onPageComplete (fs, sec)).2.pageCount = pages.length ∧
    (∀ (j : Nat) (hj : j < pages.length),
      (pages.foldl onPageComplete (fs, sec)).1.entry (pagePath sec.cachePath j) =
        some (Entry.file (pages.get ⟨j, hj⟩))) ∧
    (∀ p : String, (∀ j : Nat, j < pages.length → p ≠ pagePath sec.cachePath j) →
      (pages.foldl onPageComplete (fs, sec)).1.entry p = fs.entry p) := by
  obtain ⟨_, f2, _, _⟩ := pages_fold pages fs sec
  obtain ⟨n1, n2⟩ := pages_numbered pages fs sec 0 (by simp [h0]) hdir
    (fun j hj => by rw [Nat.zero_add]; exact hfree j hj)
  refine ⟨by rw [f2, h0]; simp, fun j hj => ?_, fun p hp => ?_⟩
  · have := n1 j hj
    rw [Nat.zero_add] at this
    exact this
  · apply n2
    intro j hj
    rw [Nat.zero_add]
    exact hp j hj

theorem bookCard_pages_free (j : Nat) (hj : j < 2) :
    bookCard.entry (pagePath firstSection.cachePath j) ≠ some Entry.dir := by
  have hc : j = 0 ∨ j = 1 := by omega
  rcases hc with e | e <;> rw [e] <;> decide

/-- Witness for C21: two pages produced into the empty section cache `/e/0`. -/
theorem onPageComplete_numbering_witness :
    ([[1], [2, 3]].foldl onPageComplete (bookCard, firstSection)).2.pageCount =
      ([[1], [2, 3]] : List (List Nat)).length ∧
    ([[1], [2, 3]].foldl onPageComplete (bookCard, firstSection)).1.entry
      (pagePath firstSection.cachePath (1 : Nat)) = some (Entry.file [2, 3]) :=
  ⟨(onPageComplete_numbering bookCard firstSection [[1], [2, 3]] rfl (by decide)
      bookCard_pages_free).1,
   (onPageComplete_numbering bookCard firstSection [[1], [2, 3]] rfl (by decide)
      bookCard_pages_free).2.1 1 (by decide)⟩


/-! ## The 32 bits per pixel format -/

theorem rowRead_byte_lt (b : Bitmap) (j : Nat) : (rowRead b).1.getD j 0 < 256 := by
  by_cases hj : j < (rowRead b).1.length
  · rw [rowRead_getD b j hj]
    exact Nat.mod_lt _ (by norm_num)
  · rw [List.getD_eq_default _ _ (by omega)]
    norm_num

theorem rowBegin_file_irrelevant (b : Bitmap) (f2 : FsFile) :
    rowBegin { b with file := f2 } =
      { rowBegin b with file := (rowRead { b with file := f2 }).2 } := by
  unfold rowBegin beginRow useFS
  dsimp only
  split <;> rfl

/-- C23: for 32 bits per pixel rows the alpha/reserved channel is ignored.
Two sessions that agree on everything but their files, whose next rows have
the same length and differ only in the fourth byte of each pixel, get from
`readNextRow` the same result code, the same output bytes and the same
error-diffusion state and row counter; each pixel's luminance is
`(77*R + 150*G + 29*B) >> 8`, that is the integer quotient by 256, with R, G
and B the bytes 2, 1 and 0 of the pixel. -/
theorem readNextRow_ignores_alpha (b : Bitmap) (f2 : FsFile) (hbpp : b.bpp = 32)
    (hlen : (rowRead { b with file := f2 }).1.length = (rowRead b).1.length)
    (hsame : ∀ j : Nat, j % 4 ≠ 3 →
      (rowRead { b with file := f2 }).1.getD j 0 = (rowRead b).1.getD j 0) :
    (readNextRow { b with file := f2 }).1 = (readNextRow b).1 ∧
    (readNextRow { b with file := f2 }).2.1 = (readNextRow b).2.1 ∧
    (readNextRow { b with file := f2 }).2.2.errorCurRow = (readNextRow b).2.2.errorCurRow ∧
    (readNextRow { b with file := f2 }).2.2.errorNextRow = (readNextRow b).2.2.errorNextRow ∧
    (readNextRow { b with file := f2 }).2.2.prevRowY = (readNextRow b).2.2.prevRowY ∧
    (∀ x : Nat, pixelLum b x =
      (77 * (rowRead b).1.getD (4 * x + 2) 0 + 150 * (rowRead b).1.getD (4 * x + 1) 0 +
        29 * (rowRead b).1.getD (4 * x) 0) / 256) := by
  have hb : (rowBegin b).bpp = 32 := by simp [rowBegin, hbpp]
  have hl1 : lumAt (rowBegin b).bpp (rowBegin b).paletteLum (rowRead b).1 =
      some (fun x => lumOf ((rowRead b).1.getD (4 * x) 0) ((rowRead b).1.getD (4 * x + 1) 0)
        ((rowRead b).1.getD (4 * x + 2) 0)) := by
    rw [hb]
    unfold lumAt
    rw [if_pos rfl]
    congr 1
    funext x
    exact lumOf_le _ _ _ (rowRead_byte_lt b _) (rowRead_byte_lt b _) (rowRead_byte_lt b _)
  have hl2 : lumAt (rowBegin b).bpp (rowBegin b).paletteLum (rowRead { b with file := f2 }).1 =
      lumAt (rowBegin b).bpp (rowBegin b).paletteLum (rowRead b).1 := by
    rw [hb]
    unfold lumAt
    rw [if_pos rfl, if_pos rfl]
    congr 1
    funext x
    rw [hsame (4 * x) (by omega), hsame (4 * x + 1) (by omega), hsame (4 * x + 2) (by omega)]
  have hu : useFS { b with file := f2 } = useFS b := rfl
  have hr : ({ b with file := f2 } : Bitmap).rowBytes = b.rowBytes := rfl
  have hpix : ∀ x : Nat, pixelLum b x =
      (77 * (rowRead b).1.getD (4 * x + 2) 0 + 150 * (rowRead b).1.getD (4 * x + 1) 0 +
        29 * (rowRead b).1.getD (4 * x) 0) / 256 := by
    intro x
    unfold pixelLum
    rw [hl1]
    show lumOf _ _ _ = _
    unfold lumOf
    rw [Nat.shiftRight_eq_div_pow]
  rw [readNextRow_eq, readNextRow_eq b, hlen, hr, rowBegin_file_irrelevant, hu]
  dsimp only
  rw [hl2, hl1]
  by_cases hs : ((rowRead b).1.length : Int) ≠ b.rowBytes
  · rw [if_pos hs, if_pos hs]
    exact ⟨rfl, rfl, rfl, rfl, rfl, hpix⟩
  · rw [if_neg hs, if_neg hs]
    dsimp only
    cases useFS b
    · exact ⟨rfl, rfl, rfl, rfl, rfl, hpix⟩
    · exact ⟨rfl, rfl, rfl, rfl, rfl, hpix⟩

set_option maxRecDepth 100000 in
theorem rgba2x1_rows :
    (parseHeaders (freshBitmap true (rgba2x1 0 255))).2.bpp = 32 ∧
    (rowRead (parseHeaders (freshBitmap true (rgba2x1 0 255))).2).1 =
      [10, 20, 30, 0, 200, 210, 220, 255] ∧
    (rowRead { (parseHeaders (freshBitmap true (rgba2x1 0 255))).2 with
      file := (parseHeaders (freshBitmap true (rgba2x1 99 7))).2.file }).1 =
      [10, 20, 30, 99, 200, 210, 220, 7] := by
  decide

theorem rgba2x1_same (j : Nat) (hj : j % 4 ≠ 3) :
    (rowRead { (parseHeaders (freshBitmap true (rgba2x1 0 255))).2 with
      file := (parseHeaders (freshBitmap true (rgba2x1 99 7))).2.file }).1.getD j 0 =
    (rowRead (parseHeaders (freshBitmap true (rgba2x1 0 255))).2).1.getD j 0 := by
  rw [rgba2x1_rows.2.2, rgba2x1_rows.2.1]
  by_cases h8 : j < 8
  · interval_cases j <;> first | rfl | exact absurd rfl hj
  · rw [List.getD_eq_default _ _ (by simp; omega), List.getD_eq_default _ _ (by simp; omega)]

/-- Witness for C23: the 2x1 image with fourth bytes 0 and 255 against the
same image with fourth bytes 99 and 7, in Floyd-Steinberg mode; its first
pixel (B, G, R) = (10, 20, 30) has luminance `(77*30 + 150*20 + 29*10) / 256 = 21`. -/
theorem readNextRow_ignores_alpha_witness :
    (readNextRow { (parseHeaders (freshBitmap true (rgba2x1 0 255))).2 with
      file := (parseHeaders (freshBitmap true (rgba2x1 99 7))).2.file }).2.1 =
    (readNextRow (parseHeaders (freshBitmap true (rgba2x1 0 255))).2).2.1 ∧
    pixelLum (parseHeaders (freshBitmap true (rgba2x1 0 255))).2 0 = 21 :=
  ⟨(readNextRow_ignores_alpha (parseHeaders (freshBitmap true (rgba2x1 0 255))).2
      (parseHeaders (freshBitmap true (rgba2x1 99 7))).2.file rgba2x1_rows.1
      (by rw [rgba2x1_rows.2.2, rgba2x1_rows.2.1]; rfl) rgba2x1_same).2.1,
   ((readNextRow_ignores_alpha (parseHeaders (freshBitmap true (rgba2x1 0 255))).2
      (parseHeaders (freshBitmap true (rgba2x1 99 7))).2.file rgba2x1_rows.1
      (by rw [rgba2x1_rows.2.2, rgba2x1_rows.2.1]; rfl) rgba2x1_same).2.2.2.2.2 0).trans
     (by rw [rgba2x1_rows.2.1]; rfl)⟩

/-! ## The sleep screen image -/

/-- Counterexample to C26: the 8x2 bitmap whose only black pixel is the
top-left one (column 0, row 0 from the top). A clockwise quarter turn puts it
at column `height - 1 - 0 = 1`, row 0 of the display image;
`convertBmpToBWdisplayData` leaves that pixel white and clears column 0,
row 7 instead, which is where a counter-clockwise quarter turn puts it. -/
theorem convertBmpToBWdisplayData_turns_counter_clockwise :
    srcPixelBlack topLeftBlack8x2 8 2 0 0 = true ∧
    (convertBmpToBWdisplayData topLeftBlack8x2 8 2 (whiteImage 8 2)).displayImage =
      [255, 255, 255, 255, 255, 255, 255, 127] ∧
    destPixelBlack
      (convertBmpToBWdisplayData topLeftBlack8x2 8 2 (whiteImage 8 2)).displayImage 1 1 0 =
      false ∧
    destPixelBlack
      (convertBmpToBWdisplayData topLeftBlack8x2 8 2 (whiteImage 8 2)).displayImage 1 0 7 =
      true := by
  decide

theorem wrap32_inRange (i : Int) (h0 : -2147483648 ≤ i) (h1 : i < 2147483648) :
    wrap32 i = i :=
  toInt32_roundtrip i h0 h1

theorem destIdx_wrap (width bytesPerRow destByteX : Int) (xByte bit : Nat)
    (hx0 : 0 ≤ destByteX) (hx1 : destByteX < bytesPerRow)
    (hb : (xByte : Int) * 8 + (bit : Int) ≤ width - 1)
    (hD : bytesPerRow * width < 2147483648) :
    wrap32 (wrap32 (wrap32 (wrap32 (width - 1) - wrap32 (wrap32 ((xByte : Int) * 8) + (bit : Int)))
      * bytesPerRow) + destByteX) =
      (width - 1 - ((xByte : Int) * 8 + (bit : Int))) * bytesPerRow + destByteX ∧
    0 ≤ (width - 1 - ((xByte : Int) * 8 + (bit : Int))) * bytesPerRow + destByteX ∧
    (width - 1 - ((xByte : Int) * 8 + (bit : Int))) * bytesPerRow + destByteX <
      bytesPerRow * width := by
  have hbpr : 1 ≤ bytesPerRow := by omega
  have hw1 : 1 ≤ width := by omega
  have hwle : width ≤ bytesPerRow * width := by nlinarith
  have hy0 : 0 ≤ width - 1 - ((xByte : Int) * 8 + (bit : Int)) := by omega
  have hy1 : width - 1 - ((xByte : Int) * 8 + (bit : Int)) ≤ width - 1 := by omega
  have hp0 := mul_nonneg hy0 (show (0 : Int) ≤ bytesPerRow by omega)
  have hp1 := mul_le_mul_of_nonneg_right hy1 (show (0 : Int) ≤ bytesPerRow by omega)
  have hp2 : (width - 1) * bytesPerRow = bytesPerRow * width - bytesPerRow := by ring
  rw [wrap32_inRange ((xByte : Int) * 8) (by omega) (by omega),
    wrap32_inRange ((xByte : Int) * 8 + (bit : Int)) (by omega) (by omega),
    wrap32_inRange (width - 1) (by omega) (by omega),
    wrap32_inRange (width - 1 - ((xByte : Int) * 8 + (bit : Int))) (by omega) (by omega),
    wrap32_inRange ((width - 1 - ((xByte : Int) * 8 + (bit : Int))) * bytesPerRow)
      (by omega) (by omega),
    wrap32_inRange ((width - 1 - ((xByte : Int) * 8 + (bit : Int))) * bytesPerRow + destByteX)
      (by omega) (by omega)]
  refine ⟨rfl, by omega, by omega⟩

theorem srcIdx_wrap (height q : Int) (y : Nat) (hy : (y : Int) < height) (hq : 0 ≤ q)
    (hH : height < 2147483648) (hB : height * q < 2147483648) :
    wrap32 (wrap32 (wrap32 (height - 1) - (y : Int)) * q) = (height - 1 - (y : Int)) * q ∧
    0 ≤ (height - 1 - (y : Int)) * q ∧
    (height - 1 - (y : Int)) * q ≤ height * q - q := by
  have hrow0 : 0 ≤ height - 1 - (y : Int) := by omega
  have hp0 := mul_nonneg hrow0 hq
  have hp1 : (height - 1 - (y : Int)) * q ≤ (height - 1) * q :=
    mul_le_mul_of_nonneg_right (by omega) hq
  have hp2 : (height - 1) * q = height * q - q := by ring
  rw [wrap32_inRange (height - 1) (by omega) (by omega),
    wrap32_inRange (height - 1 - (y : Int)) (by omega) (by omega),
    wrap32_inRange ((height - 1 - (y : Int)) * q) (by omega) (by omega)]
  refine ⟨rfl, hp0, by omega⟩

theorem fsAdjusted_range (g : Int) (x : Nat) (cur : List Int) :
    0 ≤ fsAdjusted g x cur ∧ fsAdjusted g x cur ≤ 255 := by
  unfold fsAdjusted
  omega

theorem shares_range (a : Int) (h0 : 0 ≤ a) (h1 : a ≤ 255) :
    (-31 ≤ (diffusedShares (a - fsReconstruction a)).1 ∧
      (diffusedShares (a - fsReconstruction a)).1 ≤ 25) ∧
    (-14 ≤ (diffusedShares (a - fsReconstruction a)).2.1 ∧
      (diffusedShares (a - fsReconstruction a)).2.1 ≤ 11) ∧
    (-22 ≤ (diffusedShares (a - fsReconstruction a)).2.2.1 ∧
      (diffusedShares (a - fsReconstruction a)).2.2.1 ≤ 18) ∧
    (-5 ≤ (diffusedShares (a - fsReconstruction a)).2.2.2 ∧
      (diffusedShares (a - fsReconstruction a)).2.2.2 ≤ 3) := by
  unfold diffusedShares fsReconstruction
  simp only [shiftRight4_div]
  split_ifs <;> omega

theorem addAt_getD_ne (buf : List Int) (i j : Nat) (d : Int) (h : j ≠ i) :
    (addAt buf i d).getD j 0 = buf.getD j 0 := by
  rw [addAt_getD, if_neg (fun c => h c.1)]

theorem addAt_getD_self (buf : List Int) (i : Nat) (d : Int)
    (h0 : -32768 ≤ buf.getD i 0 + d) (h1 : buf.getD i 0 + d ≤ 32767) :
    (addAt buf i d).getD i 0 = buf.getD i 0 + d ∨ (addAt buf i d).getD i 0 = buf.getD i 0 := by
  rw [addAt_getD]
  by_cases hi : i < buf.length
  · left
    rw [if_pos ⟨rfl, hi⟩, wrap16_id _ h0 h1]
  · right
    rw [if_neg (fun c => hi c.2)]

theorem quantizeFloydSteinberg_shares (gray : Int) (x : Nat) (w : Int) (cur next : List Int) :
    quantizeFloydSteinberg gray x w cur next false =
      (fsLevel (fsAdjusted gray x cur),
       addAt cur (x + 2)
         (diffusedShares (fsAdjusted gray x cur - fsReconstruction (fsAdjusted gray x cur))).1,
       addAt (addAt (addAt next x
         (diffusedShares
           (fsAdjusted gray x cur - fsReconstruction (fsAdjusted gray x cur))).2.1)
         (x + 1)
         (diffusedShares
           (fsAdjusted gray x cur - fsReconstruction (fsAdjusted gray x cur))).2.2.1)
         (x + 2)
         (diffusedShares
           (fsAdjusted gray x cur - fsReconstruction (fsAdjusted gray x cur))).2.2.2) :=
  quantizeFloydSteinberg_forward gray x w cur next

theorem diffusion_step (g : Int) (n : Nat) (w : Int) (cur next : List Int)
    (h : DiffusionInv n cur next) :
    DiffusionInv (n + 1) (quantizeFloydSteinberg g n w cur next false).2.1
      (quantizeFloydSteinberg g n w cur next false).2.2 := by
  obtain ⟨c1, c2, n1, n2, n3, n4⟩ := h
  obtain ⟨a0, a1⟩ := fsAdjusted_range g n cur
  obtain ⟨s7, s3, s5, s1⟩ := shares_range (fsAdjusted g n cur) a0 a1
  rw [quantizeFloydSteinberg_shares]
  dsimp only
  generalize (diffusedShares (fsAdjusted g n cur - fsReconstruction (fsAdjusted g n cur))).1 = d7
    at s7 ⊢
  generalize (diffusedShares (fsAdjusted g n cur - fsReconstruction (fsAdjusted g n cur))).2.1 = d3
    at s3 ⊢
  generalize
    (diffusedShares (fsAdjusted g n cur - fsReconstruction (fsAdjusted g n cur))).2.2.1 = d5
    at s5 ⊢
  generalize
    (diffusedShares (fsAdjusted g n cur - fsReconstruction (fsAdjusted g n cur))).2.2.2 = d1
    at s1 ⊢
  have hc2 := c2 (n + 2) (le_refl _)
  have hn4 : next.getD (n + 1 + 1) 0 = 0 := n4 (n + 1 + 1) (by omega)
  have e1 : (addAt next n d3).getD (n + 1) 0 = next.getD (n + 1) 0 :=
    addAt_getD_ne _ _ _ _ (by omega)
  have e2 : (addAt (addAt next n d3) (n + 1) d5).getD (n + 1 + 1) 0 =
      next.getD (n + 1 + 1) 0 := by
    rw [addAt_getD_ne _ _ _ _ (by omega), addAt_getD_ne _ _ _ _ (by omega)]
  refine ⟨fun j => ?_, fun j hj => ?_, fun j hj => ?_, ?_, ?_, fun j hj => ?_⟩
  · by_cases hj : j = n + 2
    · rw [hj]
      rcases addAt_getD_self cur (n + 2) d7 (by omega) (by omega) with e | e <;> rw [e] <;> omega
    · rw [addAt_getD_ne _ _ _ _ hj]
      exact c1 j
  · rw [addAt_getD_ne _ _ _ _ (by omega)]
    exact c2 j (by omega)
  · rw [addAt_getD_ne _ _ _ _ (by omega), addAt_getD_ne _ _ _ _ (by omega)]
    by_cases hjn : j = n
    · rw [hjn]
      rcases addAt_getD_self next n d3 (by omega) (by omega) with e | e <;> rw [e] <;> omega
    · rw [addAt_getD_ne _ _ _ _ hjn]
      exact n1 j (by omega)
  · rw [addAt_getD_ne _ _ _ _ (by omega)]
    rcases addAt_getD_self (addAt next n d3) (n + 1) d5 (by omega) (by omega) with e | e <;>
      rw [e] <;> omega
  · rcases addAt_getD_self (addAt (addAt next n d3) (n + 1) d5) (n + 1 + 1) d1 (by omega)
      (by omega) with e | e <;> rw [e] <;> omega
  · rw [addAt_getD_ne _ _ _ _ (by omega), addAt_getD_ne _ _ _ _ (by omega),
      addAt_getD_ne _ _ _ _ (by omega)]
    exact n4 j (by omega)

theorem packPixel_fields (w p : Int) (s : PackState) (lum : Nat) :
    (packPixel true w p s lum).currentX = s.currentX + 1 ∧
    (packPixel true w p s lum).errorCurRow =
      (quantizeFloydSteinberg (adjustPixel lum) s.currentX w s.errorCurRow s.errorNextRow
        false).2.1 ∧
    (packPixel true w p s lum).errorNextRow =
      (quantizeFloydSteinberg (adjustPixel lum) s.currentX w s.errorCurRow s.errorNextRow
        false).2.2 := by
  unfold packPixel pixelQuant
  dsimp only
  split <;> exact ⟨rfl, rfl, rfl⟩

theorem diffusion_loop (w p : Int) (lf : Nat → Nat) (s0 : PackState) (hx : s0.currentX = 0)
    (h0 : DiffusionInv 0 s0.errorCurRow s0.errorNextRow) (m : Nat) :
    (pixelLoop true w p lf m s0).currentX = m ∧
    DiffusionInv m (pixelLoop true w p lf m s0).errorCurRow
      (pixelLoop true w p lf m s0).errorNextRow := by
  induction m with
  | zero => exact ⟨hx, h0⟩
  | succ m ih =>
    rw [pixelLoop_succ]
    obtain ⟨f1, f2, f3⟩ := packPixel_fields w p (pixelLoop true w p lf m s0) (lf m)
    rw [f1, f2, f3, ih.1]
    exact ⟨rfl, diffusion_step _ _ _ _ _ ih.2⟩

theorem diffusionInv_rows (m : Nat) (cur next : List Int) (h : DiffusionInv m cur next) :
    (∀ j : Nat, -72 ≤ cur.getD j 0 ∧ cur.getD j 0 ≤ 57) ∧
    (∀ j : Nat, -41 ≤ next.getD j 0 ∧ next.getD j 0 ≤ 32) := by
  obtain ⟨c1, _, n1, n2, n3, n4⟩ := h
  refine ⟨c1, fun j => ?_⟩
  by_cases h1 : j < m
  · exact n1 j h1
  · by_cases h2 : j = m
    · rw [h2]; omega
    · by_cases h3 : j = m + 1
      · rw [h3]; omega
      · rw [n4 j (by omega)]; omega

theorem getD_bounds_mem (lo hi : Int) (row : List Int)
    (h : ∀ j : Nat, lo ≤ row.getD j 0 ∧ row.getD j 0 ≤ hi) : RowWithin lo hi row := by
  intro v hv
  obtain ⟨i, hi2, e⟩ := List.getElem_of_mem hv
  have := h i
  rw [List.getD_eq_getElem _ _ hi2, e] at this
  exact this

theorem replicate_zero_getD (n j : Nat) : (List.replicate n (0 : Int)).getD j 0 = 0 := by
  by_cases h : j < n
  · rw [List.getD_eq_getElem _ _ (by simpa using h)]
    simp
  · rw [List.getD_eq_default _ _ (by simpa using h)]

theorem rowBegin_bounded (b : Bitmap) (h : BoundedRows b) :
    useFS b = true ∧ (rowBegin b).useFloydSteinberg = true ∧ 0 ≤ (rowBegin b).prevRowY ∧
    (rowBegin b).width = b.width ∧
    ∃ c n, (rowBegin b).errorCurRow = some c ∧ (rowBegin b).errorNextRow = some n ∧
      c.length = (b.width + 2).toNat ∧ n.length = (b.width + 2).toNat ∧
      (∀ j : Nat, -41 ≤ c.getD j 0 ∧ c.getD j 0 ≤ 32) ∧ (∀ j : Nat, n.getD j 0 = 0) := by
  obtain ⟨hfs, hp, c, n, hc, hn, lc, ln, bc, bn, hfirst⟩ := h
  have hu : useFS b = true := by
    unfold useFS
    rw [hfs, hc, hn]
    rfl
  have hu2 : useFS { b with file := (rowRead b).2 } = true := hu
  refine ⟨hu, ?_⟩
  unfold rowBegin beginRow
  dsimp only
  rw [hu2]
  by_cases h1 : b.prevRowY = -1
  · have hd : decide (b.prevRowY ≠ -1) = false := by simp [h1]
    rw [hd, if_neg (by decide)]
    obtain ⟨q1, q2⟩ := hfirst h1
    exact ⟨hfs, by show 0 ≤ b.prevRowY + 1; omega, rfl, c, n, hc, hn, lc, ln, q1, q2⟩
  · have hd : decide (b.prevRowY ≠ -1) = true := by simp [h1]
    rw [hd, if_pos (by decide)]
    refine ⟨hfs, by show 0 ≤ b.prevRowY + 1; omega, rfl, n, memsetZero c (b.width + 2).toNat, hn, by rw [hc]; rfl, ln,
      by rw [memsetZero_length]; exact lc, bn, fun j => ?_⟩
    rw [← lc, memsetZero_full]
    exact replicate_zero_getD _ _

theorem diffusionInv_start (c n : List Int)
    (hc : ∀ j : Nat, -41 ≤ c.getD j 0 ∧ c.getD j 0 ≤ 32) (hn : ∀ j : Nat, n.getD j 0 = 0) :
    DiffusionInv 0 c n := by
  refine ⟨fun j => ?_, fun j _ => hc j, fun j hj => absurd hj (by omega), ?_, ?_,
    fun j _ => hn j⟩
  · have := hc j; omega
  · rw [hn 0]; omega
  · rw [hn (0 + 1)]; omega

theorem readNextRow_bounded (b : Bitmap) (h : BoundedRows b) :
    BoundedRows (readNextRow b).2.2 := by
  obtain ⟨hu, hfs1, hp1, hw1, c, n, hc, hn, lc, ln, bc, bn⟩ := rowBegin_bounded b h
  have hbound : ∀ j : Nat, -72 ≤ c.getD j 0 ∧ c.getD j 0 ≤ 57 := fun j => by
    have := bc j; omega
  have hbn : ∀ j : Nat, -41 ≤ n.getD j 0 ∧ n.getD j 0 ≤ 32 := fun j => by
    rw [bn j]; omega
  rw [readNextRow_eq]
  split
  · obtain ⟨a1, a2, rest⟩ := h
    exact ⟨a1, a2, rest⟩
  · split
    · show BoundedRows (rowBegin b)
      exact ⟨hfs1, by omega, c, n, hc, hn, by rw [hw1]; exact lc, by rw [hw1]; exact ln,
        hbound, hbn, fun e => absurd e (by omega)⟩
    · rename_i lf _
      dsimp only
      rw [hu]
      have hs0 : (packInit (rowBegin b)).currentX = 0 := rfl
      have hcur : (packInit (rowBegin b)).errorCurRow = c := by
        unfold packInit; rw [hc]; rfl
      have hnext : (packInit (rowBegin b)).errorNextRow = n := by
        unfold packInit; rw [hn]; rfl
      have hinv := (diffusion_loop (rowBegin b).width (rowBegin b).prevRowY lf
        (packInit (rowBegin b)) hs0 (by rw [hcur, hnext]; exact diffusionInv_start c n bc bn)
        (rowBegin b).width.toNat).2
      obtain ⟨r1, r2⟩ := diffusionInv_rows _ _ _ hinv
      obtain ⟨l1, l2⟩ := pixelLoop_lengths true (rowBegin b).width (rowBegin b).prevRowY lf
        (rowBegin b).width.toNat (packInit (rowBegin b))
      refine ⟨hfs1, ?_, _, _, rfl, rfl, ?_, ?_, r1, r2, fun e => ?_⟩
      · show -1 ≤ (rowBegin b).prevRowY
        omega
      · rw [l1, hcur]
        show c.length = ((rowBegin b).width + 2).toNat
        rw [hw1]; exact lc
      · rw [l2, hnext]
        show n.length = ((rowBegin b).width + 2).toNat
        rw [hw1]; exact ln
      · have e2 : (rowBegin b).prevRowY = -1 := e
        omega

theorem readRows_bounded (k : Nat) : ∀ b : Bitmap, BoundedRows b → BoundedRows (readRows k b).2 := by
  induction k with
  | zero => intro b h; exact h
  | succ k ih =>
    intro b h
    unfold readRows
    exact ih _ (readNextRow_bounded b h)

theorem parseHeaders_bounded (b : Bitmap) (hfs : b.useFloydSteinberg = true)
    (hok : (parseHeaders b).1 = BmpReaderError.Ok) : BoundedRows (parseHeaders b).2 := by
  obtain ⟨_, _, hp⟩ := parseHeaders_ok b hok
  obtain ⟨_, _, _, _, _, _, _, _, _, hu, hrows, _⟩ := hp
  obtain ⟨hc, hn, hy⟩ := hrows hfs
  refine ⟨by rw [hu]; exact hfs, by omega, _, _, hc, hn, by simp, by simp, fun j => ?_,
    fun j => ?_, fun _ => ⟨fun j => ?_, fun j => replicate_zero_getD _ _⟩⟩
  · rw [replicate_zero_getD]; omega
  · rw [replicate_zero_getD]; omega
  · rw [replicate_zero_getD]; omega

/-- C27: under the left-to-right scan `readNextRow` uses, the error
accumulators stay bounded for every image and any number of rows. In a
Floyd-Steinberg session, after a successful `parseHeaders` and any number `k`
of calls of `readNextRow`, every entry of `errorCurRow` and of `errorNextRow`
lies in `[-72, 57]`; the same holds after any number `m` of pixels of the
following row, whatever the luminances of the row are; and each of the four
sums the next pixel stores into the rows lies in `[-72, 57]` before it is
truncated to 16 bits, so no store overflows. -/
theorem errorRows_bounded (b : Bitmap) (hfs : b.useFloydSteinberg = true)
    (hok : (parseHeaders b).1 = BmpReaderError.Ok) (k : Nat) :
    (∃ c n, (readRows k (parseHeaders b).2).2.errorCurRow = some c ∧
      (readRows k (parseHeaders b).2).2.errorNextRow = some n ∧
      RowWithin (-72) 57 c ∧ RowWithin (-72) 57 n) ∧
    (∀ (lf : Nat → Nat) (m : Nat),
      RowWithin (-72) 57
        (pixelLoop true (rowBegin (readRows k (parseHeaders b).2).2).width
          (rowBegin (readRows k (parseHeaders b).2).2).prevRowY lf m
          (packInit (rowBegin (readRows k (parseHeaders b).2).2))).errorCurRow ∧
      RowWithin (-72) 57
        (pixelLoop true (rowBegin (readRows k (parseHeaders b).2).2).width
          (rowBegin (readRows k (parseHeaders b).2).2).prevRowY lf m
          (packInit (rowBegin (readRows k (parseHeaders b).2).2))).errorNextRow) ∧
    (∀ (lf : Nat → Nat) (m : Nat) (gray : Int) (cur next : List Int) (e : Int),
      cur = (pixelLoop true (rowBegin (readRows k (parseHeaders b).2).2).width
          (rowBegin (readRows k (parseHeaders b).2).2).prevRowY lf m
          (packInit (rowBegin (readRows k (parseHeaders b).2).2))).errorCurRow →
      next = (pixelLoop true (rowBegin (readRows k (parseHeaders b).2).2).width
          (rowBegin (readRows k (parseHeaders b).2).2).prevRowY lf m
          (packInit (rowBegin (readRows k (parseHeaders b).2).2))).errorNextRow →
      e = fsAdjusted gray m cur - fsReconstruction (fsAdjusted gray m cur) →
      (-72 ≤ cur.getD (m + 2) 0 + (diffusedShares e).1 ∧
        cur.getD (m + 2) 0 + (diffusedShares e).1 ≤ 57) ∧
      (-72 ≤ next.getD m 0 + (diffusedShares e).2.1 ∧
        next.getD m 0 + (diffusedShares e).2.1 ≤ 57) ∧
      (-72 ≤ next.getD (m + 1) 0 + (diffusedShares e).2.2.1 ∧
        next.getD (m + 1) 0 + (diffusedShares e).2.2.1 ≤ 57) ∧
      (-72 ≤ next.getD (m + 2) 0 + (diffusedShares e).2.2.2 ∧
        next.getD (m + 2) 0 + (diffusedShares e).2.2.2 ≤ 57)) := by
  have hb := readRows_bounded k _ (parseHeaders_bounded b hfs hok)
  have hloop : ∀ (lf : Nat → Nat) (m : Nat),
      DiffusionInv m
        (pixelLoop true (rowBegin (readRows k (parseHeaders b).2).2).width
          (rowBegin (readRows k (parseHeaders b).2).2).prevRowY lf m
          (packInit (rowBegin (readRows k (parseHeaders b).2).2))).errorCurRow
        (pixelLoop true (rowBegin (readRows k (parseHeaders b).2).2).width
          (rowBegin (readRows k (parseHeaders b).2).2).prevRowY lf m
          (packInit (rowBegin (readRows k (parseHeaders b).2).2))).errorNextRow := by
    intro lf m
    obtain ⟨_, _, _, _, c, n, hc, hn, _, _, bc, bn⟩ := rowBegin_bounded _ hb
    have hcur : (packInit (rowBegin (readRows k (parseHeaders b).2).2)).errorCurRow = c := by
      unfold packInit; rw [hc]; rfl
    have hnext : (packInit (rowBegin (readRows k (parseHeaders b).2).2)).errorNextRow = n := by
      unfold packInit; rw [hn]; rfl
    exact (diffusion_loop _ _ lf _ rfl
      (by rw [hcur, hnext]; exact diffusionInv_start c n bc bn) m).2
  refine ⟨?_, fun lf m => ?_, ?_⟩
  · obtain ⟨_, _, c, n, hc, hn, _, _, bc, bn, _⟩ := hb
    exact ⟨c, n, hc, hn, getD_bounds_mem _ _ _ bc,
      getD_bounds_mem _ _ _ (fun j => by have := bn j; omega)⟩
  · obtain ⟨r1, r2⟩ := diffusionInv_rows _ _ _ (hloop lf m)
    exact ⟨getD_bounds_mem _ _ _ r1, getD_bounds_mem _ _ _ (fun j => by have := r2 j; omega)⟩
  · intro lf m gray cur next e hcur hnext he
    obtain ⟨_, c2, _, n2, n3, n4⟩ := hloop lf m
    rw [← hcur] at c2
    rw [← hnext] at n2 n3 n4
    obtain ⟨a0, a1⟩ := fsAdjusted_range gray m cur
    obtain ⟨s7, s3, s5, s1⟩ := shares_range (fsAdjusted gray m cur) a0 a1
    rw [← he] at s7 s3 s5 s1
    have hc2 := c2 (m + 2) (le_refl _)
    have hn4 := n4 (m + 2) (le_refl _)
    refine ⟨?_, ?_, ?_, ?_⟩ <;> omega

/-- Witness for C27: the 40x4 sample in Floyd-Steinberg mode, after two rows. -/
theorem errorRows_bounded_witness :
    ∃ c n, (readRows 2 (parseHeaders (freshBitmap true gray40x4)).2).2.errorCurRow = some c ∧
      (readRows 2 (parseHeaders (freshBitmap true gray40x4)).2).2.errorNextRow = some n ∧
      RowWithin (-72) 57 c ∧ RowWithin (-72) 57 n :=
  (errorRows_bounded (freshBitmap true gray40x4) rfl parseHeaders_gray40x4_fs_ok 2).1


/-! ## The turn the conversion performs -/

theorem clearedBits_congr (P Q : Nat → Nat → Prop) (img0 : List Nat) (st : ConvertState)
    (h : ∀ i j, P i j ↔ Q i j) (hc : ClearedBits P img0 st) : ClearedBits Q img0 st := by
  refine ⟨hc.1, fun i j hj => ?_⟩
  rw [hc.2 i j hj, h i j]

theorem bitMasks_pow (k : Nat) (hk : k < 8) : bitMasks.getD k 0 = 2 ^ (7 - k) := by
  interval_cases k <;> rfl

theorem and_mask_zero (x k : Nat) (hk : k < 8) :
    x &&& bitMasks.getD k 0 = 0 ↔ x.testBit (7 - k) = false := by
  rw [bitMasks_pow k hk, Nat.and_two_pow]
  cases x.testBit (7 - k) <;> simp

theorem clearDestBit_cleared (P : Nat → Nat → Prop) (img0 : List Nat) (st : ConvertState)
    (i0 k : Nat) (hc : ClearedBits P img0 st) (hi : i0 < img0.length) (hk : k < 8) :
    ClearedBits (fun i j => P i j ∨ (i = i0 ∧ j = 7 - k)) img0
      (clearDestBit st (i0 : Int) (bitMasks.getD k 0)) := by
  obtain ⟨hl, hb⟩ := hc
  have hneg : ¬ ((i0 : Int) < 0) := by omega
  unfold clearDestBit
  rw [if_neg hneg, Int.toNat_ofNat]
  refine ⟨by rw [List.length_set, hl], fun i j hj => ?_⟩
  unfold bitAt at hb ⊢
  by_cases hii : i = i0
  · subst hii
    have hget : (st.displayImage.set i
        (wrapU8 (st.displayImage.getD i 0) &&& (0xFF ^^^ bitMasks.getD k 0))).getD i 0 =
        wrapU8 (st.displayImage.getD i 0) &&& (0xFF ^^^ bitMasks.getD k 0) := by
      simp only [List.getD_eq_getElem?_getD, List.getElem?_set]
      simp [hl, hi]
    rw [hget, bitMasks_pow k hk, Nat.testBit_and, Nat.testBit_xor, Nat.testBit_two_pow]
    have h255 : (0xFF : Nat).testBit j = true := by
      have := Nat.testBit_two_pow_sub_one 8 j
      simpa [hj] using this
    have hw : (wrapU8 (st.displayImage.getD i 0)).testBit j = (st.displayImage.getD i 0).testBit j := by
      unfold wrapU8
      have := Nat.testBit_mod_two_pow (st.displayImage.getD i 0) 8 j
      simpa [hj] using this
    rw [h255, hw]
    have hx1 : (true ^^ true) = false := rfl
    have hx2 : (true ^^ false) = true := rfl
    by_cases hjk : 7 - k = j
    · rw [decide_eq_true hjk, hx1, Bool.and_false]
      constructor
      · intro h; exact absurd h (by decide)
      · intro h; exact absurd (Or.inr ⟨rfl, hjk.symm⟩) h.2
    · rw [decide_eq_false hjk, hx2, Bool.and_true, hb i j hj]
      constructor
      · rintro ⟨a, b⟩
        exact ⟨a, fun h => h.elim b (fun c => hjk c.2.symm)⟩
      · rintro ⟨a, b⟩
        exact ⟨a, fun p => b (Or.inl p)⟩
  · have hget : (st.displayImage.set i0
        (wrapU8 (st.displayImage.getD i0 0) &&& (0xFF ^^^ bitMasks.getD k 0))).getD i 0 =
        st.displayImage.getD i 0 := by
      have hne : ¬ i0 = i := fun e => hii e.symm
      simp only [List.getD_eq_getElem?_getD, List.getElem?_set, hne, ↓reduceIte]
    rw [hget, hb i j hj]
    constructor
    · rintro ⟨a, b⟩
      exact ⟨a, fun h => h.elim b (fun c => hii c.1)⟩
    · rintro ⟨a, b⟩
      exact ⟨a, fun p => b (Or.inl p)⟩

theorem cleared_fold (img0 : List Nat) (f : ConvertState → Nat → ConvertState)
    (Q : Nat → Nat → Nat → Prop) (n : Nat)
    (hstep : ∀ (P : Nat → Nat → Prop) (s : ConvertState) (t : Nat), t < n →
      ClearedBits P img0 s → ClearedBits (fun i j => P i j ∨ Q t i j) img0 (f s t)) :
    ∀ (P : Nat → Nat → Prop) (s : ConvertState), ClearedBits P img0 s →
      ClearedBits (fun i j => P i j ∨ ∃ t, t < n ∧ Q t i j) img0 ((List.range n).foldl f s) := by
  induction n with
  | zero =>
    intro P s hs
    exact clearedBits_congr _ _ _ _ (fun i j => by simp) hs
  | succ n ih =>
    intro P s hs
    rw [List.range_succ, List.foldl_append]
    have h1 := ih (fun P s t ht => hstep P s t (by omega)) P s hs
    have h2 := hstep _ _ n (by omega) h1
    refine clearedBits_congr _ _ _ _ (fun i j => ?_) h2
    constructor
    · rintro ((hp | ⟨t, ht, hq⟩) | hq)
      · exact Or.inl hp
      · exact Or.inr ⟨t, by omega, hq⟩
      · exact Or.inr ⟨n, by omega, hq⟩
    · rintro (hp | ⟨t, ht, hq⟩)
      · exact Or.inl (Or.inl hp)
      · by_cases htn : t = n
        · subst htn; exact Or.inr hq
        · exact Or.inl (Or.inr ⟨t, by omega, hq⟩)

theorem and_seven (y : Nat) : y &&& 0x07 = y % 8 :=
  Nat.and_pow_two_sub_one_eq_mod y 3

theorem destIdx_lt (k H y s : Nat) (hy : y < H) (hs : s < 8 * k) :
    (8 * k - 1 - s) * ((H + 7) / 8) + y / 8 < (H + 7) / 8 * (8 * k) := by
  have h1 : (8 * k - 1 - s) * ((H + 7) / 8) ≤ (8 * k - 1) * ((H + 7) / 8) :=
    Nat.mul_le_mul_right _ (by omega)
  have h2 : (8 * k - 1) * ((H + 7) / 8) + (H + 7) / 8 = (H + 7) / 8 * (8 * k) := by
    have : 8 * k - 1 + 1 = 8 * k := by omega
    calc (8 * k - 1) * ((H + 7) / 8) + (H + 7) / 8 = (8 * k - 1 + 1) * ((H + 7) / 8) := by ring
      _ = (H + 7) / 8 * (8 * k) := by rw [this]; ring
  have h3 : y / 8 < (H + 7) / 8 := by omega
  omega

theorem dims_fit (k H : Nat) (hk : 1 ≤ k) (hB : 8 * k * H < 2147483648) :
    H + 7 < 2147483648 ∧ (H + 7) / 8 * (8 * k) < 2147483648 ∧ H * k < 2147483648 := by
  have h1 : 8 * 1 * H ≤ 8 * k * H := Nat.mul_le_mul_right _ (Nat.mul_le_mul_left _ hk)
  have h2 : (H + 7) / 8 * (8 * k) ≤ H * (8 * k) := Nat.mul_le_mul_right _ (by omega)
  have h3 : H * (8 * k) = 8 * k * H := by ring
  have h4 : H * k ≤ H * (8 * k) := Nat.mul_le_mul_left _ (by omega)
  refine ⟨by omega, by omega, by omega⟩

theorem convertBit_eq (k H y xB bit m : Nat) (st : ConvertState) (hbit : bit < 8)
    (hx : xB < k) (hy : y < H) (hB : 8 * k * H < 2147483648) :
    convertBit ((8 * k : Nat) : Int) (((H + 7) / 8 : Nat) : Int) ((y / 8 : Nat) : Int) m xB st
        bit =
      clearDestBit st (((8 * k - 1 - (8 * xB + bit)) * ((H + 7) / 8) + y / 8 : Nat) : Int) m := by
  have e : ((8 * k - 1 - (8 * xB + bit) : Nat) : Int) =
      ((8 * k : Nat) : Int) - 1 - ((xB : Int) * 8 + (bit : Int)) := by omega
  have e2 : (((8 * k - 1 - (8 * xB + bit)) * ((H + 7) / 8) + y / 8 : Nat) : Int) =
      (((8 * k : Nat) : Int) - 1 - ((xB : Int) * 8 + (bit : Int))) * (((H + 7) / 8 : Nat) : Int) +
        ((y / 8 : Nat) : Int) := by
    rw [Nat.cast_add, Nat.cast_mul, e]
  have hD : ((((H + 7) / 8 : Nat) : Int)) * ((8 * k : Nat) : Int) < 2147483648 := by
    have := (dims_fit k H (by omega) hB).2.1
    exact_mod_cast this
  have hw := (destIdx_wrap ((8 * k : Nat) : Int) (((H + 7) / 8 : Nat) : Int)
    ((y / 8 : Nat) : Int) xB bit (by omega) (by omega) (by omega) hD).1
  unfold convertBit
  dsimp only
  rw [hw, e2]

theorem convertBit_cleared (k H y xB bit : Nat) (P : Nat → Nat → Prop) (img0 : List Nat)
    (st : ConvertState) (hy : y < H) (hx : xB < k) (hbit : bit < 8)
    (hB : 8 * k * H < 2147483648)
    (hlen : img0.length = (H + 7) / 8 * (8 * k)) (hc : ClearedBits P img0 st) :
    ClearedBits (fun i j => P i j ∨
        (i = (8 * k - 1 - (8 * xB + bit)) * ((H + 7) / 8) + y / 8 ∧ j = 7 - y % 8)) img0
      (convertBit ((8 * k : Nat) : Int) (((H + 7) / 8 : Nat) : Int) ((y / 8 : Nat) : Int)
        (bitMasks.getD (y &&& 0x07) 0) xB st bit) := by
  rw [convertBit_eq k H y xB bit _ st hbit hx hy hB, and_seven]
  exact clearDestBit_cleared P img0 st _ (y % 8) hc
    (by rw [hlen]; exact destIdx_lt k H y _ hy (by omega)) (Nat.mod_lt _ (by norm_num))

theorem convertByte_cleared (k H y xB srcByte : Nat) (P : Nat → Nat → Prop) (img0 : List Nat)
    (st : ConvertState) (hy : y < H) (hx : xB < k) (hB : 8 * k * H < 2147483648)
    (hlen : img0.length = (H + 7) / 8 * (8 * k)) (hc : ClearedBits P img0 st) :
    ClearedBits (fun i j => P i j ∨ ∃ bit, bit < 8 ∧ (srcByte.testBit (7 - bit) = false ∧
        i = (8 * k - 1 - (8 * xB + bit)) * ((H + 7) / 8) + y / 8 ∧ j = 7 - y % 8)) img0
      (convertByte ((8 * k : Nat) : Int) (((H + 7) / 8 : Nat) : Int) ((y / 8 : Nat) : Int)
        (bitMasks.getD (y &&& 0x07) 0) xB srcByte st) := by
  unfold convertByte
  split
  · rename_i hff
    refine clearedBits_congr _ _ _ _ (fun i j => ?_) hc
    constructor
    · exact Or.inl
    · rintro (hp | ⟨bit, hb, ht, _⟩)
      · exact hp
      · exfalso
        rw [hff] at ht
        have h255 := Nat.testBit_two_pow_sub_one 8 (7 - bit)
        have hlt : 7 - bit < 8 := by omega
        rw [decide_eq_true hlt] at h255
        have h3 : (2 ^ 8 - 1 : Nat) = 0xFF := by norm_num
        rw [h3, ht] at h255
        exact absurd h255 (by decide)
  · split
    · rename_i _ h00
      refine cleared_fold img0 _ (fun bit i j => srcByte.testBit (7 - bit) = false ∧
        i = (8 * k - 1 - (8 * xB + bit)) * ((H + 7) / 8) + y / 8 ∧ j = 7 - y % 8) 8 ?_ P st hc
      intro P2 s bit hb hs
      refine clearedBits_congr _ _ _ _ (fun i j => ?_)
        (convertBit_cleared k H y xB bit P2 img0 s hy hx hb hB hlen hs)
      have hz : srcByte.testBit (7 - bit) = false := by rw [h00]; simp
      constructor
      · rintro (hp | hq)
        · exact Or.inl hp
        · exact Or.inr ⟨hz, hq⟩
      · rintro (hp | ⟨_, hq⟩)
        · exact Or.inl hp
        · exact Or.inr hq
    · refine cleared_fold img0 _ (fun bit i j => srcByte.testBit (7 - bit) = false ∧
        i = (8 * k - 1 - (8 * xB + bit)) * ((H + 7) / 8) + y / 8 ∧ j = 7 - y % 8) 8 ?_ P st hc
      intro P2 s bit hb hs
      dsimp only
      split
      · rename_i hz0
        have hz := (and_mask_zero srcByte bit hb).mp hz0
        refine clearedBits_congr _ _ _ _ (fun i j => ?_)
          (convertBit_cleared k H y xB bit P2 img0 s hy hx hb hB hlen hs)
        constructor
        · rintro (hp | hq)
          · exact Or.inl hp
          · exact Or.inr ⟨hz, hq⟩
        · rintro (hp | ⟨_, hq⟩)
          · exact Or.inl hp
          · exact Or.inr hq
      · rename_i hz0
        have hz : ¬ srcByte.testBit (7 - bit) = false :=
          fun c => hz0 ((and_mask_zero srcByte bit hb).mpr c)
        refine clearedBits_congr _ _ _ _ (fun i j => ?_) hs
        constructor
        · exact Or.inl
        · rintro (hp | ⟨c, _⟩)
          · exact hp
          · exact absurd c hz

theorem convertRow_cleared (bmpData : List Nat) (k H y : Nat) (P : Nat → Nat → Prop)
    (img0 : List Nat) (st : ConvertState) (hy : y < H) (hk : 1 ≤ k)
    (hB : 8 * k * H < 2147483648)
    (hlen : img0.length = (H + 7) / 8 * (8 * k)) (hc : ClearedBits P img0 st) :
    ClearedBits (fun i j => P i j ∨ ∃ xB, xB < k ∧ ∃ bit, bit < 8 ∧
        ((bmpData.getD ((H - 1 - y) * k + xB) 0).testBit (7 - bit) = false ∧
        i = (8 * k - 1 - (8 * xB + bit)) * ((H + 7) / 8) + y / 8 ∧ j = 7 - y % 8)) img0
      (convertRow bmpData ((8 * k : Nat) : Int) (H : Int) st y) := by
  obtain ⟨f1, f2, f3⟩ := dims_fit k H hk hB
  have hq : Int.tdiv ((8 * k : Nat) : Int) 8 = (k : Int) := by
    rw [Int.tdiv_eq_ediv (by omega) (by norm_num)]
    omega
  have hr : Int.tdiv (wrap32 ((H : Int) + 7)) 8 = (((H + 7) / 8 : Nat) : Int) := by
    rw [wrap32_inRange _ (by omega) (by omega), Int.tdiv_eq_ediv (by omega) (by norm_num)]
    omega
  have hHk : (H : Int) * (k : Int) < 2147483648 := by exact_mod_cast f3
  have hsrc := (srcIdx_wrap (H : Int) (k : Int) y (by omega) (by omega) (by omega) hHk).1
  have hidx : ∀ xB : Nat, ((H : Int) - 1 - (y : Int)) * (k : Int) + (xB : Int) =
      (((H - 1 - y) * k + xB : Nat) : Int) := by
    intro xB
    have e : ((H - 1 - y : Nat) : Int) = (H : Int) - 1 - (y : Int) := by omega
    rw [Nat.cast_add, Nat.cast_mul, e]
  unfold convertRow
  dsimp only
  rw [hq, hr, hsrc, Int.toNat_ofNat]
  refine clearedBits_congr _ _ _ _ (fun i j => ?_)
    (cleared_fold img0 _ (fun xB i j => ∃ bit, bit < 8 ∧
      ((wrapU8 (bmpData.getD ((H - 1 - y) * k + xB) 0)).testBit (7 - bit) = false ∧
        i = (8 * k - 1 - (8 * xB + bit)) * ((H + 7) / 8) + y / 8 ∧ j = 7 - y % 8)) k ?_ P st hc)
  · have hw : ∀ (v bit : Nat), bit < 8 →
        (wrapU8 v).testBit (7 - bit) = v.testBit (7 - bit) := by
      intro v bit hb
      unfold wrapU8
      have := Nat.testBit_mod_two_pow v 8 (7 - bit)
      have hlt : 7 - bit < 8 := by omega
      rw [decide_eq_true hlt, Bool.true_and] at this
      exact this
    constructor
    · rintro (hp | ⟨xB, hx, bit, hb, ht, hq2⟩)
      · exact Or.inl hp
      · exact Or.inr ⟨xB, hx, bit, hb, by rw [← hw _ bit hb]; exact ht, hq2⟩
    · rintro (hp | ⟨xB, hx, bit, hb, ht, hq2⟩)
      · exact Or.inl hp
      · exact Or.inr ⟨xB, hx, bit, hb, by rw [hw _ bit hb]; exact ht, hq2⟩
  · intro P2 s xB hxB hs
    dsimp only
    rw [hidx xB, if_neg (by omega), Int.toNat_ofNat]
    exact convertByte_cleared k H y xB _ P2 img0 _ hy hxB hB hlen hs

theorem convert_cleared (bmpData : List Nat) (k H : Nat) (img0 : List Nat) (hk : 1 ≤ k)
    (hB : 8 * k * H < 2147483648)
    (hlen : img0.length = (H + 7) / 8 * (8 * k)) :
    ClearedBits (fun i j => ∃ y, y < H ∧ ∃ xB, xB < k ∧ ∃ bit, bit < 8 ∧
        ((bmpData.getD ((H - 1 - y) * k + xB) 0).testBit (7 - bit) = false ∧
        i = (8 * k - 1 - (8 * xB + bit)) * ((H + 7) / 8) + y / 8 ∧ j = 7 - y % 8)) img0
      (convertBmpToBWdisplayData bmpData ((8 * k : Nat) : Int) (H : Int) img0) := by
  unfold convertBmpToBWdisplayData
  rw [Int.toNat_ofNat]
  have h0 : ClearedBits (fun _ _ => False) img0
      { displayImage := img0, srcReads := [], destWrites := [] } :=
    ⟨rfl, fun i j _ => by simp⟩
  refine clearedBits_congr _ _ _ _ (fun i j => ?_)
    (cleared_fold img0 _ (fun y i j => ∃ xB, xB < k ∧ ∃ bit, bit < 8 ∧
      ((bmpData.getD ((H - 1 - y) * k + xB) 0).testBit (7 - bit) = false ∧
        i = (8 * k - 1 - (8 * xB + bit)) * ((H + 7) / 8) + y / 8 ∧ j = 7 - y % 8)) H ?_ _ _ h0)
  · simp
  · intro P2 s y hy hs
    exact convertRow_cleared bmpData k H y P2 img0 s hy hk hB hlen hs

theorem whiteImage_eq (k H : Nat) (hk : 1 ≤ k) (hB : 8 * k * H < 2147483648) :
    whiteImage ((8 * k : Nat) : Int) (H : Int) = List.replicate ((H + 7) / 8 * (8 * k)) 0xFF := by
  obtain ⟨f1, f2, f3⟩ := dims_fit k H hk hB
  have hr : Int.tdiv (wrap32 ((H : Int) + 7)) 8 = (((H + 7) / 8 : Nat) : Int) := by
    rw [wrap32_inRange _ (by omega) (by omega), Int.tdiv_eq_ediv (by omega) (by norm_num)]
    omega
  have hD : ((((H + 7) / 8 * (8 * k) : Nat)) : Int) < 2147483648 := by exact_mod_cast f2
  unfold whiteImage displayBufferSize
  dsimp only
  rw [hr, ← Nat.cast_mul, wrap32_inRange _ (by omega) hD, Int.toNat_ofNat]

theorem mask_test (v c : Nat) (hc : c < 8) :
    (v &&& (0x80 >>> c) == 0) = !v.testBit (7 - c) := by
  have h : (0x80 : Nat) >>> c = 2 ^ (7 - c) := by
    interval_cases c <;> rfl
  rw [h, Nat.and_two_pow]
  cases v.testBit (7 - c) <;> simp

theorem quot_rem_unique (b a1 r1 a2 r2 : Nat) (h1 : r1 < b) (h2 : r2 < b)
    (h : a1 * b + r1 = a2 * b + r2) : a1 = a2 ∧ r1 = r2 := by
  have hb : 0 < b := by omega
  have e1 := (Nat.div_mod_unique hb).mpr ⟨by rw [Nat.mul_comm b a1, Nat.add_comm], h1⟩
  have e2 := (Nat.div_mod_unique hb).mpr ⟨by rw [Nat.mul_comm b a2, Nat.add_comm, ← h], h2⟩
  exact ⟨e1.1.symm.trans e2.1, e1.2.symm.trans e2.2⟩

/-- C26 as amended: the turn `convertBmpToBWdisplayData` performs is a quarter
turn counter-clockwise. For every width `8 * k` and height `H` whose product
fits in an `int` (`8 * k * H < 2^31`), every source buffer and the all-white
display image `loadBMP` prepares: the display pixel at column `c`, row
`8 * k - 1 - x` is black exactly when `c` is below the height and the source
pixel at column `x`, row `c` from the top is black. Source pixel `(x, y)` thus
lands at column `y`, row `width - 1 - x`, and the padding columns stay
white. -/
theorem convertBmpToBWdisplayData_pixel (bmpData : List Nat) (k H x c : Nat)
    (hx : x < 8 * k) (hc : c < 8 * ((H + 7) / 8)) (hB : 8 * k * H < 2147483648) :
    destPixelBlack
      (convertBmpToBWdisplayData bmpData ((8 * k : Nat) : Int) (H : Int)
        (whiteImage ((8 * k : Nat) : Int) (H : Int))).displayImage
      ((H + 7) / 8) c (8 * k - 1 - x) =
    (decide (c < H) && srcPixelBlack bmpData (8 * k) H x c) := by
  have hk : 1 ≤ k := by omega
  have hcl := convert_cleared bmpData k H (whiteImage ((8 * k : Nat) : Int) (H : Int)) hk hB
    (by rw [whiteImage_eq k H hk hB]; simp)
  have hj : 7 - c % 8 < 8 := by omega
  have hbit := hcl.2 ((8 * k - 1 - x) * ((H + 7) / 8) + c / 8) (7 - c % 8) hj
  have hi : (8 * k - 1 - x) * ((H + 7) / 8) + c / 8 < (H + 7) / 8 * (8 * k) := by
    have h1 : (8 * k - 1 - x) * ((H + 7) / 8) ≤ (8 * k - 1) * ((H + 7) / 8) :=
      Nat.mul_le_mul_right _ (by omega)
    have h2 : (8 * k - 1) * ((H + 7) / 8) + (H + 7) / 8 = (H + 7) / 8 * (8 * k) := by
      have : 8 * k - 1 + 1 = 8 * k := by omega
      calc (8 * k - 1) * ((H + 7) / 8) + (H + 7) / 8 = (8 * k - 1 + 1) * ((H + 7) / 8) := by ring
        _ = (H + 7) / 8 * (8 * k) := by rw [this]; ring
    omega
  have hwhite : bitAt (whiteImage ((8 * k : Nat) : Int) (H : Int))
      ((8 * k - 1 - x) * ((H + 7) / 8) + c / 8) (7 - c % 8) = true := by
    unfold bitAt
    rw [whiteImage_eq k H hk hB, List.getD_eq_getElem _ _ (by simpa using hi),
      List.getElem_replicate]
    have := Nat.testBit_two_pow_sub_one 8 (7 - c % 8)
    rw [decide_eq_true hj] at this
    exact this
  have hk8 : 8 * k / 8 = k := by omega
  unfold destPixelBlack srcPixelBlack
  rw [mask_test _ _ (Nat.mod_lt _ (by norm_num)), mask_test _ _ (Nat.mod_lt _ (by norm_num)), hk8]
  unfold bitAt at hbit hwhite
  rw [Bool.eq_iff_iff]
  simp only [Bool.not_eq_true', Bool.and_eq_true, decide_eq_true_eq]
  rw [← Bool.not_eq_true, hbit]
  constructor
  · intro hno
    by_contra hcon
    apply hno
    refine ⟨hwhite, ?_⟩
    rintro ⟨y, hy, xB, hxB, bit, hb, ht, hidx, hjj⟩
    obtain ⟨q1, q2⟩ := quot_rem_unique ((H + 7) / 8) _ _ _ _ (by omega) (by omega) hidx
    have hyc : y = c := by omega
    have hxx : x = 8 * xB + bit := by omega
    have hxb : xB = x / 8 := by omega
    have hbb : bit = x % 8 := by omega
    apply hcon
    rw [hyc, hxb, hbb] at ht
    exact ⟨by omega, ht⟩
  · rintro ⟨hcH, ht⟩ ⟨_, hno⟩
    apply hno
    refine ⟨c, hcH, x / 8, by omega, x % 8, Nat.mod_lt _ (by norm_num), ht, ?_, rfl⟩
    have : 8 * (x / 8) + x % 8 = x := by omega
    rw [this]

/-- Witness for C26 as amended: in the 8x2 bitmap whose only black pixel is
the top-left one (`x = 0`, row 0), the display pixel at column 0, row
`8 - 1 - 0 = 7` is black. -/
theorem convertBmpToBWdisplayData_pixel_witness :
    destPixelBlack
      (convertBmpToBWdisplayData topLeftBlack8x2 ((8 * 1 : Nat) : Int) ((2 : Nat) : Int)
        (whiteImage ((8 * 1 : Nat) : Int) ((2 : Nat) : Int))).displayImage
      ((2 + 7) / 8) 0 (8 * 1 - 1 - 0) = true :=
  (convertBmpToBWdisplayData_pixel topLeftBlack8x2 1 2 0 0 (by decide) (by decide)
    (by decide)).trans (by decide)

end CrossPoint
